import Mathlib

/-!
Managed object core of the runtime (`src/object.cc`, `src/dex_cache.cc`).

A shallow embedding of the functions of `object.cc` and `dex_cache.cc` and proofs about them.

Conventions of the embedding.

* Machine integers are natural numbers reduced modulo `2 ^ w` where the source arithmetic can
  wrap; the width of `size_t` / `uintptr_t` is the explicit argument `bits`.
* A pointer to a managed object is modelled by the object it points to together with the
  object's address (`addr`); `p == q` on pointers is equality of addresses, `NULL` is `none`.
* `DCHECK` is a debug-build assertion that is compiled out of release builds.  The functions
  below give the release-build result; where a property speaks about the asserted condition it
  is stated as a separate predicate.  `CHECK` and `LOG(FATAL)` terminate the process in every
  build and are part of the result type.
* Headers such as `object.h` and `thread.h` are not part of `src/`.  The arrays and objects that
  the functions reach through their accessors are given by a heap indexed by the address of the
  owning object (`ClassHeap`, `ObjectMemory`), and services of the runtime by explicit
  arguments.
-/

namespace art

/-! ## Machine words -/

/-- Modelled from the spec: `clz(x)`, the number of leading zero bits of `x` in a word of
`bits` bits (the `CLZ` macro lives in a header that is not part of `src/`).  The word is
scanned from its most significant bit downwards. -/
def CLZ : Nat → Nat → Nat
  | 0, _ => 0
  | bits + 1, x => if x < 2 ^ bits then 1 + CLZ bits x else 0

/-! ## Exceptions and the heap interface -/

/-- A pending managed exception as left by `Thread::ThrowNewExceptionF(descriptor, fmt, ...)`:
the descriptor of the exception class and the formatted message. -/
structure PendingException where
  descriptor : List Char
  message : List Char
deriving DecidableEq, Repr

/-- The array object produced by `Array::Alloc`: the address the heap returned and the
`length_` field written by `SetLength`. -/
structure Array where
  addr : Nat
  length_ : Nat
deriving DecidableEq, Repr

/-- Everything `Array::Alloc` does that a caller can observe: the returned pointer (`none` is
`NULL`), the exception it threw itself, and the sizes it passed to `Heap::AllocObject`, in
order. -/
structure AllocOutcome where
  result : Option Array
  exception : Option PendingException
  heap_requests : List Nat
deriving DecidableEq, Repr

/-- The text of `"%s of length %zd exceeds the VM limit"` for a pretty-printed descriptor and a
component count. -/
def Array.vmLimitMessage (pretty : List Char) (component_count : Nat) : List Char :=
  pretty ++ " of length ".data ++ (Nat.repr component_count).data ++ " exceeds the VM limit".data

/-- `Array::Alloc(Class* array_class, int32_t component_count, size_t component_size)`
(object.cc:1265).  `bits` is the width of `size_t`, `header_size` is `sizeof(Array)`, `pretty`
is `PrettyDescriptor(array_class->GetDescriptor())` and `heap` is `Heap::AllocObject` for
`array_class` (size to address, `none` for `NULL`).  `component_count` is non-negative
(`DCHECK_GE(component_count, 0)`). -/
def Array.Alloc (bits header_size : Nat) (pretty : List Char) (heap : Nat → Option Nat)
    (component_count component_size : Nat) : AllocOutcome :=
  let data_size := (component_count * component_size) % 2 ^ bits
  let size := (header_size + data_size) % 2 ^ bits
  -- Check for overflow and throw OutOfMemoryError if this was an unreasonable request.
  let component_shift := bits - 1 - CLZ bits component_size
  if data_size >>> component_shift ≠ component_count % 2 ^ bits ∨ size < data_size then
    { result := none
      exception := some ⟨"Ljava/lang/OutOfMemoryError;".data,
                         Array.vmLimitMessage pretty component_count⟩
      heap_requests := [] }
  else
    match heap size with
    | some a =>
      { result := some ⟨a, component_count⟩, exception := none, heap_requests := [size] }
    | none => { result := none, exception := none, heap_requests := [size] }

/-! ## Strings -/

/-- A `String` object: `array_` is the data of the backing `CharArray` (UTF-16 code units),
`offset_` and `count_` delimit the string inside it, `hash_code_` is the cached hash. -/
structure String where
  array_ : List Nat
  offset_ : Nat
  count_ : Nat
  hash_code_ : Nat
deriving DecidableEq, Repr

/-- A `String*` that is not `NULL`: the address of the object and the object. -/
structure StringPtr where
  addr : Nat
  object : String
deriving DecidableEq, Repr

/-- Modelled from the spec: the modified UTF-8 form of one UTF-16 code unit (`utf.cc` is not
part of `src/`): one byte for `0x01..0x7f`, the overlong two-byte form for U+0000 (the form of
the glossary) and for units up to `0x7ff`, three bytes otherwise (a surrogate is encoded as the
unit it is).  No byte of the result is NUL. -/
def ConvertUtf16UnitToModifiedUtf8 (ch : Nat) : List Nat :=
  if 1 ≤ ch ∧ ch ≤ 0x7f then [ch]
  else if ch ≤ 0x7ff then [0xc0 + ch / 64, 0x80 + ch % 64]
  else [0xe0 + ch / 4096, 0x80 + (ch / 64) % 64, 0x80 + ch % 64]

/-- Modelled from the spec: `ConvertUtf16ToModifiedUtf8` over a run of code units (`utf.cc` is
not part of `src/`). -/
def ConvertUtf16ToModifiedUtf8 : List Nat → List Nat
  | [] => []
  | ch :: rest => ConvertUtf16UnitToModifiedUtf8 ch ++ ConvertUtf16ToModifiedUtf8 rest

/-- `String::ToModifiedUtf8` (object.cc:1498): the bytes of the `std::string` made from the
`count_` code units that start at `offset_` in the backing array. -/
def String.ToModifiedUtf8 (this : String) : List Nat :=
  ConvertUtf16ToModifiedUtf8 ((this.array_.drop this.offset_).take this.count_)

/-! ## Classes -/

/-- An `InterfaceEntry` of an interface table: the address of the interface class and the
addresses of the methods that implement its slots. -/
structure InterfaceEntry where
  interface_ : Nat
  method_array_ : List Nat
deriving DecidableEq, Repr

/-- A `Class` object as seen through a `Class*`: its address and the fields the functions of
`object.cc` read.  `super_class_` and `component_type_` hold the class pointed to (`none` is
`NULL`), `class_loader_` is the loader pointer, `iftable_` holds the `GetIfTableCount()` entries
of the interface table. -/
inductive Class where
  | mk (addr : Nat) (access_flags_ : Nat) (descriptor_ : String) (class_loader_ : Nat)
      (super_class_ : Option Class) (component_type_ : Option Class)
      (iftable_ : List InterfaceEntry)
deriving Repr

/-- The address of a class object, the value of a `Class*` that points to it. -/
def Class.addr : Class → Nat
  | .mk a _ _ _ _ _ _ => a

/-- `Class::GetAccessFlags`. -/
def Class.GetAccessFlags : Class → Nat
  | .mk _ f _ _ _ _ _ => f

/-- `Class::GetDescriptor`. -/
def Class.GetDescriptor : Class → String
  | .mk _ _ d _ _ _ _ => d

/-- `Class::GetClassLoader` (object.cc:1017). -/
def Class.GetClassLoader : Class → Nat
  | .mk _ _ _ l _ _ _ => l

/-- `Class::GetSuperClass`. -/
def Class.GetSuperClass : Class → Option Class
  | .mk _ _ _ _ s _ _ => s

/-- `Class::GetComponentType`. -/
def Class.GetComponentType : Class → Option Class
  | .mk _ _ _ _ _ c _ => c

/-- `Class::GetIfTable`, its first `GetIfTableCount()` entries. -/
def Class.GetIfTable : Class → List InterfaceEntry
  | .mk _ _ _ _ _ _ i => i

/-- The access flag of an interface (`kAccInterface`, a constant of a header that is not part
of `src/`; the value is the one of the class-file format). -/
def kAccInterface : Nat := 0x0200

/-- Modelled from the spec: `IsInterface()`, the interface bit of the access flags (the
accessor is declared in `object.h`, not part of `src/`). -/
def Class.IsInterface (this : Class) : Bool :=
  this.GetAccessFlags &&& kAccInterface != 0

/-- Modelled from the spec: `IsArrayClass()`, a class is an array class when it has a component
type (the accessor is declared in `object.h`, not part of `src/`). -/
def Class.IsArrayClass (this : Class) : Bool :=
  this.GetComponentType.isSome

/-- Pointer comparison `p == q` of two `Class*` values. -/
def Class.ptrEq : Option Class → Option Class → Bool
  | none, none => true
  | some a, some b => a.addr == b.addr
  | _, _ => false

/-- The loop of `Class::Implements` over the interface table. -/
def Class.Implements.scan (klass : Class) : List InterfaceEntry → Bool
  | [] => false
  | e :: rest => if e.interface_ = klass.addr then true else Class.Implements.scan klass rest

/-- `Class::Implements(const Class* klass)` (object.cc:900): linear scan of `iftable_` for an
entry whose interface is `klass`. -/
def Class.Implements (this klass : Class) : Bool :=
  Class.Implements.scan klass this.GetIfTable

/-- The debug assertions of `Class::Implements`: `klass` is an interface. -/
def Class.Implements_DCHECK (_this klass : Class) : Prop :=
  klass.IsInterface = true

/-- `Class::IsSubClass(const Class* klass)` (object.cc:955): walk from `this` along
`GetSuperClass()` until `klass` is met or the chain ends. -/
def Class.IsSubClass : Class → Class → Bool
  | .mk a _ _ _ s _ _, klass =>
    if a = klass.addr then true
    else match s with
      | some current => current.IsSubClass klass
      | none => false

/-- The debug assertions of `Class::IsSubClass`: `this` is neither an interface nor an array
class. -/
def Class.IsSubClass_DCHECK (this _klass : Class) : Prop :=
  this.IsInterface = false ∧ this.IsArrayClass = false

/-- Modelled from the spec: `is_assignable_from(src)` (`Class::IsAssignableFrom` is defined in
`object.h`, not part of `src/`).  A class is assignable from itself (`this == src`): the
specification requires `A.is_assignable_from(A)` of all classes, and the table in front of
`IsArrayAssignableFromArray` has the identity case.  Then, in the order of the specification:
an interface `this` asks `src.Implements(this)`; two array classes compare their component
types; an array `src` with a non-array `this` is assignable iff `this` is the root object
class, tested as in `IsAssignableFromArray` by `this == src->GetSuperClass()`; every other pair
walks the superclasses of `src`. -/
def Class.IsAssignableFrom : Class → Class → Bool
  | .mk a f d l s c i, src =>
    if a = src.addr then true
    else if (Class.mk a f d l s c i).IsInterface then src.Implements (Class.mk a f d l s c i)
    else match c, src.GetComponentType with
      | some this_component, some src_component => this_component.IsAssignableFrom src_component
      | none, some _ => Class.ptrEq (some (Class.mk a f d l s c i)) src.GetSuperClass
      | _, none => src.IsSubClass (Class.mk a f d l s c i)

/-- `Class::IsArrayAssignableFromArray(const Class* src)` (object.cc:935).  Both classes are
array classes (asserted); when a component type is `NULL` the call dereferences a null pointer
and the model answers `false`. -/
def Class.IsArrayAssignableFromArray (this src : Class) : Bool :=
  match this.GetComponentType, src.GetComponentType with
  | some this_component, some src_component => this_component.IsAssignableFrom src_component
  | _, _ => false

/-- `Class::IsAssignableFromArray(const Class* src)` (object.cc:941). -/
def Class.IsAssignableFromArray (this src : Class) : Bool :=
  if !this.IsArrayClass then
    -- If "this" is not also an array, it must be Object.
    let java_lang_Object := src.GetSuperClass
    Class.ptrEq (some this) java_lang_Object
  else
    this.IsArrayAssignableFromArray src

/-- The debug assertions of `Class::IsAssignableFromArray`: `this` is not an interface, `src`
is an array class, and when `this` is not an array the superclass of `src` exists and has no
superclass itself. -/
def Class.IsAssignableFromArray_DCHECK (this src : Class) : Prop :=
  this.IsInterface = false ∧ src.IsArrayClass = true ∧
  (this.IsArrayClass = false →
    ∃ java_lang_Object, src.GetSuperClass = some java_lang_Object ∧
      java_lang_Object.GetSuperClass = none)

/-- The classes visited by the walk of `IsSubClass`: `this`, its superclass, and so on. -/
def Class.superChain : Class → List Class
  | .mk a f d l s c i =>
    Class.mk a f d l s c i ::
      (match s with
        | some current => current.superChain
        | none => [])

/-- The classes met by following `GetComponentType()` from `this`: `this`, its component type,
and so on down to the innermost element class. -/
def Class.componentChain : Class → List Class
  | .mk a f d l s c i =>
    Class.mk a f d l s c i ::
      (match c with
        | some component => component.componentChain
        | none => [])

/-- The addresses of the interfaces listed in the interface table of a class
(`iftable->Get(i)->GetInterface()` for `i < GetIfTableCount()`). -/
def Class.listedInterfaces (this : Class) : List Nat :=
  this.GetIfTable.map (fun interface_entry => interface_entry.interface_)

/-- The invariants the class linker establishes for the set `loaded` of class objects of a
runtime, `root` being the address of the root object class.  They are the facts the source
relies on: an address denotes one object; arrays and interfaces extend the root class, which has
no superclass (`IsAssignableFromArray` asserts it); superclasses are ordinary classes; and
"all interfaces implemented directly and by our superclass, and recursively all
super-interfaces of those interfaces, are listed in iftable_" (`Implements`): the table of a
class lists what the table of its superclass lists (`iftable_super`) and what the table of
every interface it lists does (`iftable_closed`); all array classes list the same interfaces
(`iftable_array`); and a class that is not an array and lists an interface descends from the
root class (`implementer_rooted`). -/
structure ClassTable.WellFormed (loaded : Class → Prop) (root : Nat) : Prop where
  super_loaded : ∀ X S, loaded X → X.GetSuperClass = some S → loaded S
  component_loaded : ∀ X K, loaded X → X.GetComponentType = some K → loaded K
  addr_inj : ∀ X Y, loaded X → loaded Y → X.addr = Y.addr → X = Y
  array_not_interface : ∀ X, loaded X → X.IsArrayClass = true → X.IsInterface = false
  array_super : ∀ X, loaded X → X.IsArrayClass = true →
    ∃ O, X.GetSuperClass = some O ∧ O.addr = root
  interface_super : ∀ X, loaded X → X.IsInterface = true →
    ∃ O, X.GetSuperClass = some O ∧ O.addr = root
  root_super : ∀ O, loaded O → O.addr = root → O.GetSuperClass = none
  super_plain : ∀ X S, loaded X → X.GetSuperClass = some S →
    S.IsArrayClass = false ∧ S.IsInterface = false
  iftable_super : ∀ X S, loaded X → X.GetSuperClass = some S →
    ∀ a ∈ S.listedInterfaces, a ∈ X.listedInterfaces
  iftable_closed : ∀ X I, loaded X → loaded I → I.addr ∈ X.listedInterfaces →
    ∀ a ∈ I.listedInterfaces, a ∈ X.listedInterfaces
  iftable_array : ∀ X Y, loaded X → loaded Y → X.IsArrayClass = true →
    Y.IsArrayClass = true → ∀ a ∈ X.listedInterfaces, a ∈ Y.listedInterfaces
  implementer_rooted : ∀ X, loaded X → X.IsArrayClass = false →
    X.listedInterfaces ≠ [] → ∃ O ∈ X.superChain, O.addr = root

/-! ## Packages -/

/-- The loop `while (descriptor1[i] != '\0' && descriptor1[i] == descriptor2[i]) ++i` of
`Class::IsInSamePackage`, started at index `i` with the characters from `i` on.  Reading a
`std::string` at its length gives `'\0'`. -/
def Class.IsInSamePackage.mismatch : List Nat → List Nat → Nat → Nat
  | [], _, i => i
  | c1 :: rest1, descriptor2, i =>
    if c1 ≠ 0 ∧ c1 = descriptor2.headD 0 then
      Class.IsInSamePackage.mismatch rest1 descriptor2.tail (i + 1)
    else i

/-- The character `'/'` as a byte of a `std::string`. -/
def slash : Nat := '/'.toNat

/-- The scan of `std::string::find(ch, pos)` over the characters from index `k` on. -/
def std_string_find.scan (ch : Nat) : List Nat → Nat → Option Nat
  | [], _ => none
  | c :: rest, k => if c = ch then some k else std_string_find.scan ch rest (k + 1)

/-- `std::string::find(ch, pos)`: the index of the first `ch` at or after `pos`, `none` for
`npos`. -/
def std_string_find (s : List Nat) (ch : Nat) (pos : Nat) : Option Nat :=
  std_string_find.scan ch (s.drop pos) pos

/-- `Class::IsInSamePackage(const String*, const String*)` (object.cc:968). -/
def Class.IsInSamePackageDescriptors (descriptor_string_1 descriptor_string_2 : String) : Bool :=
  let descriptor1 := descriptor_string_1.ToModifiedUtf8
  let descriptor2 := descriptor_string_2.ToModifiedUtf8
  let i := Class.IsInSamePackage.mismatch descriptor1 descriptor2 0
  if std_string_find descriptor1 slash i ≠ none ∨
      std_string_find descriptor2 slash i ≠ none then
    false
  else
    true

/-- The loop `while (klass->IsArrayClass()) klass = klass->GetComponentType()` of
`Class::IsInSamePackage`. -/
def Class.IsInSamePackage.elementClass : Class → Class
  | .mk a f d l s c i =>
    match c with
    | some component => Class.IsInSamePackage.elementClass component
    | none => .mk a f d l s c i

/-- `Class::IsInSamePackage(const Class* that)` (object.cc:996). -/
def Class.IsInSamePackage (this that : Class) : Bool :=
  let klass1 := this
  let klass2 := that
  if klass1.addr = klass2.addr then
    true
  -- Class loaders must match.
  else if klass1.GetClassLoader ≠ klass2.GetClassLoader then
    false
  else
    -- Arrays are in the same package when their element classes are.
    let klass1 := Class.IsInSamePackage.elementClass klass1
    let klass2 := Class.IsInSamePackage.elementClass klass2
    -- Compare the package part of the descriptor string.
    Class.IsInSamePackageDescriptors klass1.GetDescriptor klass2.GetDescriptor

/-- The package prefix of a descriptor in the words of the specification: the prefix up to and
including the last `'/'`, empty when the descriptor has no `'/'`. -/
def packagePrefix : List Nat → List Nat
  | [] => []
  | c :: rest => if slash ∈ c :: rest then c :: packagePrefix rest else []

/-! ## Methods -/

/-- Modelled from the spec: the distinguished `NO_INDEX` constant (`DexFile::kDexNoIndex`,
declared in `dex_file.h`, not part of `src/`), the all-ones 32-bit value. -/
def DexFile.kDexNoIndex : Nat := 0xFFFFFFFF

/-- Modelled from the spec: the `NO_INDEX_16` constant (`DexFile::kDexNoIndex16`, declared in
`dex_file.h`, not part of `src/`), the all-ones 16-bit value that marks a catch-all handler. -/
def DexFile.kDexNoIndex16 : Nat := 0xFFFF

/-- One position of a `CatchHandlerIterator`: `GetHandlerTypeIndex()` and
`GetHandlerAddress()`. -/
structure CatchHandler where
  type_idx : Nat
  address : Nat
deriving DecidableEq, Repr

/-- A `DexFile::CodeItem` as `FindCatchBlock` uses it: for each bytecode pc the handlers that
`CatchHandlerIterator(code_item, dex_pc)` visits, in iteration order. -/
structure DexFile.CodeItem where
  catch_handlers : Nat → List CatchHandler

/-- A `DexCache` as `FindCatchBlock` uses it: the `resolved_types` array, `none` for an entry
that is still `NULL`. -/
structure DexCache where
  resolved_types_ : List (Option Class)

/-- `DexCache::GetResolvedType(type_idx)`. -/
def DexCache.GetResolvedType (this : DexCache) (type_idx : Nat) : Option Class :=
  this.resolved_types_.getD type_idx none

/-- A `Method` object: `code_` is the pointer `GetCode()`, `mapping_table_` the pairs
`(native_offset, bytecode_offset)` of the flat `uint32_t` mapping table (`none` when
`GetMappingTable()` is `NULL`), `dex_cache_` is `GetDeclaringClass()->GetDexCache()` and
`code_item_` is the code item at `GetCodeItemOffset()` in the dex file of that cache; `addr` is
the address of the object, the value of a `Method*` that points to it, and `access_flags_` are
its access flags.  `declaring_class_` is the class `GetDeclaringClass()` points to,
`method_index_` is `GetMethodIndex()`, `name_`, `signature_` and `shorty_` are the strings
`GetName()`, `GetSignature()` and `GetShorty()` point to, and `java_parameter_types_` (the
addresses of the parameter classes in the array) and `java_return_type_` are the reflection
fields, `none` for `NULL`. -/
structure Method where
  code_ : Nat
  mapping_table_ : Option (List (Nat × Nat))
  dex_cache_ : DexCache
  code_item_ : DexFile.CodeItem
  addr : Nat
  access_flags_ : Nat
  declaring_class_ : Class
  method_index_ : Nat
  name_ : StringPtr
  signature_ : StringPtr
  shorty_ : StringPtr
  java_parameter_types_ : Option (List Nat) := none
  java_return_type_ : Option Nat := none

/-- The loop of `Method::ToDexPC` over the remaining pairs, with the current `best_offset` and
`best_dex_offset`; the result is the `best_dex_offset` the function returns. -/
def Method.ToDexPC.loop (sought_offset : Nat) : List (Nat × Nat) → Nat → Nat → Nat
  | [], _, best_dex_offset => best_dex_offset
  | (map_offset, map_dex_offset) :: rest, best_offset, best_dex_offset =>
    if map_offset = sought_offset then
      map_dex_offset
    else if map_offset < sought_offset ∧ map_offset > best_offset then
      Method.ToDexPC.loop sought_offset rest map_offset map_dex_offset
    else
      Method.ToDexPC.loop sought_offset rest best_offset best_dex_offset

/-- `Method::ToDexPC(const uintptr_t pc)` (object.cc:653).  `bits` is the width of
`uintptr_t`; `sought_offset` is the pointer difference truncated to `uint32_t`. -/
def Method.ToDexPC (bits : Nat) (this : Method) (pc : Nat) : Nat :=
  match this.mapping_table_ with
  | none => DexFile.kDexNoIndex   -- Special no mapping case
  | some mapping_table =>
    let sought_offset := ((pc + 2 ^ bits - this.code_) % 2 ^ bits) % 2 ^ 32
    Method.ToDexPC.loop sought_offset mapping_table 0 0

/-- The result of a call that either returns a value or ends the process in `LOG(FATAL)` with
the logged text. -/
inductive CallResult (α : Type) where
  | returned (value : α)
  | fatal (log : List Char)
deriving DecidableEq, Repr

/-- The loop of `Method::ToNativePC` over the remaining pairs; the `LOG(FATAL)` is reached when
the loop ends without a match. -/
def Method.ToNativePC.loop (bits code dex_pc : Nat) : List (Nat × Nat) → CallResult Nat
  | [] => .fatal "Looking up Dex PC not contained in method".data
  | (map_offset, map_dex_offset) :: rest =>
    if map_dex_offset = dex_pc then
      .returned ((code + map_offset) % 2 ^ bits)
    else
      Method.ToNativePC.loop bits code dex_pc rest

/-- `Method::ToNativePC(const uint32_t dex_pc)` (object.cc:679).  `bits` is the width of
`uintptr_t`. -/
def Method.ToNativePC (bits : Nat) (this : Method) (dex_pc : Nat) : CallResult Nat :=
  match this.mapping_table_ with
  | none => .returned 0   -- Special no mapping/pc == 0 case
  | some mapping_table => Method.ToNativePC.loop bits this.code_ dex_pc mapping_table

/-- The debug assertion of `Method::ToNativePC`: without a mapping table the argument is 0
(`DCHECK_EQ(dex_pc, 0U)`). -/
def Method.ToNativePC_DCHECK (this : Method) (dex_pc : Nat) : Prop :=
  this.mapping_table_ = none → dex_pc = 0

/-- The loop of `Method::FindCatchBlock` over the handlers the iterator still has to visit. -/
def Method.FindCatchBlock.loop (dex_cache : DexCache) (exception_type : Class) :
    List CatchHandler → Nat
  | [] => DexFile.kDexNoIndex   -- Handler not found
  | it :: rest =>
    let iter_type_idx := it.type_idx
    -- Catch all case
    if iter_type_idx = DexFile.kDexNoIndex16 then
      it.address
    else
      -- Does this catch exception type apply?
      match dex_cache.GetResolvedType iter_type_idx with
      | none => Method.FindCatchBlock.loop dex_cache exception_type rest   -- LOG(WARNING)
      | some iter_exception_type =>
        if iter_exception_type.IsAssignableFrom exception_type then
          it.address
        else
          Method.FindCatchBlock.loop dex_cache exception_type rest

/-- `Method::FindCatchBlock(Class* exception_type, uint32_t dex_pc)` (object.cc:697). -/
def Method.FindCatchBlock (this : Method) (exception_type : Class) (dex_pc : Nat) : Nat :=
  Method.FindCatchBlock.loop this.dex_cache_ exception_type (this.code_item_.catch_handlers dex_pc)

/-- A handler catches `exception_type` in the words of the specification: it is the catch-all
handler, or its type is resolved in the dex cache and assignable from `exception_type`. -/
def CatchHandler.catches (dex_cache : DexCache) (exception_type : Class) (h : CatchHandler) :
    Prop :=
  h.type_idx = DexFile.kDexNoIndex16 ∨
    ∃ T, dex_cache.GetResolvedType h.type_idx = some T ∧
      T.IsAssignableFrom exception_type = true

/-! ## Sample objects -/

namespace Sample

/-- The `String` object of an ASCII text. -/
def string (text : List Char) : String :=
  { array_ := text.map Char.toNat, offset_ := 0, count_ := text.length, hash_code_ := 0 }

/-- An ordinary public class without interfaces. -/
def plainClass (addr : Nat) (descriptor : List Char) (loader : Nat) (super : Option Class) :
    Class :=
  .mk addr 0x0001 (string descriptor) loader super none []

def java_lang_Object : Class := plainClass 0x1000 "Ljava/lang/Object;".data 0 none

/-- An interface without super-interfaces: its interface table is empty. -/
def java_lang_Runnable : Class :=
  .mk 0x1100 0x0601 (string "Ljava/lang/Runnable;".data) 0 (some java_lang_Object) none []

/-- A class that implements `Runnable`. -/
def Task : Class :=
  .mk 0x1200 0x0001 (string "Lp/q/Task;".data) 0 (some java_lang_Object) none
    [⟨0x1100, []⟩]

/-- A subclass of `Task`; its interface table repeats the one of the superclass. -/
def SubTask : Class :=
  .mk 0x1300 0x0001 (string "Lp/q/SubTask;".data) 0 (some Task) none [⟨0x1100, []⟩]

def p_q_A : Class := plainClass 0x2000 "Lp/q/A;".data 1 (some java_lang_Object)

def java_lang_Throwable : Class :=
  plainClass 0x3000 "Ljava/lang/Throwable;".data 0 (some java_lang_Object)

def java_lang_Exception : Class :=
  plainClass 0x3100 "Ljava/lang/Exception;".data 0 (some java_lang_Throwable)

def java_io_IOException : Class :=
  plainClass 0x3200 "Ljava/io/IOException;".data 0 (some java_lang_Exception)

def java_lang_Error : Class :=
  plainClass 0x3300 "Ljava/lang/Error;".data 0 (some java_lang_Throwable)

/-- A dex cache whose type index 2 is resolved to `IOException`. -/
def dexCache : DexCache :=
  { resolved_types_ := [none, none, some java_io_IOException] }

/-- The method of the catch-search scenario with the handlers in the order of the scenario:
catch-all `0x40` first, `IOException` handler `0x50` second, both at bytecode pc `0x10`. -/
def methodCatchAllFirst : Method :=
  { code_ := 0x8000
    mapping_table_ := none
    dex_cache_ := dexCache
    code_item_ :=
      { catch_handlers := fun dex_pc =>
          if dex_pc = 0x10 then [⟨DexFile.kDexNoIndex16, 0x40⟩, ⟨2, 0x50⟩] else [] }
    addr := 0x7000
    access_flags_ := 0x0001
    declaring_class_ := Task
    method_index_ := 0
    name_ := ⟨0x9000, string "run".data⟩
    signature_ := ⟨0x9010, string "()V".data⟩
    shorty_ := ⟨0x9020, string "V".data⟩ }

/-- The same method with the catch-all handler last. -/
def methodCatchAllLast : Method :=
  { code_ := 0x8000
    mapping_table_ := none
    dex_cache_ := dexCache
    code_item_ :=
      { catch_handlers := fun dex_pc =>
          if dex_pc = 0x10 then [⟨2, 0x50⟩, ⟨DexFile.kDexNoIndex16, 0x40⟩] else [] }
    addr := 0x7100
    access_flags_ := 0x0001
    declaring_class_ := Task
    method_index_ := 0
    name_ := ⟨0x9000, string "run".data⟩
    signature_ := ⟨0x9010, string "()V".data⟩
    shorty_ := ⟨0x9020, string "V".data⟩ }

/-- A method with the given mapping table and code at `0x8000`. -/
def methodWithTable (table : Option (List (Nat × Nat))) : Method :=
  { code_ := 0x8000
    mapping_table_ := table
    dex_cache_ := dexCache
    code_item_ := { catch_handlers := fun _ => [] }
    addr := 0x7200
    access_flags_ := 0x0001
    declaring_class_ := Task
    method_index_ := 0
    name_ := ⟨0x9000, string "run".data⟩
    signature_ := ⟨0x9010, string "()V".data⟩
    shorty_ := ⟨0x9020, string "V".data⟩ }

/-- The array class `Task[]`. -/
def Task_array : Class :=
  .mk 0x1400 0x0411 (string "[Lp/q/Task;".data) 0 (some java_lang_Object) (some Task) []

/-- The array class `SubTask[]`. -/
def SubTask_array : Class :=
  .mk 0x1500 0x0411 (string "[Lp/q/SubTask;".data) 0 (some java_lang_Object) (some SubTask) []

/-- A small class table: the root class, an interface, a class implementing it, a subclass of
that class and the array classes over the two. -/
def loaded (X : Class) : Prop :=
  X ∈ [java_lang_Object, java_lang_Runnable, Task, SubTask, Task_array, SubTask_array]

end Sample

/-! ## Class status -/

/-- `Class::Status`, by the value of the enumerator. -/
abbrev Class.Status := Int

/-- Modelled from the spec: the status values in the order of the status machine (`Error,
NotReady, Idx, Loaded, Resolved, Verifying, Verified, Initializing, Initialized`; the enum is
declared in `object.h`, not part of `src/`), numbered as `operator<<` (object.cc:1575) implies:
`kClassStatusNames[status + 1]` is the name, so `Error` is `-1`. -/
def Class.kStatusError : Class.Status := -1

def Class.kStatusNotReady : Class.Status := 0

def Class.kStatusIdx : Class.Status := 1

def Class.kStatusLoaded : Class.Status := 2

def Class.kStatusResolved : Class.Status := 3

def Class.kStatusVerifying : Class.Status := 4

def Class.kStatusVerified : Class.Status := 5

def Class.kStatusInitializing : Class.Status := 6

def Class.kStatusInitialized : Class.Status := 7

/-- `kClassStatusNames` (object.cc:1564). -/
def kClassStatusNames : List (List Char) :=
  ["Error".data, "NotReady".data, "Idx".data, "Loaded".data, "Resolved".data, "Verifying".data,
    "Verified".data, "Initializing".data, "Initialized".data]

/-- `operator<<(std::ostream&, const Class::Status&)` (object.cc:1575): the text written. -/
def Class.Status.print (rhs : Class.Status) : List Char :=
  if rhs ≥ Class.kStatusError ∧ rhs ≤ Class.kStatusInitialized then
    kClassStatusNames.getD (rhs + 1).toNat []
  else
    "Class::Status[".data ++ (Int.repr rhs).data ++ "]".data

/-- The size of the `Status` enum, an `int`-sized type, as the second `CHECK` of `SetStatus`
compares it. -/
def sizeof_Status : Nat := 4

def sizeof_uint32_t : Nat := 4

/-- What a call of `Class::SetStatus` leaves behind: whether it returned or ended the process in
a failed `CHECK`, and the `status_` word of the class after the call. -/
structure Class.SetStatusOutcome where
  result : CallResult Unit
  status_ : Class.Status
deriving DecidableEq, Repr

/-- `Class::SetStatus(Status new_status)` (object.cc:780) on the `status_` word of the class.
`pretty` is `PrettyClass(this)` and `runtime_started` is `Runtime::Current()->IsStarted()`. -/
def Class.SetStatus (pretty : List Char) (runtime_started : Bool) (status_ : Class.Status)
    (new_status : Class.Status) : Class.SetStatusOutcome :=
  if ¬ (new_status > status_ ∨ new_status = Class.kStatusError ∨ runtime_started = false) then
    { result := .fatal (pretty ++ " ".data ++ Class.Status.print status_ ++ " -> ".data ++
        Class.Status.print new_status)
      status_ := status_ }
  else if ¬ (sizeof_Status = sizeof_uint32_t) then
    { result := .fatal pretty, status_ := status_ }
  else
    { result := .returned (), status_ := new_status }

/-- A sequence of `SetStatus` calls on one class, each with the state of the runtime at the time
of the call; the sequence ends at the first failed `CHECK`.  The result lists the transitions
made: the status before, the status after and whether the runtime had started. -/
def Class.SetStatus.transitions (pretty : List Char) :
    Class.Status → List (Bool × Class.Status) → List (Class.Status × Class.Status × Bool)
  | _, [] => []
  | status_, (runtime_started, new_status) :: rest =>
    match (Class.SetStatus pretty runtime_started status_ new_status).result with
    | .fatal _ => []
    | .returned _ =>
      (status_, (Class.SetStatus pretty runtime_started status_ new_status).status_,
          runtime_started) ::
        Class.SetStatus.transitions pretty
          (Class.SetStatus pretty runtime_started status_ new_status).status_ rest

/-! ## Dex cache: the code-and-direct-methods table -/

/-- `reinterpret_cast<int32_t>(p)` of a 32-bit pointer: the same 32 bits read as a signed
integer. -/
def reinterpret_cast_int32 (p : Nat) : Int :=
  if p % 2 ^ 32 < 2 ^ 31 then (p % 2 ^ 32 : Nat) else ((p % 2 ^ 32 : Nat) : Int) - 2 ^ 32

/-- A `CodeAndDirectMethods` object, an `IntArray`: its `int32_t` elements. -/
structure CodeAndDirectMethods where
  data : List Int
deriving DecidableEq, Repr

/-- Modelled from the spec: the position of the code slot of a method index
(`CodeAndDirectMethods::CodeIndex` is declared in `dex_cache.h`, not part of `src/`): the table
holds a pair of 32-bit slots for each method index, the code slot first. -/
def CodeAndDirectMethods.CodeIndex (method_idx : Nat) : Nat :=
  method_idx * 2

/-- Modelled from the spec: the position of the method slot of a method index
(`CodeAndDirectMethods::MethodIndex` is declared in `dex_cache.h`, not part of `src/`), the
second slot of the pair. -/
def CodeAndDirectMethods.MethodIndex (method_idx : Nat) : Nat :=
  method_idx * 2 + 1

/-- Modelled from the spec: `IntArray::Get(i)` (declared in `object.h`, not part of `src/`);
an index outside `[0, length)` raises `ArrayIndexOutOfBoundsError` and yields 0. -/
def CodeAndDirectMethods.Get (this : CodeAndDirectMethods) (i : Nat) : Int :=
  this.data.getD i 0

/-- Modelled from the spec: `IntArray::Set(i, value)` (declared in `object.h`, not part of
`src/`); an index outside `[0, length)` raises `ArrayIndexOutOfBoundsError` and stores
nothing. -/
def CodeAndDirectMethods.Set (this : CodeAndDirectMethods) (i : Nat) (value : Int) :
    CodeAndDirectMethods :=
  if i < this.data.length then { data := this.data.set i value } else this

/-- The access flags of a static method, a private method and a constructor (constants of a
header that is not part of `src/`; the values are those of the class-file format). -/
def kAccStatic : Nat := 0x0008

def kAccPrivate : Nat := 0x0002

def kAccConstructor : Nat := 0x00010000

/-- Modelled from the spec: `Method::IsDirect()` (declared in `object.h`, not part of `src/`):
a direct method is a static method, a private method or a constructor. -/
def Method.IsDirect (this : Method) : Bool :=
  this.access_flags_ &&& kAccStatic != 0 || this.access_flags_ &&& kAccPrivate != 0 ||
    this.access_flags_ &&& kAccConstructor != 0

/-- `Method::GetCode()`. -/
def Method.GetCode (this : Method) : Nat :=
  this.code_

/-- What a call on a `CodeAndDirectMethods` table leaves behind: whether it returned or ended
the process in a failed `CHECK`, and the table after the call. -/
structure CodeAndDirectMethods.Outcome where
  result : CallResult Unit
  table : CodeAndDirectMethods
deriving DecidableEq, Repr

/-- `CodeAndDirectMethods::SetResolvedDirectMethod(uint32_t method_idx, Method* method)`
(dex_cache.cc:12).  `method` is `none` for `NULL`; `PrettyMethod` is the text logged with a
failed `CHECK`. -/
def CodeAndDirectMethods.SetResolvedDirectMethod (PrettyMethod : Method → List Char)
    (this : CodeAndDirectMethods) (method_idx : Nat) (method : Option Method) :
    CodeAndDirectMethods.Outcome :=
  match method with
  | none => { result := .fatal "Check failed: method != NULL ".data, table := this }
  | some m =>
    if ¬ (m.IsDirect = true) then
      { result := .fatal ("Check failed: method->IsDirect() ".data ++ PrettyMethod m)
        table := this }
    else if ¬ (m.GetCode ≠ 0) then
      { result := .fatal ("Check failed: method->GetCode() != NULL ".data ++ PrettyMethod m)
        table := this }
    else
      { result := .returned ()
        table :=
          (this.Set (CodeAndDirectMethods.CodeIndex method_idx)
            (reinterpret_cast_int32 m.GetCode)).Set
              (CodeAndDirectMethods.MethodIndex method_idx) (reinterpret_cast_int32 m.addr) }

/-- Modelled from the spec: `SetResolvedDirectMethodTrampoline(method_idx, code_array)`
(declared in `dex_cache.h`, not part of `src/`): the code slot of the method index receives the
entry point of the shared resolution trampoline; the method slot receives the value
`sentinel method_idx` that marks an unresolved entry (the specification leaves it open: "null
or trampoline-sentinel"). -/
def CodeAndDirectMethods.SetResolvedDirectMethodTrampoline (sentinel : Nat → Int)
    (this : CodeAndDirectMethods) (method_idx : Nat) (res_trampoline : Nat) :
    CodeAndDirectMethods :=
  (this.Set (CodeAndDirectMethods.CodeIndex method_idx)
    (reinterpret_cast_int32 res_trampoline)).Set
      (CodeAndDirectMethods.MethodIndex method_idx) (sentinel method_idx)

/-- The arguments of `DexCache::Init`, `none` for `NULL`.  An object array is given by the
addresses of its elements. -/
structure DexCache.InitArguments where
  location : Option String
  strings : Option (List Nat)
  resolved_types : Option (List Nat)
  resolved_methods : Option (List Nat)
  resolved_fields : Option (List Nat)
  code_and_direct_methods : Option CodeAndDirectMethods
  initialized_static_storage : Option (List Nat)
deriving DecidableEq, Repr

/-- What `DexCache::Init` leaves behind: whether it returned or ended the process in a failed
`CHECK`, the seven references stored in the dex cache (`none` when nothing was stored), and the
`code_and_direct_methods` table passed to it as it is after the call. -/
structure DexCache.InitOutcome where
  result : CallResult Unit
  stored : Option DexCache.InitArguments
  code_and_direct_methods : Option CodeAndDirectMethods
deriving DecidableEq, Repr

/-- The loop `for (size_t i = 0; i < NumResolvedMethods(); i++)` of `DexCache::Init`, for the
first `n` indices. -/
def DexCache.Init.loop (sentinel : Nat → Int) (res_trampoline : Nat) :
    Nat → CodeAndDirectMethods → CodeAndDirectMethods
  | 0, table => table
  | n + 1, table =>
    (DexCache.Init.loop sentinel res_trampoline n table).SetResolvedDirectMethodTrampoline
      sentinel n res_trampoline

/-- The seven `CHECK`s of `DexCache::Init` in order: the text of the first one that fails. -/
def DexCache.Init.failedCheck (args : DexCache.InitArguments) : Option (List Char) :=
  if args.location.isNone then some "Check failed: location != NULL ".data
  else if args.strings.isNone then some "Check failed: strings != NULL ".data
  else if args.resolved_types.isNone then some "Check failed: resolved_types != NULL ".data
  else if args.resolved_methods.isNone then some "Check failed: resolved_methods != NULL ".data
  else if args.resolved_fields.isNone then some "Check failed: resolved_fields != NULL ".data
  else if args.code_and_direct_methods.isNone then
    some "Check failed: code_and_direct_methods != NULL ".data
  else if args.initialized_static_storage.isNone then
    some "Check failed: initialized_static_storage != NULL ".data
  else none

/-- `DexCache::Init` (dex_cache.cc:20).  `runtime_started` is `Runtime::Current()->IsStarted()`,
`res_trampoline` the entry point of the resolution stub array of the runtime, and
`NumResolvedMethods()` is the length of the `resolved_methods` array just stored. -/
def DexCache.Init (sentinel : Nat → Int) (runtime_started : Bool) (res_trampoline : Nat)
    (args : DexCache.InitArguments) : DexCache.InitOutcome :=
  match args.location, args.strings, args.resolved_types, args.resolved_methods,
    args.resolved_fields, args.code_and_direct_methods, args.initialized_static_storage with
  | some _, some _, some _, some resolved_methods, some _, some code_and_direct_methods,
    some _ =>
    if runtime_started then
      { result := .returned ()
        stored := some args
        code_and_direct_methods :=
          some (DexCache.Init.loop sentinel res_trampoline resolved_methods.length
            code_and_direct_methods) }
    else
      { result := .returned ()
        stored := some args
        code_and_direct_methods := some code_and_direct_methods }
  | _, _, _, _, _, _, _ =>
    { result := .fatal ((DexCache.Init.failedCheck args).getD [])
      stored := none
      code_and_direct_methods := args.code_and_direct_methods }

/-! ## Sample objects of the dex cache -/

namespace Sample

/-- A private method with code at `0x8100`. -/
def directMethod : Method :=
  { code_ := 0x8100
    mapping_table_ := none
    dex_cache_ := dexCache
    code_item_ := { catch_handlers := fun _ => [] }
    addr := 0x7300
    access_flags_ := 0x0002
    declaring_class_ := Task
    method_index_ := 0
    name_ := ⟨0x9000, string "run".data⟩
    signature_ := ⟨0x9010, string "()V".data⟩
    shorty_ := ⟨0x9020, string "V".data⟩ }

/-- A static method with code at `0x8200`. -/
def otherDirectMethod : Method :=
  { code_ := 0x8200
    mapping_table_ := none
    dex_cache_ := dexCache
    code_item_ := { catch_handlers := fun _ => [] }
    addr := 0x7400
    access_flags_ := 0x0009
    declaring_class_ := Task
    method_index_ := 0
    name_ := ⟨0x9000, string "run".data⟩
    signature_ := ⟨0x9010, string "()V".data⟩
    shorty_ := ⟨0x9020, string "V".data⟩ }

/-- A public virtual method with code. -/
def virtualMethod : Method :=
  { code_ := 0x8300
    mapping_table_ := none
    dex_cache_ := dexCache
    code_item_ := { catch_handlers := fun _ => [] }
    addr := 0x7500
    access_flags_ := 0x0001
    declaring_class_ := Task
    method_index_ := 0
    name_ := ⟨0x9000, string "run".data⟩
    signature_ := ⟨0x9010, string "()V".data⟩
    shorty_ := ⟨0x9020, string "V".data⟩ }

/-- The text logged for a method. -/
def prettyMethod (_m : Method) : List Char := "void p.q.Task.run()".data

/-- A table for two method indices whose slots hold the trampoline `0x6000` and the method
index. -/
def seededTable : CodeAndDirectMethods := { data := [0x6000, 0, 0x6000, 1] }

/-- A table for two method indices, all slots zero. -/
def zeroTable : CodeAndDirectMethods := { data := [0, 0, 0, 0] }

/-- Arguments of `DexCache::Init` with a `resolved_methods` array of one element and a
`code_and_direct_methods` table for two method indices. -/
def initArguments : DexCache.InitArguments :=
  { location := some (string "core.dex".data)
    strings := some [0]
    resolved_types := some [0]
    resolved_methods := some [0]
    resolved_fields := some [0]
    code_and_direct_methods := some zeroTable
    initialized_static_storage := some [0] }

end Sample

/-! ## Strings: equality, construction and hashing -/

/-- `String::GetLength` (object.cc:1359). -/
def String.GetLength (this : String) : Nat :=
  this.count_

/-- The debug assertion of `String::GetLength`: the count does not exceed the length of the
backing array. -/
def String.GetLength_DCHECK (this : String) : Prop :=
  this.count_ ≤ this.array_.length

/-- `String::CharAt(int32_t index)` (object.cc:1365) for a non-negative index.  An index that
is not below `count_` raises `StringIndexOutOfBoundsException` and yields 0; the element read
`GetCharArray()->Get(index + GetOffset())` is 0 outside the backing array, as the
specification has it for array reads. -/
def String.CharAt (this : String) (index : Nat) : Nat :=
  if index ≥ this.count_ then 0 else this.array_.getD (index + this.offset_) 0

/-- The loop `for (int32_t i = 0; i < that->GetLength(); ++i)` of `String::Equals`, with
`remaining` iterations left from index `i`. -/
def String.Equals.loop (this that : String) : Nat → Nat → Bool
  | 0, _ => true
  | remaining + 1, i =>
    if this.CharAt i ≠ that.CharAt i then false
    else String.Equals.loop this that remaining (i + 1)

/-- `String::Equals(const String* that)` (object.cc:1437); `that` is `none` for `NULL`. -/
def String.Equals (this : StringPtr) (that : Option StringPtr) : Bool :=
  match that with
  | some that_string =>
    if this.addr = that_string.addr then
      -- Quick reference equality test
      true
    else if this.object.GetLength ≠ that_string.object.GetLength then
      -- Quick length inequality test
      false
    else
      String.Equals.loop this.object that_string.object that_string.object.GetLength 0
  | none =>
    -- Null isn't an instanceof anything
    false

/-- Modelled from the spec: `ConvertModifiedUtf8ToUtf16` (`utf.cc` is not part of `src/`), the
code units that a NUL-terminated modified UTF-8 text decodes to.  A byte with the high bit clear
is one unit; a lead byte with bit 5 clear takes one continuation byte, any other lead byte takes
two; the text ends at the first NUL byte (a continuation byte missing at the end is read as the
terminator). -/
def ConvertModifiedUtf8ToUtf16 : List Nat → List Nat
  | [] => []
  | one :: rest =>
    if one = 0 then []
    else if one / 128 % 2 = 0 then one :: ConvertModifiedUtf8ToUtf16 rest
    else
      match rest with
      | [] => [one % 32 * 64]
      | two :: rest2 =>
        if one / 32 % 2 = 0 then
          (one % 32 * 64 + two % 64) :: ConvertModifiedUtf8ToUtf16 rest2
        else
          match rest2 with
          | [] => [one % 16 * 4096 + two % 64 * 64]
          | three :: rest3 =>
            (one % 16 * 4096 + two % 64 * 64 + three % 64) :: ConvertModifiedUtf8ToUtf16 rest3

/-- Modelled from the spec: `CountModifiedUtf8Chars` (`utf.cc` is not part of `src/`), "the
computed code-unit count" of a modified UTF-8 text. -/
def CountModifiedUtf8Chars (utf : List Nat) : Nat :=
  (ConvertModifiedUtf8ToUtf16 utf).length

/-- Modelled from the spec: `ComputeUtf16Hash(chars, offset, char_count)` (`utf.cc` is not part
of `src/`), the polynomial hash of the code units `chars[offset .. offset + char_count)` with
the `31 * h + c` accumulator in 32-bit arithmetic, 0 for no units.  The value is the 32-bit
pattern of the `int32_t` result. -/
def ComputeUtf16Hash (chars : List Nat) (offset char_count : Nat) : Nat :=
  ((chars.drop offset).take char_count).foldl (fun hash c => (31 * hash + c) % 2 ^ 32) 0

/-- `String::SetHashCode(hash_code)`. -/
def String.SetHashCode (this : String) (new_hash_code : Nat) : String :=
  { this with hash_code_ := new_hash_code }

/-- Modelled from the spec: `String::ComputeHashCode()` (declared in `object.h`, not part of
`src/`): computes the hash of the string's code units and stores it. -/
def String.ComputeHashCode (this : String) : String :=
  this.SetHashCode (ComputeUtf16Hash this.array_ this.offset_ this.GetLength)

/-- `String::GetHashCode()` (object.cc:1348): the value returned and the string after the
call. -/
def String.GetHashCode (this : String) : Nat × String :=
  let result := this.hash_code_
  let this1 := if result = 0 then this.ComputeHashCode else this
  (this1.hash_code_, this1)

/-- The debug assertion of `String::GetHashCode` on the value it returns: a result of 0 is the
computed hash. -/
def String.GetHashCode_DCHECK (this : String) : Prop :=
  (String.GetHashCode this).1 ≠ 0 ∨
    ComputeUtf16Hash this.array_ this.offset_ this.GetLength = 0

/-- The heap as the string constructors see it: the width of `size_t`, `sizeof(Array)`,
`Heap::AllocObject` for the `char[]` class (size to address, `none` for `NULL`) and the result
of `java_lang_String->AllocObject()` (the address of a fresh object, `none` for `NULL`).  Fresh
objects are zero-filled. -/
structure StringHeap where
  bits : Nat
  sizeof_Array : Nat
  char_array_heap : Nat → Option Nat
  string_object : Option Nat

/-- The heap satisfies the requests of the construction of a string of `n` code units: the
size of the character array fits `size_t`, and both allocations return an object. -/
def StringHeap.Serves (heap : StringHeap) (n : Nat) : Prop :=
  31 ≤ heap.bits ∧ n < 2 ^ 31 ∧ heap.sizeof_Array + n * 2 < 2 ^ heap.bits ∧
    (∃ a, heap.char_array_heap (heap.sizeof_Array + n * 2) = some a) ∧
    (∃ addr, heap.string_object = some addr)

/-- `PrimitiveArray<uint16_t>::Alloc(size_t length)` (object.cc:1309), which is
`Array::Alloc(array_class_, length, sizeof(uint16_t))`: the zero-filled data of the new
`CharArray`, `none` for `NULL`. -/
def CharArray.Alloc (heap : StringHeap) (length : Nat) : Option (List Nat) :=
  match (Array.Alloc heap.bits heap.sizeof_Array "char[]".data heap.char_array_heap
    length 2).result with
  | none => none
  | some array => some (List.replicate array.length_ 0)

/-- `String::Alloc(Class* java_lang_String, CharArray* array)` (object.cc:1426). -/
def String.AllocWithArray (heap : StringHeap) (array : List Nat) : Option StringPtr :=
  match heap.string_object with
  | none => none
  | some addr =>
    some { addr := addr
           object := { array_ := array, offset_ := 0, count_ := array.length, hash_code_ := 0 } }

/-- `String::Alloc(Class* java_lang_String, int32_t utf16_length)` (object.cc:1418). -/
def String.Alloc (heap : StringHeap) (utf16_length : Nat) : Option StringPtr :=
  match CharArray.Alloc heap utf16_length with
  | none => none
  | some array => String.AllocWithArray heap array

/-- The loop `for (int i = 0; i < utf16_length; i++) array->Set(i, utf16_data_in[i])` of
`String::AllocFromUtf16`, for the first `n` indices. -/
def String.AllocFromUtf16.loop (utf16_data_in : List Nat) : Nat → List Nat → List Nat
  | 0, array => array
  | n + 1, array =>
    (String.AllocFromUtf16.loop utf16_data_in n array).set n (utf16_data_in.getD n 0)

/-- `String::AllocFromUtf16(utf16_length, utf16_data_in, hash_code)` (object.cc:1377). -/
def String.AllocFromUtf16 (heap : StringHeap) (utf16_length : Nat) (utf16_data_in : List Nat)
    (hash_code : Nat) : Option StringPtr :=
  match String.Alloc heap utf16_length with
  | none => none
  | some string =>
    let filled : String :=
      { string.object with
        array_ := String.AllocFromUtf16.loop utf16_data_in utf16_length string.object.array_ }
    if hash_code ≠ 0 then
      some { string with object := filled.SetHashCode hash_code }
    else
      some { string with object := filled.ComputeHashCode }

/-- `String::AllocFromModifiedUtf8(int32_t utf16_length, const char* utf8_data_in)`
(object.cc:1405).  The decoded units are written from the start of the data of the new array,
which has room for `utf16_length` of them. -/
def String.AllocFromModifiedUtf8WithLength (heap : StringHeap) (utf16_length : Nat)
    (utf8_data_in : List Nat) : Option StringPtr :=
  match String.Alloc heap utf16_length with
  | none => none
  | some string =>
    let utf16_data_out :=
      (ConvertModifiedUtf8ToUtf16 utf8_data_in ++
        string.object.array_.drop (ConvertModifiedUtf8ToUtf16 utf8_data_in).length).take
          string.object.array_.length
    let written : String := { string.object with array_ := utf16_data_out }
    some { string with object := written.ComputeHashCode }

/-- `String::AllocFromModifiedUtf8(const char* utf)` (object.cc:1400). -/
def String.AllocFromModifiedUtf8 (heap : StringHeap) (utf : List Nat) : Option StringPtr :=
  let char_count := CountModifiedUtf8Chars utf
  String.AllocFromModifiedUtf8WithLength heap char_count utf

/-! ## Sample strings -/

namespace Sample

/-- A heap on a 32-bit machine that satisfies every request. -/
def stringHeap : StringHeap :=
  { bits := 32, sizeof_Array := 12, char_array_heap := fun _ => some 0x5000,
    string_object := some 0x5100 }

/-- The modified UTF-8 bytes of "héllo". -/
def hello_utf8 : List Nat := [0x68, 0xc3, 0xa9, 0x6c, 0x6c, 0x6f]

/-- The UTF-16 code units of "héllo". -/
def hello_utf16 : List Nat := [0x68, 0xe9, 0x6c, 0x6c, 0x6f]

/-- The string "llo" inside the backing array of "héllo". -/
def llo : String := { array_ := hello_utf16, offset_ := 2, count_ := 3, hash_code_ := 0 }

/-- The string "llo" with an array of its own and a cached hash. -/
def lloCopy : String :=
  { array_ := [0x6c, 0x6c, 0x6f], offset_ := 0, count_ := 3, hash_code_ := 107337 }

/-- The one-unit string made of the code unit U+0000. -/
def nulString : String := { array_ := [0], offset_ := 0, count_ := 1, hash_code_ := 0 }

end Sample

/-- The call number `n` (counted from 0) in a run of calls of `String::GetHashCode` on the same
object: the value that call returns and the string after it. -/
def String.GetHashCode.calls (this : String) : Nat → Nat × String
  | 0 => this.GetHashCode
  | n + 1 => String.GetHashCode.calls (this.GetHashCode).2 n

namespace Sample

/-- The string "héllo" as the constructors make it on `stringHeap`. -/
def hello : StringPtr :=
  { addr := 0x5100
    object := { array_ := hello_utf16, offset_ := 0, count_ := 5, hash_code_ := 103094734 } }

/-- The empty string. -/
def emptyString : String := { array_ := [], offset_ := 0, count_ := 0, hash_code_ := 0 }

end Sample

/-! ## Strings: equality against buffers -/

/-- Modelled from the spec: `GetUtf16FromUtf8(const char** utf8_data_in)` (`utf.cc` is not part
of `src/`): the code unit decoded at the pointer and the pointer after it, with the byte
layout of `ConvertModifiedUtf8ToUtf16`.  The list is the memory up to the terminating NUL (or up
to the end of a `StringPiece`); a byte read at its end is read as NUL. -/
def GetUtf16FromUtf8 : List Nat → Nat × List Nat
  | [] => (0, [])
  | [one] => if one / 128 % 2 = 0 then (one, []) else (one % 32 * 64, [])
  | [one, two] =>
    if one / 128 % 2 = 0 then (one, [two])
    else if one / 32 % 2 = 0 then (one % 32 * 64 + two % 64, [])
    else (one % 16 * 4096 + two % 64 * 64, [])
  | one :: two :: three :: rest =>
    if one / 128 % 2 = 0 then (one, two :: three :: rest)
    else if one / 32 % 2 = 0 then (one % 32 * 64 + two % 64, three :: rest)
    else (one % 16 * 4096 + two % 64 * 64 + three % 64, rest)

/-- The loop `for (int32_t i = 0; i < that_length; ++i)` of
`String::Equals(const uint16_t*, int32_t, int32_t)`, with `remaining` iterations left from
index `i`. -/
def String.Equals_uint16.loop (this : String) (that_chars : List Nat) (that_offset : Nat) :
    Nat → Nat → Bool
  | 0, _ => true
  | remaining + 1, i =>
    if this.CharAt i ≠ that_chars.getD (that_offset + i) 0 then false
    else String.Equals_uint16.loop this that_chars that_offset remaining (i + 1)

/-- `String::Equals(const uint16_t* that_chars, int32_t that_offset, int32_t that_length)`
(object.cc:1459) for a non-negative offset; `that_length` is an `int32_t`. -/
def String.Equals_uint16 (this : String) (that_chars : List Nat) (that_offset : Nat)
    (that_length : Int) : Bool :=
  if (this.GetLength : Int) ≠ that_length then
    false
  else
    String.Equals_uint16.loop this that_chars that_offset that_length.toNat 0

/-- The loop `for (int32_t i = 0; i < GetLength(); ++i)` of `String::Equals(const char*)`
followed by its `return *modified_utf8 == '\0'`, with `remaining` iterations left from index
`i` and the pointer at `modified_utf8`. -/
def String.Equals_cstr.loop (this : String) : Nat → Nat → List Nat → Bool
  | 0, _, modified_utf8 => modified_utf8.headD 0 == 0
  | remaining + 1, i, modified_utf8 =>
    let ch := (GetUtf16FromUtf8 modified_utf8).1
    if ch = 0 ∨ ch ≠ this.CharAt i then false
    else String.Equals_cstr.loop this remaining (i + 1) (GetUtf16FromUtf8 modified_utf8).2

/-- `String::Equals(const char* modified_utf8)` (object.cc:1473); the argument is the bytes of
the C string before its terminating NUL. -/
def String.Equals_cstr (this : String) (modified_utf8 : List Nat) : Bool :=
  String.Equals_cstr.loop this this.GetLength 0 modified_utf8

/-- The loop `for (int32_t i = 0; i < GetLength(); ++i)` of
`String::Equals(const StringPiece&)`, with `remaining` iterations left from index `i` and the
pointer at `p`. -/
def String.Equals_StringPiece.loop (this : String) : Nat → Nat → List Nat → Bool
  | 0, _, _ => true
  | remaining + 1, i, p =>
    let ch := (GetUtf16FromUtf8 p).1
    if ch ≠ this.CharAt i then false
    else String.Equals_StringPiece.loop this remaining (i + 1) (GetUtf16FromUtf8 p).2

/-- `String::Equals(const StringPiece& modified_utf8)` (object.cc:1483); the argument is the
`size()` bytes at `data()`. -/
def String.Equals_StringPiece (this : String) (modified_utf8 : List Nat) : Bool :=
  if modified_utf8.length ≠ this.GetLength then
    false
  else
    String.Equals_StringPiece.loop this this.GetLength 0 modified_utf8

namespace Sample

/-- The modified UTF-8 bytes of the one-unit string U+0000. -/
def nul_utf8 : List Nat := [0xc0, 0x80]

end Sample

/-! ## Interface dispatch -/

/-- What a lookup leaves behind: the returned `Method*` (`none` is `NULL`) and the exception it
threw. -/
structure MethodLookupOutcome where
  result : Option Nat
  exception : Option PendingException
deriving DecidableEq, Repr

/-- Modelled from the spec: `ObjectArray<Method>::Get(i)` (declared in `object.h`, not part of
`src/`): the element, or `NULL` with a pending `ArrayIndexOutOfBoundsException` for an index
outside `[0, length)`; the message has the form `CharAt` uses for its index check. -/
def ObjectArray.Get (array : List Nat) (i : Nat) : MethodLookupOutcome :=
  if h : i < array.length then
    { result := some (array.get ⟨i, h⟩), exception := none }
  else
    { result := none
      exception := some ⟨"Ljava/lang/ArrayIndexOutOfBoundsException;".data,
        "length=".data ++ (Nat.repr array.length).data ++ "; index=".data ++
          (Nat.repr i).data⟩ }

/-- The text of `"Class %s does not implement interface %s"` for two pretty-printed
descriptors. -/
def Class.doesNotImplementMessage (class_descriptor interface_descriptor : List Char) :
    List Char :=
  "Class ".data ++ class_descriptor ++ " does not implement interface ".data ++
    interface_descriptor

/-- The loop of `Class::FindVirtualMethodForInterface` over the interface table: the outcome of
the `return` inside the loop, `none` when the loop ends without it. -/
def Class.FindVirtualMethodForInterface.scan (declaring_class : Class) (method : Method) :
    List InterfaceEntry → Option MethodLookupOutcome
  | [] => none
  | interface_entry :: rest =>
    if interface_entry.interface_ = declaring_class.addr then
      some (ObjectArray.Get interface_entry.method_array_ method.method_index_)
    else
      Class.FindVirtualMethodForInterface.scan declaring_class method rest

/-- `Class::FindVirtualMethodForInterface(Method* method, bool can_throw)` (object.cc:1026);
`PrettyDescriptor` is the function of that name (not part of `src/`). -/
def Class.FindVirtualMethodForInterface (PrettyDescriptor : String → List Char) (this : Class)
    (method : Method) (can_throw : Bool) : MethodLookupOutcome :=
  let declaring_class := method.declaring_class_
  match Class.FindVirtualMethodForInterface.scan declaring_class method this.GetIfTable with
  | some outcome => outcome
  | none =>
    if can_throw then
      { result := none
        exception := some ⟨"Ljava/lang/IncompatibleClassChangeError;".data,
          Class.doesNotImplementMessage (PrettyDescriptor this.GetDescriptor)
            (PrettyDescriptor declaring_class.GetDescriptor)⟩ }
    else
      { result := none, exception := none }

/-- The debug assertions of `Class::FindVirtualMethodForInterface`: the declaring class of the
method is an interface. -/
def Class.FindVirtualMethodForInterface_DCHECK (_this : Class) (method : Method) : Prop :=
  method.declaring_class_.IsInterface = true

namespace Sample

/-- The interface method `Runnable.run()`, slot 0 of its interface. -/
def Runnable_run : Method :=
  { code_ := 0
    mapping_table_ := none
    dex_cache_ := dexCache
    code_item_ := { catch_handlers := fun _ => [] }
    addr := 0x7600
    access_flags_ := 0x0401
    declaring_class_ := java_lang_Runnable
    method_index_ := 0
    name_ := ⟨0x9000, string "run".data⟩
    signature_ := ⟨0x9010, string "()V".data⟩
    shorty_ := ⟨0x9020, string "V".data⟩ }

/-- A class that implements `Runnable`; slot 0 of the interface is implemented by the method at
`0x7700`. -/
def Worker : Class :=
  .mk 0x1600 0x0001 (string "Lp/q/Worker;".data) 0 (some java_lang_Object) none
    [⟨0x1100, [0x7700]⟩]

/-- A descriptor printer: the text of the descriptor as it is. -/
def prettyDescriptor (descriptor : String) : List Char :=
  descriptor.array_.map Char.ofNat

end Sample

/-! ## Fields and member lookup -/

/-- A `Field` object: `addr` is its address, `declaring_class_` the address of the class
`GetDeclaringClass()` points to, `offset_` is `GetOffset()`, `name_` the string `GetName()`
points to, `type_descriptor` the bytes of the C string `GetTypeDescriptor()` returns (read
from the dex file of the declaring class) and `type_idx_` is `GetTypeIdx()`. -/
structure Field where
  addr : Nat
  declaring_class_ : Nat
  access_flags_ : Nat
  offset_ : Nat
  name_ : StringPtr
  type_descriptor : List Nat
  type_idx_ : Nat
deriving DecidableEq, Repr

/-- The arrays of a class object that the lookups of `object.cc` read through accessors of
`object.h`, given for the class at each address: the static fields (`NumStaticFields()`,
`GetStaticField(i)`), the virtual methods (`NumVirtualMethods()`, `GetVirtualMethod(i)`), the
vtable (`GetVTable()`, `none` for `NULL`, with its elements) and the addresses in the array of
direct interfaces (`GetInterfaces()`, `none` for `NULL`: a class that declares no interface has
no such array).  `class_at` is the class object at an address, for the `Class*` values stored
in interface tables and interface arrays. -/
structure ClassHeap where
  class_at : Nat → Class
  sfields_ : Nat → List Field
  virtual_methods_ : Nat → List Method
  vtable_ : Nat → Option (List (Option Method))
  interfaces_ : Nat → Option (List Nat)

/-- The test of the lookups by `StringPiece`: `f->GetName()->Equals(name) &&
StringPiece(f->GetTypeDescriptor()) == type`. -/
def Field.isNamed (f : Field) (name type : List Nat) : Bool :=
  f.name_.object.Equals_StringPiece name && (f.type_descriptor == type)

/-- The loop of `Class::FindDeclaredStaticField` over the static fields. -/
def Class.FindDeclaredStaticField.loop (name type : List Nat) : List Field → Option Field
  | [] => none
  | f :: rest =>
    if f.isNamed name type then some f
    else Class.FindDeclaredStaticField.loop name type rest

/-- `Class::FindDeclaredStaticField(const StringPiece& name, const StringPiece& type)`
(object.cc:1197). -/
def Class.FindDeclaredStaticField (heap : ClassHeap) (this : Class) (name type : List Nat) :
    Option Field :=
  Class.FindDeclaredStaticField.loop name type (heap.sfields_ this.addr)

/-- The inner loop of `Class::FindStaticField` over the interface table of one class. -/
def Class.FindStaticField.interfaces (heap : ClassHeap) (name type : List Nat) :
    List InterfaceEntry → Option Field
  | [] => none
  | interface_entry :: rest =>
    let interface := heap.class_at interface_entry.interface_
    match interface.FindDeclaredStaticField heap name type with
    | some f => some f
    | none => Class.FindStaticField.interfaces heap name type rest

/-- `Class::FindStaticField(const StringPiece& name, const StringPiece& type)`
(object.cc:1219): the walk `for (Class* c = this; c != NULL; c = c->GetSuperClass())`. -/
def Class.FindStaticField (heap : ClassHeap) : Class → List Nat → List Nat → Option Field
  | .mk a fl d l s c i, name, type =>
    -- Is the field in this class?
    match (Class.mk a fl d l s c i).FindDeclaredStaticField heap name type with
    | some f => some f
    | none =>
      -- Is this field in any of this class' interfaces?
      match Class.FindStaticField.interfaces heap name type i with
      | some f => some f
      | none =>
        match s with
        | some super => super.FindStaticField heap name type
        | none => none

/-- The static fields of the interfaces of an interface table, in the order of the table. -/
def Class.FindStaticField.interfaceFields (heap : ClassHeap) : List InterfaceEntry → List Field
  | [] => []
  | interface_entry :: rest =>
    heap.sfields_ (heap.class_at interface_entry.interface_).addr ++
      Class.FindStaticField.interfaceFields heap rest

/-- The search order of `find_static`: for each class on the superclass chain, from the class
upwards, its declared static fields and then the declared static fields of the interfaces of
its interface table. -/
def Class.FindStaticField.searchOrder (heap : ClassHeap) : Class → List Field
  | .mk a _ _ _ s _ i =>
    heap.sfields_ a ++ Class.FindStaticField.interfaceFields heap i ++
      (match s with
        | some super => Class.FindStaticField.searchOrder heap super
        | none => [])

namespace Sample

/-- An interface `Lp/q/Limits;` that declares the static field `MAX`. -/
def Limits : Class :=
  .mk 0x1700 0x0601 (string "Lp/q/Limits;".data) 0 (some java_lang_Object) none []

/-- An interface `Lp/q/Bounded;` that extends `Limits` and declares no field. -/
def Bounded : Class :=
  .mk 0x1800 0x0601 (string "Lp/q/Bounded;".data) 0 (some java_lang_Object) none
    [⟨0x1700, []⟩]

/-- A class whose only direct interface is `Bounded`; its interface table lists `Bounded` and
the super-interface `Limits`. -/
def Gauge : Class :=
  .mk 0x1900 0x0001 (string "Lp/q/Gauge;".data) 0 (some java_lang_Object) none
    [⟨0x1800, []⟩, ⟨0x1700, []⟩]

/-- A class object whose interface table lists its direct interface `Bounded` and not the
super-interface `Limits`: a table that is not flattened. -/
def Dial : Class :=
  .mk 0x1e00 0x0001 (string "Lp/q/Dial;".data) 0 (some java_lang_Object) none
    [⟨0x1800, []⟩]

/-- The static field `int MAX` of `Limits`. -/
def Limits_MAX : Field :=
  { addr := 0xa100, declaring_class_ := 0x1700, access_flags_ := 0x0019, offset_ := 0x60,
    name_ := ⟨0x9100, string "MAX".data⟩, type_descriptor := "I".data.map Char.toNat,
    type_idx_ := 0 }

/-- The heap of the sample classes: `Limits` declares `MAX`; `Gauge` has the direct interface
`Bounded`, `Bounded` the direct interface `Limits`. -/
def classHeap : ClassHeap :=
  { class_at := fun a =>
      if a = 0x1700 then Limits else if a = 0x1800 then Bounded
      else if a = 0x1900 then Gauge else if a = 0x1100 then java_lang_Runnable
      else java_lang_Object
    sfields_ := fun a => if a = 0x1700 then [Limits_MAX] else []
    virtual_methods_ := fun _ => []
    vtable_ := fun _ => none
    interfaces_ := fun a =>
      if a = 0x1900 then some [0x1800] else if a = 0x1800 then some [0x1700] else none }

end Sample

namespace Sample

/-- The bytes of the name `MAX`. -/
def MAX_name : List Nat := [0x4d, 0x41, 0x58]

/-- The bytes of the type descriptor `I`. -/
def int_descriptor : List Nat := [0x49]

end Sample

/-! ## Overridden-method search -/

/-- Modelled from the spec: `Method::IsStatic()` (declared in `object.h`, not part of `src/`),
the static bit of the access flags. -/
def Method.IsStatic (this : Method) : Bool :=
  this.access_flags_ &&& kAccStatic != 0

/-- The loop of `Class::FindDeclaredVirtualMethod(String* name, String* signature)` over the
virtual methods: the strings are compared as pointers. -/
def Class.FindDeclaredVirtualMethod.loop (name signature : StringPtr) :
    List Method → Option Method
  | [] => none
  | method :: rest =>
    if method.name_.addr = name.addr ∧ method.signature_.addr = signature.addr then
      some method
    else
      Class.FindDeclaredVirtualMethod.loop name signature rest

/-- `Class::FindDeclaredVirtualMethod(String* name, String* signature)` (object.cc:1131). -/
def Class.FindDeclaredVirtualMethod (heap : ClassHeap) (this : Class)
    (name signature : StringPtr) : Option Method :=
  Class.FindDeclaredVirtualMethod.loop name signature (heap.virtual_methods_ this.addr)

/-- `Class::FindVirtualMethod(String* name, String* signature)` (object.cc:1151): the walk
`for (const Class* klass = this; klass != NULL; klass = klass->GetSuperClass())`. -/
def Class.FindVirtualMethod (heap : ClassHeap) : Class → StringPtr → StringPtr → Option Method
  | .mk a f d l s c i, name, signature =>
    match (Class.mk a f d l s c i).FindDeclaredVirtualMethod heap name signature with
    | some method => some method
    | none =>
      match s with
      | some klass => klass.FindVirtualMethod heap name signature
      | none => none

/-- The loop of `Class::FindInterfaceMethod(String* name, String* signature)` over the
interface table. -/
def Class.FindInterfaceMethod.scan (heap : ClassHeap) (name signature : StringPtr) :
    List InterfaceEntry → Option Method
  | [] => none
  | interface_entry :: rest =>
    let interface := heap.class_at interface_entry.interface_
    match interface.FindVirtualMethod heap name signature with
    | some method => some method
    | none => Class.FindInterfaceMethod.scan heap name signature rest

/-- `Class::FindInterfaceMethod(String* name, String* signature)` (object.cc:1065). -/
def Class.FindInterfaceMethod (heap : ClassHeap) (this : Class) (name signature : StringPtr) :
    Option Method :=
  -- Check the current class before checking the interfaces.
  match this.FindVirtualMethod heap name signature with
  | some method => some method
  | none => Class.FindInterfaceMethod.scan heap name signature this.GetIfTable

/-- The loop `for (int32_t i = 0; i < interfaces->GetLength() && result == NULL; i++)` of
`Method::FindOverriddenMethod` over the array of direct interfaces. -/
def Method.FindOverriddenMethod.scan (heap : ClassHeap) (name signature : StringPtr) :
    List Nat → Option Method
  | [] => none
  | interface_addr :: rest =>
    let interface := heap.class_at interface_addr
    match interface.FindInterfaceMethod heap name signature with
    | some result => some result
    | none => Method.FindOverriddenMethod.scan heap name signature rest

/-- The `else` branch of `Method::FindOverriddenMethod()`: the search of the direct interfaces.
The value is `none` when `GetInterfaces()` is `NULL`, where `interfaces->GetLength()`
dereferences the null pointer. -/
def Method.FindOverriddenMethod.interfaces (heap : ClassHeap) (this : Method) :
    Option (Option Method) :=
  match heap.interfaces_ this.declaring_class_.addr with
  | none => none
  | some interfaces =>
    some (Method.FindOverriddenMethod.scan heap this.name_ this.signature_ interfaces)

/-- `Method::FindOverriddenMethod()` (object.cc:629).  The value is `some result` when the call
returns `result` (`none` inside is `NULL`); it is `none` when the declaring class has no
superclass, where `super_class->GetVTable()` dereferences the null pointer, and when the
interface search is reached and the declaring class has no array of direct interfaces.  The
method index is read into a `uint16_t`. -/
def Method.FindOverriddenMethod (heap : ClassHeap) (this : Method) : Option (Option Method) :=
  if this.IsStatic then
    some none
  else
    let declaring_class := this.declaring_class_
    match declaring_class.GetSuperClass with
    | none => none
    | some super_class =>
      let method_index := this.method_index_ % 2 ^ 16
      match heap.vtable_ super_class.addr with
      | some super_class_vtable =>
        if method_index < super_class_vtable.length then
          some (super_class_vtable.getD method_index none)
        else
          Method.FindOverriddenMethod.interfaces heap this
      | none => Method.FindOverriddenMethod.interfaces heap this

namespace Sample

/-- The virtual method `Object.toString()`, declared in the root class. -/
def Object_toString : Method :=
  { code_ := 0x8400
    mapping_table_ := none
    dex_cache_ := dexCache
    code_item_ := { catch_handlers := fun _ => [] }
    addr := 0x7800
    access_flags_ := 0x0001
    declaring_class_ := java_lang_Object
    method_index_ := 0
    name_ := ⟨0x9200, string "toString".data⟩
    signature_ := ⟨0x9210, string "()Ljava/lang/String;".data⟩
    shorty_ := ⟨0x9220, string "L".data⟩ }

/-- The method `Task.toString()`, which overrides slot 0 of the vtable of `Object`. -/
def Task_toString : Method :=
  { code_ := 0x8500
    mapping_table_ := none
    dex_cache_ := dexCache
    code_item_ := { catch_handlers := fun _ => [] }
    addr := 0x7900
    access_flags_ := 0x0001
    declaring_class_ := Task
    method_index_ := 0
    name_ := ⟨0x9200, string "toString".data⟩
    signature_ := ⟨0x9210, string "()Ljava/lang/String;".data⟩
    shorty_ := ⟨0x9220, string "L".data⟩ }

/-- The method `Task.run()`, slot 1 of the vtable of `Task`, beyond the vtable of `Object`. -/
def Task_run : Method :=
  { code_ := 0x8600
    mapping_table_ := none
    dex_cache_ := dexCache
    code_item_ := { catch_handlers := fun _ => [] }
    addr := 0x7a00
    access_flags_ := 0x0001
    declaring_class_ := Task
    method_index_ := 1
    name_ := ⟨0x9000, string "run".data⟩
    signature_ := ⟨0x9010, string "()V".data⟩
    shorty_ := ⟨0x9020, string "V".data⟩ }

/-- The virtual method `A.step()` of the class `A`, which extends `Object` and declares no
interface; its slot 1 is beyond the vtable of `Object`. -/
def A_step : Method :=
  { code_ := 0x8780
    mapping_table_ := none
    dex_cache_ := dexCache
    code_item_ := { catch_handlers := fun _ => [] }
    addr := 0x7b80
    access_flags_ := 0x0001
    declaring_class_ := p_q_A
    method_index_ := 1
    name_ := ⟨0x9380, string "step".data⟩
    signature_ := ⟨0x9010, string "()V".data⟩
    shorty_ := ⟨0x9020, string "V".data⟩ }

/-- The heap of `Object`, `Runnable`, `Task` and `A`: `Object` has the vtable `[toString]`,
`Runnable` declares `run`, `Runnable` is the direct interface of `Task`, and the other classes
have no array of direct interfaces. -/
def methodHeap : ClassHeap :=
  { class_at := fun a =>
      if a = 0x1100 then java_lang_Runnable else if a = 0x1200 then Task
      else if a = 0x2000 then p_q_A else java_lang_Object
    sfields_ := fun _ => []
    virtual_methods_ := fun a =>
      if a = 0x1000 then [Object_toString] else if a = 0x1100 then [Runnable_run]
      else if a = 0x1200 then [Task_toString, Task_run]
      else if a = 0x2000 then [A_step] else []
    vtable_ := fun a =>
      if a = 0x1000 then some [some Object_toString]
      else if a = 0x1200 then some [some Task_toString, some Task_run] else none
    interfaces_ := fun a => if a = 0x1200 then some [0x1100] else none }

end Sample

/-! ## Field accessors -/

/-- The access flag of a volatile field (`kAccVolatile`, a constant of a header that is not part
of `src/`; the value is the one of the class-file format). -/
def kAccVolatile : Nat := 0x0040

/-- Modelled from the spec: `Field::IsStatic()` (declared in `object.h`, not part of `src/`),
the static bit of the access flags. -/
def Field.IsStatic (this : Field) : Bool :=
  this.access_flags_ &&& kAccStatic != 0

/-- Modelled from the spec: `Field::IsVolatile()` (declared in `object.h`, not part of `src/`),
the volatile bit of the access flags. -/
def Field.IsVolatile (this : Field) : Bool :=
  this.access_flags_ &&& kAccVolatile != 0

/-- `Field::GetOffset()`. -/
def Field.GetOffset (this : Field) : Nat :=
  this.offset_

/-- One call of a typed accessor of `Object` (`object.h`): the address of the object it is
called on, the offset, the value written, and the volatile flag. -/
inductive ObjectAccess where
  | GetField32 (object offset : Nat) (is_volatile : Bool)
  | SetField32 (object offset new_value : Nat) (is_volatile : Bool)
  | GetField64 (object offset : Nat) (is_volatile : Bool)
  | SetField64 (object offset new_value : Nat) (is_volatile : Bool)
  | GetFieldObject (object offset : Nat) (is_volatile : Bool)
  | SetFieldObject (object offset : Nat) (new_value : Option Nat) (is_volatile : Bool)
deriving DecidableEq, Repr

/-- The memory of the managed objects as the reading accessors of `Object` see it: the value
each of them returns for an object address, an offset and a volatile flag. -/
structure ObjectMemory where
  GetField32 : Nat → Nat → Bool → Nat
  GetField64 : Nat → Nat → Bool → Nat
  GetFieldObject : Nat → Nat → Bool → Option Nat

/-- What an accessor of `Field` does: it returns a value or ends in a failed `CHECK` (which
ends the process), it leaves an exception pending or not, and it makes the listed calls of
accessors of `Object`, in order.  The accessors of `object.cc:163-209` throw nothing: the
exception is `none` on each of their paths. -/
structure Field.AccessOutcome (α : Type) where
  result : CallResult α
  exception : Option PendingException
  accesses : List ObjectAccess

/-- The common start of the accessors of `Field`: `CHECK((object == NULL) == IsStatic())`,
then `if (IsStatic()) { object = declaring_class_; }`.  The value is the object the accessor
goes on with, `none` when the `CHECK` fails. -/
def Field.checkedObject (this : Field) (object : Option Nat) : Option Nat :=
  if object.isNone != this.IsStatic then none
  else if this.IsStatic then some this.declaring_class_
  else object

/-- The text logged by the failed `CHECK` of an accessor. -/
def Field.checkFailed (PrettyField : Field → List Char) (this : Field) : List Char :=
  "Check failed: (object == NULL) == IsStatic() ".data ++ PrettyField this

/-- `Field::Get32(const Object* object)` (object.cc:163). -/
def Field.Get32 (PrettyField : Field → List Char) (memory : ObjectMemory) (this : Field)
    (object : Option Nat) : Field.AccessOutcome Nat :=
  match this.checkedObject object with
  | none =>
    { result := .fatal (this.checkFailed PrettyField), exception := none, accesses := [] }
  | some object =>
    { result := .returned (memory.GetField32 object this.GetOffset this.IsVolatile)
      exception := none
      accesses := [.GetField32 object this.GetOffset this.IsVolatile] }

/-- `Field::Set32(Object* object, uint32_t new_value)` (object.cc:171). -/
def Field.Set32 (PrettyField : Field → List Char) (this : Field) (object : Option Nat)
    (new_value : Nat) : Field.AccessOutcome Unit :=
  match this.checkedObject object with
  | none =>
    { result := .fatal (this.checkFailed PrettyField), exception := none, accesses := [] }
  | some object =>
    { result := .returned ()
      exception := none
      accesses := [.SetField32 object this.GetOffset new_value this.IsVolatile] }

/-- `Field::Get64(const Object* object)` (object.cc:179). -/
def Field.Get64 (PrettyField : Field → List Char) (memory : ObjectMemory) (this : Field)
    (object : Option Nat) : Field.AccessOutcome Nat :=
  match this.checkedObject object with
  | none =>
    { result := .fatal (this.checkFailed PrettyField), exception := none, accesses := [] }
  | some object =>
    { result := .returned (memory.GetField64 object this.GetOffset this.IsVolatile)
      exception := none
      accesses := [.GetField64 object this.GetOffset this.IsVolatile] }

/-- `Field::Set64(Object* object, uint64_t new_value)` (object.cc:187). -/
def Field.Set64 (PrettyField : Field → List Char) (this : Field) (object : Option Nat)
    (new_value : Nat) : Field.AccessOutcome Unit :=
  match this.checkedObject object with
  | none =>
    { result := .fatal (this.checkFailed PrettyField), exception := none, accesses := [] }
  | some object =>
    { result := .returned ()
      exception := none
      accesses := [.SetField64 object this.GetOffset new_value this.IsVolatile] }

/-- `Field::GetObj(const Object* object)` (object.cc:195); the value is the `Object*` read,
`none` for `NULL`. -/
def Field.GetObj (PrettyField : Field → List Char) (memory : ObjectMemory) (this : Field)
    (object : Option Nat) : Field.AccessOutcome (Option Nat) :=
  match this.checkedObject object with
  | none =>
    { result := .fatal (this.checkFailed PrettyField), exception := none, accesses := [] }
  | some object =>
    { result := .returned (memory.GetFieldObject object this.GetOffset this.IsVolatile)
      exception := none
      accesses := [.GetFieldObject object this.GetOffset this.IsVolatile] }

/-- `Field::SetObj(Object* object, const Object* new_value)` (object.cc:203). -/
def Field.SetObj (PrettyField : Field → List Char) (this : Field) (object : Option Nat)
    (new_value : Option Nat) : Field.AccessOutcome Unit :=
  match this.checkedObject object with
  | none =>
    { result := .fatal (this.checkFailed PrettyField), exception := none, accesses := [] }
  | some object =>
    { result := .returned ()
      exception := none
      accesses := [.SetFieldObject object this.GetOffset new_value this.IsVolatile] }

namespace Sample

/-- The text logged for a field. -/
def prettyField (_f : Field) : List Char := "int p.q.Limits.MAX".data

/-- A memory in which every word read is 7 and every reference read is `NULL`. -/
def objectMemory : ObjectMemory :=
  { GetField32 := fun _ _ _ => 7, GetField64 := fun _ _ _ => 7,
    GetFieldObject := fun _ _ _ => none }

end Sample

/-! ## Method reflection fields -/

/-- The services of the runtime that `Method::InitJavaFieldsLocked` calls, as they answer at
the time of the call: `ClassLinker::FindClass(descriptor, class_loader)` and
`ClassLinker::FindPrimitiveClass(type)` (the address of the class, `none` for `NULL`), and
whether `ObjectArray<Class>::Alloc(array_class, arg_count)` returns an array. -/
structure ReflectionRuntime where
  FindClass : List Nat → Nat → Option Nat
  FindPrimitiveClass : Nat → Option Nat
  AllocParameters : Nat → Bool

/-- `ExtractNextClassFromSignature(class_linker, cl, p)` (object.cc:334): the class found and
the pointer after the descriptor.  `p` is the rest of the C string; the character read at its
end is the terminating NUL. -/
def ExtractNextClassFromSignature (class_linker : ReflectionRuntime) (cl : Nat)
    (p : List Nat) : Option Nat × List Nat :=
  if p.headD 0 = 0x5b then
    -- Something like "[[[Ljava/lang/String;".
    let start := p
    let p := p.dropWhile (fun ch => ch == 0x5b)
    let p := if p.headD 0 = 0x4c then p.dropWhile (fun ch => ch != 0x3b) else p
    let p := p.drop 1   -- Either the ';' or the primitive type.
    let descriptor := start.take (start.length - p.length)
    (class_linker.FindClass descriptor cl, p)
  else if p.headD 0 = 0x4c then
    let start := p
    let p := p.dropWhile (fun ch => ch != 0x3b)
    let p := p.drop 1
    let descriptor := start.take (start.length - p.length)
    (class_linker.FindClass descriptor cl, p)
  else
    (class_linker.FindPrimitiveClass (p.headD 0), p.drop 1)

/-- The loop `for (size_t i = 0; i < arg_count; ++i)` of `Method::InitJavaFieldsLocked` with
`remaining` parameters left: the classes stored in the array and the pointer after them, `none`
when the function returns because a class is `NULL`. -/
def Method.InitJavaFieldsLocked.loop (class_linker : ReflectionRuntime) (cl : Nat) :
    Nat → List Nat → Option (List Nat × List Nat)
  | 0, p => some ([], p)
  | remaining + 1, p =>
    match (ExtractNextClassFromSignature class_linker cl p).1 with
    | none => none
    | some c =>
      match Method.InitJavaFieldsLocked.loop class_linker cl remaining
          (ExtractNextClassFromSignature class_linker cl p).2 with
      | none => none
      | some (parameters, p) => some (c :: parameters, p)

/-- `Method::InitJavaFieldsLocked()` (object.cc:364): the method after the call.  The shorty
has at least its return character. -/
def Method.InitJavaFieldsLocked (class_linker : ReflectionRuntime) (this : Method) : Method :=
  -- Create the array.
  let arg_count := this.shorty_.object.GetLength - 1
  if class_linker.AllocParameters arg_count = false then
    this
  else
    -- Parse the signature, filling the array.
    let cl := this.declaring_class_.GetClassLoader
    let signature := this.signature_.object.ToModifiedUtf8
    let p := signature.drop 1
    match Method.InitJavaFieldsLocked.loop class_linker cl arg_count p with
    | none => this
    | some (parameters, p) =>
      let p := p.drop 1
      let java_return_type := (ExtractNextClassFromSignature class_linker cl p).1
      { this with
        java_parameter_types_ := some parameters
        java_return_type_ := java_return_type }

/-- The debug assertions of `Method::InitJavaFieldsLocked`: the signature starts with `(` and
the parameters are followed by `)`. -/
def Method.InitJavaFieldsLocked_DCHECK (class_linker : ReflectionRuntime) (this : Method) :
    Prop :=
  this.signature_.object.ToModifiedUtf8.headD 0 = 0x28 ∧
  ∀ parameters p,
    Method.InitJavaFieldsLocked.loop class_linker this.declaring_class_.GetClassLoader
      (this.shorty_.object.GetLength - 1) (this.signature_.object.ToModifiedUtf8.drop 1) =
      some (parameters, p) → p.headD 0 = 0x29

namespace Sample

end Sample

/-! ## Invocation -/

/-- Modelled from the spec: the state of a thread (`Thread::State`, declared in `thread.h`, not
part of `src/`); `Invoke` asks for `Runnable`. -/
inductive Thread.State where
  | kRunnable
  | kNative
  | kWaiting
deriving DecidableEq, Repr

/-- A `Thread` as `Method::Invoke` sees it: its state and its stack of `NativeToManaged`
records, the most recent first; a record is identified by its address. -/
structure Thread where
  state_ : Thread.State
  native_to_managed_records_ : List Nat
deriving DecidableEq, Repr

/-- `Thread::GetState()`. -/
def Thread.GetState (self : Thread) : Thread.State :=
  self.state_

/-- Modelled from the spec: `Thread::PushNativeToManagedRecord(record)` (declared in
`thread.h`, not part of `src/`) pushes the frame marker onto the thread. -/
def Thread.PushNativeToManagedRecord (self : Thread) (record : Nat) : Thread :=
  { self with native_to_managed_records_ := record :: self.native_to_managed_records_ }

/-- Modelled from the spec: `Thread::PopNativeToManagedRecord(record)` (declared in `thread.h`,
not part of `src/`) pops the frame marker on top of the stack. -/
def Thread.PopNativeToManagedRecord (self : Thread) (_record : Nat) : Thread :=
  { self with native_to_managed_records_ := self.native_to_managed_records_.tail }

/-- The access flag of a native method (`kAccNative`, a constant of a header that is not part
of `src/`; the value is the one of the class-file format). -/
def kAccNative : Nat := 0x0100

/-- Modelled from the spec: `Method::IsNative()` (declared in `object.h`, not part of `src/`),
the native bit of the access flags. -/
def Method.IsNative (this : Method) : Bool :=
  this.access_flags_ &&& kAccNative != 0

/-- The thread and the `JValue` at `result` (`none` when `result` is `NULL`) after a piece of
code has run. -/
structure InvokeState where
  self : Thread
  result : Option Int
deriving DecidableEq, Repr

/-- An invocation stub `(*stub)(method, receiver, self, args, result)`: what it makes of the
thread and of the `JValue` at `result`. -/
abbrev Method.InvokeStub := Method → Option Nat → List Nat → InvokeState → InvokeState

/-- A call that `Method::Invoke` makes on the thread or on the stub:
`self->PushNativeToManagedRecord(&record)`, the stub call
`(*stub)(this, receiver, self, args, result)` with the thread as the stub finds it, and
`self->PopNativeToManagedRecord(record)`. -/
inductive InvokeCall where
  | PushNativeToManagedRecord (record : Nat)
  | InvokeStub (self : Thread)
  | PopNativeToManagedRecord (record : Nat)
deriving DecidableEq, Repr

/-- What `Method::Invoke` leaves behind when it returns: the thread, the `JValue` at `result`,
the warnings logged, and the calls it made on the thread and on the stub, in order. -/
structure InvokeOutcome where
  self : Thread
  result : Option Int
  warnings : List (List Char)
  calls : List InvokeCall
deriving DecidableEq, Repr

/-- `Method::Invoke(Thread* self, Object* receiver, byte* args, JValue* result)`
(object.cc:723).  `arm` tells whether the build defines `__arm__`, `stub` is `GetInvokeStub()`
(`none` for `NULL`), `record` is the address of the local `NativeToManagedRecord`, and `result`
is the `JValue` at `result` before the call (`none` when `result` is `NULL`). -/
def Method.Invoke (arm runtime_started : Bool) (PrettyMethod : Method → List Char)
    (stub : Option Method.InvokeStub) (this : Method) (self : Thread) (receiver : Option Nat)
    (args : List Nat) (result : Option Int) (record : Nat) : CallResult InvokeOutcome :=
  -- Push a transition back into managed code onto the linked list in thread.
  if self.GetState ≠ Thread.State.kRunnable then
    .fatal "Check failed: Thread::kRunnable == self->GetState() ".data
  else
    let self := self.PushNativeToManagedRecord record
    -- Currently we can only compile non-native methods for ARM.
    let have_executable_code := if arm then decide (this.GetCode ≠ 0) else this.IsNative
    let after : InvokeOutcome :=
      match have_executable_code, stub with
      | true, some stub =>
        let state := stub this receiver args { self := self, result := result }
        { self := state.self, result := state.result, warnings := []
          calls := [.PushNativeToManagedRecord record, .InvokeStub self] }
      | _, _ =>
        { self := self
          result := result.map (fun _ => 0)
          warnings :=
            if runtime_started then
              ["Not invoking method with no associated code: ".data ++ PrettyMethod this]
            else []
          calls := [.PushNativeToManagedRecord record] }
    -- Pop transition.
    .returned
      { after with
        self := after.self.PopNativeToManagedRecord record
        calls := after.calls ++ [.PopNativeToManagedRecord record] }

namespace Sample

/-- A runnable thread with one record on its stack. -/
def thread : Thread := { state_ := .kRunnable, native_to_managed_records_ := [0xb000] }

/-- A stub that stores 42 in the result and leaves the thread as it is. -/
def invokeStub : Method.InvokeStub :=
  fun _ _ _ state => { state with result := state.result.map (fun _ => 42) }

/-- A native method with code. -/
def nativeMethod : Method :=
  { code_ := 0x8800
    mapping_table_ := none
    dex_cache_ := dexCache
    code_item_ := { catch_handlers := fun _ => [] }
    addr := 0x7c00
    access_flags_ := 0x0101
    declaring_class_ := Task
    method_index_ := 3
    name_ := ⟨0x9400, string "poll".data⟩
    signature_ := ⟨0x9410, string "()I".data⟩
    shorty_ := ⟨0x9420, string "I".data⟩ }

end Sample

/-! ## Reference offset bitmaps -/

/-- The compiler builtin `__builtin_popcount(x)` on a 32-bit word: the number of bits set. -/
def builtin_popcount (x : Nat) : Nat :=
  ((List.range 32).filter (fun i => x.testBit i)).length

/-- The loop `while (cur)` of `Class::SetReferenceInstanceOffsets`: `cnt` after the walk from
`cur` up the superclasses, in `size_t` arithmetic.  `NumReferenceInstanceFieldsDuringLinking`
is the accessor of that name (declared in `object.h`, not part of `src/`). -/
def Class.SetReferenceInstanceOffsets.walk (bits : Nat)
    (NumReferenceInstanceFieldsDuringLinking : Class → Nat) : Class → Nat → Nat
  | .mk a f d l s c i, cnt =>
    let cnt := (cnt + NumReferenceInstanceFieldsDuringLinking (.mk a f d l s c i)) % 2 ^ bits
    match s with
    | some cur => Class.SetReferenceInstanceOffsets.walk bits
        NumReferenceInstanceFieldsDuringLinking cur cnt
    | none => cnt

/-- What `SetReferenceInstanceOffsets` leaves behind: whether it returned or ended in the failed
`CHECK_EQ`, and the `reference_instance_offsets_` word of the class after the call. -/
structure Class.SetReferenceOffsetsOutcome where
  result : CallResult Unit
  reference_instance_offsets_ : Nat
deriving DecidableEq, Repr

/-- `Class::SetReferenceInstanceOffsets(uint32_t new_reference_offsets)` (object.cc:873) on the
`reference_instance_offsets_` word of the class.  `bits` is the width of `size_t` and
`CLASS_WALK_SUPER` the sentinel of that name (a macro of `object.h`, not part of `src/`). -/
def Class.SetReferenceInstanceOffsets (bits CLASS_WALK_SUPER : Nat)
    (NumReferenceInstanceFieldsDuringLinking : Class → Nat) (this : Class)
    (reference_instance_offsets_ new_reference_offsets : Nat) :
    Class.SetReferenceOffsetsOutcome :=
  if new_reference_offsets ≠ CLASS_WALK_SUPER then
    -- Sanity check that the number of bits set in the reference offset bitmap
    -- agrees with the number of references
    let cnt := Class.SetReferenceInstanceOffsets.walk bits
      NumReferenceInstanceFieldsDuringLinking this 0
    if builtin_popcount new_reference_offsets % 2 ^ bits ≠ cnt then
      { result := .fatal ("Check failed: (size_t)__builtin_popcount(new_reference_offsets)".data
          ++ " == cnt (".data ++ (Nat.repr (builtin_popcount new_reference_offsets)).data ++
          " vs. ".data ++ (Nat.repr cnt).data ++ ") ".data)
        reference_instance_offsets_ := reference_instance_offsets_ }
    else
      { result := .returned (), reference_instance_offsets_ := new_reference_offsets }
  else
    { result := .returned (), reference_instance_offsets_ := new_reference_offsets }

namespace Sample

/-- The number of reference instance fields of the sample classes: one in `Task`, two in
`SubTask`, none elsewhere. -/
def numReferenceInstanceFields (c : Class) : Nat :=
  if c.addr = 0x1200 then 1 else if c.addr = 0x1300 then 2 else 0

end Sample

/-! ## Argument counts -/

/-- The character `D` of a shorty. -/
def shorty_D : Nat := 0x44

/-- The character `J` of a shorty. -/
def shorty_J : Nat := 0x4a

/-- The body of the loop of `Method::NumArgRegisters` for one character, on the `uint32_t`
counter. -/
def Method.NumArgRegisters.step (num_registers ch : Nat) : Nat :=
  if ch = shorty_D ∨ ch = shorty_J then (num_registers + 2) % 2 ^ 32
  else (num_registers + 1) % 2 ^ 32

/-- `Method::NumArgRegisters(const StringPiece& shorty)` (object.cc:534); the loop
`for (int i = 1; i < shorty.length(); ++i)` runs over the characters after the first. -/
def Method.NumArgRegisters (shorty : List Nat) : CallResult Nat :=
  if ¬ (1 ≤ shorty.length) then
    .fatal "Check failed: 1 <= shorty.length() ".data
  else
    .returned ((shorty.drop 1).foldl Method.NumArgRegisters.step 0)

/-- `Method::NumArgs()` (object.cc:548), in `int` arithmetic converted to a `size_t` of `bits`
bits. -/
def Method.NumArgs (bits : Nat) (this : Method) : Nat :=
  -- "1 +" because the first in Args is the receiver.
  -- "- 1" because we don't count the return type.
  ((if this.IsStatic then 0 else 1) + this.shorty_.object.GetLength + 2 ^ bits - 1) % 2 ^ bits

/-- The loop `for (int i = 1; i < shorty->GetLength(); i++)` of `Method::NumLongOrDoubleArgs`
with `remaining` iterations left from index `i`; the code unit is narrowed to a `char`. -/
def Method.NumLongOrDoubleArgs.loop (shorty : String) : Nat → Nat → Nat → Nat
  | 0, _, result => result
  | remaining + 1, i, result =>
    let ch := shorty.CharAt i % 256
    Method.NumLongOrDoubleArgs.loop shorty remaining (i + 1)
      (if ch = shorty_D ∨ ch = shorty_J then result + 1 else result)

/-- `Method::NumLongOrDoubleArgs()` (object.cc:567). -/
def Method.NumLongOrDoubleArgs (this : Method) : Nat :=
  let shorty := this.shorty_.object
  Method.NumLongOrDoubleArgs.loop shorty (shorty.GetLength - 1) 1 0

namespace Sample

/-- The static method `static long p.q.Task.mix(int, double, long, Object)`. -/
def Task_mix : Method :=
  { code_ := 0x8900
    mapping_table_ := none
    dex_cache_ := dexCache
    code_item_ := { catch_handlers := fun _ => [] }
    addr := 0x7d00
    access_flags_ := 0x0009
    declaring_class_ := Task
    method_index_ := 0
    name_ := ⟨0x9500, string "mix".data⟩
    signature_ := ⟨0x9510, string "(IDJLjava/lang/Object;)J".data⟩
    shorty_ := ⟨0x9520, string "JIDJL".data⟩ }

/-- The shorty of `mix` as a `StringPiece`. -/
def mix_shorty : List Nat := [0x4a, 0x49, 0x44, 0x4a, 0x4c]

end Sample

/-! ## Parameters of a method -/

/-- The character `V` of a shorty. -/
def shorty_V : Nat := 0x56

/-- The character `L` of a shorty. -/
def shorty_L : Nat := 0x4c

/-- The character `[`. -/
def shorty_bracket : Nat := 0x5b

/-- `ShortyCharToSize(char x)` (object.cc:604); `kPointerSize` is the constant of that name (a
header that is not part of `src/`). -/
def ShortyCharToSize (kPointerSize : Nat) (x : Nat) : Nat :=
  if x = shorty_V then 0
  else if x = shorty_bracket then kPointerSize
  else if x = shorty_L then kPointerSize
  else if x = shorty_D then 8
  else if x = shorty_J then 8
  else 4

/-- The loop `for (int i = 1; i < shorty->GetLength(); i++)` of `Method::NumReferenceArgs` with
`remaining` iterations left from index `i`; the code unit is narrowed to a `char`. -/
def Method.NumReferenceArgs.loop (shorty : String) : Nat → Nat → Nat → Nat
  | 0, _, result => result
  | remaining + 1, i, result =>
    let ch := shorty.CharAt i % 256
    Method.NumReferenceArgs.loop shorty remaining (i + 1)
      (if ch = shorty_L ∨ ch = shorty_bracket then result + 1 else result)

/-- `Method::NumReferenceArgs()` (object.cc:556). -/
def Method.NumReferenceArgs (this : Method) : Nat :=
  let shorty := this.shorty_.object
  let result := if this.IsStatic then 0 else 1   -- The implicit this pointer.
  Method.NumReferenceArgs.loop shorty (shorty.GetLength - 1) 1 result

/-- The text logged by the failed `CHECK_LT(param, NumArgs())`. -/
def Method.paramCheckFailed (bits : Nat) (this : Method) (param : Nat) : List Char :=
  "Check failed: param < NumArgs() (".data ++ (Nat.repr param).data ++ " vs. ".data ++
    (Nat.repr (this.NumArgs bits)).data ++ ") ".data

/-- `Method::IsParamAReference(unsigned int param)` (object.cc:582); the code unit is compared
with `'L'` as it is. -/
def Method.IsParamAReference (bits : Nat) (this : Method) (param : Nat) : CallResult Bool :=
  if ¬ (param < this.NumArgs bits) then
    .fatal (this.paramCheckFailed bits param)
  else if this.IsStatic then
    -- 0th argument must skip return value at start of the shorty
    .returned (this.shorty_.object.CharAt ((param + 1) % 2 ^ 32) == shorty_L)
  else if param = 0 then
    .returned true   -- this argument
  else
    .returned (this.shorty_.object.CharAt param == shorty_L)

/-- `Method::IsParamALongOrDouble(unsigned int param)` (object.cc:593); the code unit is
narrowed to a `char`. -/
def Method.IsParamALongOrDouble (bits : Nat) (this : Method) (param : Nat) : CallResult Bool :=
  if ¬ (param < this.NumArgs bits) then
    .fatal (this.paramCheckFailed bits param)
  else if this.IsStatic then
    -- 0th argument must skip return value at start of the shorty
    let ch := this.shorty_.object.CharAt ((param + 1) % 2 ^ 32) % 256
    .returned (ch == shorty_J || ch == shorty_D)
  else if param = 0 then
    .returned false   -- this argument
  else
    let ch := this.shorty_.object.CharAt param % 256
    .returned (ch == shorty_J || ch == shorty_D)

/-- `Method::ParamSize(unsigned int param)` (object.cc:615); the code unit is narrowed to a
`char`. -/
def Method.ParamSize (bits kPointerSize : Nat) (this : Method) (param : Nat) :
    CallResult Nat :=
  if ¬ (param < this.NumArgs bits) then
    .fatal (this.paramCheckFailed bits param)
  else if this.IsStatic then
    -- 0th argument must skip return value at start of the shorty
    .returned (ShortyCharToSize kPointerSize
      (this.shorty_.object.CharAt ((param + 1) % 2 ^ 32) % 256))
  else if param = 0 then
    .returned kPointerSize   -- this argument
  else
    .returned (ShortyCharToSize kPointerSize (this.shorty_.object.CharAt param % 256))

/-- `Method::ReturnSize()` (object.cc:625). -/
def Method.ReturnSize (kPointerSize : Nat) (this : Method) : Nat :=
  ShortyCharToSize kPointerSize (this.shorty_.object.CharAt 0 % 256)

namespace Sample

/-- A static method whose shorty `V[` has the character `[` for its one parameter. -/
def Task_fill : Method :=
  { code_ := 0x8a00
    mapping_table_ := none
    dex_cache_ := dexCache
    code_item_ := { catch_handlers := fun _ => [] }
    addr := 0x7e00
    access_flags_ := 0x0009
    declaring_class_ := Task
    method_index_ := 0
    name_ := ⟨0x9600, string "fill".data⟩
    signature_ := ⟨0x9610, string "([I)V".data⟩
    shorty_ := ⟨0x9620, string "V[".data⟩ }

/-- A shorty that has, after `V`, the one code unit `0x014c`: a 16-bit unit whose low byte is
the character `L`. -/
def wide_shorty : String :=
  { array_ := [0x56, 0x14c], offset_ := 0, count_ := 2, hash_code_ := 0 }

/-- A static method with the shorty `wide_shorty`. -/
def Task_wide : Method :=
  { code_ := 0x8c00
    mapping_table_ := none
    dex_cache_ := dexCache
    code_item_ := { catch_handlers := fun _ => [] }
    addr := 0x7f80
    access_flags_ := 0x0009
    declaring_class_ := Task
    method_index_ := 0
    name_ := ⟨0x9780, string "wide".data⟩
    signature_ := ⟨0x9790, string "(I)V".data⟩
    shorty_ := ⟨0x97a0, wide_shorty⟩ }

/-- The instance method `long p.q.Task.sum(Object, double)`, shorty `JLD`. -/
def Task_sum : Method :=
  { code_ := 0x8b00
    mapping_table_ := none
    dex_cache_ := dexCache
    code_item_ := { catch_handlers := fun _ => [] }
    addr := 0x7f00
    access_flags_ := 0x0001
    declaring_class_ := Task
    method_index_ := 4
    name_ := ⟨0x9700, string "sum".data⟩
    signature_ := ⟨0x9710, string "(Ljava/lang/Object;D)J".data⟩
    shorty_ := ⟨0x9720, string "JLD".data⟩ }

end Sample

/-! ## The primitive type of a field -/

/-- Modelled from the spec: the primitive kinds (`Primitive::Type`, declared in a header that is
not part of `src/`); `kPrimNot` means a reference, not a primitive. -/
inductive PrimitiveType where
  | kPrimNot
  | kPrimBoolean
  | kPrimByte
  | kPrimChar
  | kPrimShort
  | kPrimInt
  | kPrimLong
  | kPrimFloat
  | kPrimDouble
  | kPrimVoid
deriving DecidableEq, Repr

/-- Modelled from the spec: `Class::IsPrimitive()` (declared in `object.h`, not part of
`src/`): the primitive kind of the class is not `kPrimNot`.  `primitive_type` is
`Class::GetPrimitiveType()`, the kind stored in the class. -/
def Class.IsPrimitive (primitive_type : Class → PrimitiveType) (this : Class) : Bool :=
  primitive_type this != PrimitiveType.kPrimNot

/-- `Field::GetTypeDuringLinking()` (object.cc:100); `dex_cache` is
`GetDeclaringClass()->GetDexCache()`. -/
def Field.GetTypeDuringLinking (dex_cache : DexCache) (this : Field) : Option Class :=
  -- We are assured that the necessary primitive types are in the dex cache
  -- early during class linking
  dex_cache.GetResolvedType this.type_idx_

/-- `Field::IsPrimitiveType()` (object.cc:106). -/
def Field.IsPrimitiveType (primitive_type : Class → PrimitiveType) (dex_cache : DexCache)
    (this : Field) : Bool :=
  match this.GetTypeDuringLinking dex_cache with
  | none => true
  | some type => type.IsPrimitive primitive_type

/-- `Field::GetPrimitiveType()` (object.cc:111). -/
def Field.GetPrimitiveType (primitive_type : Class → PrimitiveType) (dex_cache : DexCache)
    (this : Field) : PrimitiveType :=
  match this.GetTypeDuringLinking dex_cache with
  | none => PrimitiveType.kPrimNot
  | some type => primitive_type type

/-- `Field::PrimitiveSize()` (object.cc:119); `FieldSize` is `Primitive::FieldSize` (a header
that is not part of `src/`). -/
def Field.PrimitiveSize (FieldSize : PrimitiveType → Nat)
    (primitive_type : Class → PrimitiveType) (dex_cache : DexCache) (this : Field) : Nat :=
  FieldSize (this.GetPrimitiveType primitive_type dex_cache)

namespace Sample

/-- The instance field `Task next` of `Task`; its type index 1 is not resolved in the sample
dex cache. -/
def Task_next : Field :=
  { addr := 0xa200, declaring_class_ := 0x1200, access_flags_ := 0x0002, offset_ := 0x8,
    name_ := ⟨0x9800, string "next".data⟩,
    type_descriptor := "Lp/q/Task;".data.map Char.toNat, type_idx_ := 1 }

/-- The instance field `IOException cause` of `Task`; its type index 2 is resolved. -/
def Task_cause : Field :=
  { addr := 0xa300, declaring_class_ := 0x1200, access_flags_ := 0x0002, offset_ := 0xc,
    name_ := ⟨0x9900, string "cause".data⟩,
    type_descriptor := "Ljava/io/IOException;".data.map Char.toNat, type_idx_ := 2 }

/-- The primitive kind stored in the sample classes: all of them are reference classes. -/
def primitiveType (_c : Class) : PrimitiveType := PrimitiveType.kPrimNot

/-- The storage size of a kind on a machine with 4-byte references. -/
def fieldSize : PrimitiveType → Nat
  | .kPrimNot => 4
  | .kPrimBoolean => 1
  | .kPrimByte => 1
  | .kPrimChar => 2
  | .kPrimShort => 2
  | .kPrimInt => 4
  | .kPrimLong => 8
  | .kPrimFloat => 4
  | .kPrimDouble => 8
  | .kPrimVoid => 0

end Sample

/-! ## Typed field accessors -/

/-- The result of a call with the value mapped by a conversion of the return statement. -/
def CallResult.map {α β : Type} (f : α → β) : CallResult α → CallResult β
  | .returned value => .returned (f value)
  | .fatal log => .fatal log

/-- Modelled from the spec: the memory after a call of a typed accessor of `Object`
(`object.h` is not part of `src/`): `SetField32`, `SetField64` and `SetFieldObject` store the
word, which the reading accessor of the same width then returns for that object and offset; a
read changes nothing. -/
def ObjectMemory.after (memory : ObjectMemory) : ObjectAccess → ObjectMemory
  | .SetField32 object offset new_value _ =>
    { memory with
      GetField32 := fun o off is_volatile =>
        if o = object ∧ off = offset then new_value % 2 ^ 32
        else memory.GetField32 o off is_volatile }
  | .SetField64 object offset new_value _ =>
    { memory with
      GetField64 := fun o off is_volatile =>
        if o = object ∧ off = offset then new_value % 2 ^ 64
        else memory.GetField64 o off is_volatile }
  | .SetFieldObject object offset new_value _ =>
    { memory with
      GetFieldObject := fun o off is_volatile =>
        if o = object ∧ off = offset then new_value
        else memory.GetFieldObject o off is_volatile }
  | _ => memory

/-- The conversion of a signed integer to the unsigned type of `w` bits. -/
def to_unsigned (w : Nat) (v : Int) : Nat :=
  (v % 2 ^ w).toNat

/-- The conversion of an unsigned word to the signed type of `w` bits (two's complement). -/
def to_signed (w : Nat) (x : Nat) : Int :=
  if x % 2 ^ w < 2 ^ (w - 1) then (x % 2 ^ w : Nat) else (x % 2 ^ w : Nat) - 2 ^ w

/-- `Field::GetBoolean(const Object* object)` (object.cc:211): the `uint32_t` converted to
`bool`. -/
def Field.GetBoolean (pf : Field → List Char) (memory : ObjectMemory) (this : Field)
    (object : Option Nat) : CallResult Bool :=
  (this.Get32 pf memory object).result.map (fun x => x != 0)

/-- `Field::SetBoolean(Object* object, bool z)` (object.cc:216). -/
def Field.SetBoolean (pf : Field → List Char) (this : Field) (object : Option Nat) (z : Bool) :
    Field.AccessOutcome Unit :=
  this.Set32 pf object (if z then 1 else 0)

/-- `Field::GetByte(const Object* object)` (object.cc:221): the `uint32_t` converted to
`int8_t`. -/
def Field.GetByte (pf : Field → List Char) (memory : ObjectMemory) (this : Field)
    (object : Option Nat) : CallResult Int :=
  (this.Get32 pf memory object).result.map (to_signed 8)

/-- `Field::SetByte(Object* object, int8_t b)` (object.cc:226): the `int8_t` converted to
`uint32_t`. -/
def Field.SetByte (pf : Field → List Char) (this : Field) (object : Option Nat) (b : Int) :
    Field.AccessOutcome Unit :=
  this.Set32 pf object (to_unsigned 32 b)

/-- `Field::GetChar(const Object* object)` (object.cc:231): the `uint32_t` converted to
`uint16_t`. -/
def Field.GetChar (pf : Field → List Char) (memory : ObjectMemory) (this : Field)
    (object : Option Nat) : CallResult Nat :=
  (this.Get32 pf memory object).result.map (fun x => x % 2 ^ 16)

/-- `Field::SetChar(Object* object, uint16_t c)` (object.cc:236). -/
def Field.SetChar (pf : Field → List Char) (this : Field) (object : Option Nat) (c : Nat) :
    Field.AccessOutcome Unit :=
  this.Set32 pf object c

/-- `Field::GetShort(const Object* object)` (object.cc:241): the `uint32_t` converted to
`int16_t`. -/
def Field.GetShort (pf : Field → List Char) (memory : ObjectMemory) (this : Field)
    (object : Option Nat) : CallResult Int :=
  (this.Get32 pf memory object).result.map (to_signed 16)

/-- `Field::SetShort(Object* object, int16_t s)` (object.cc:246). -/
def Field.SetShort (pf : Field → List Char) (this : Field) (object : Option Nat) (s : Int) :
    Field.AccessOutcome Unit :=
  this.Set32 pf object (to_unsigned 32 s)

/-- `Field::GetInt(const Object* object)` (object.cc:251): the `uint32_t` converted to
`int32_t`. -/
def Field.GetInt (pf : Field → List Char) (memory : ObjectMemory) (this : Field)
    (object : Option Nat) : CallResult Int :=
  (this.Get32 pf memory object).result.map (to_signed 32)

/-- `Field::SetInt(Object* object, int32_t i)` (object.cc:256). -/
def Field.SetInt (pf : Field → List Char) (this : Field) (object : Option Nat) (i : Int) :
    Field.AccessOutcome Unit :=
  this.Set32 pf object (to_unsigned 32 i)

/-- `Field::GetLong(const Object* object)` (object.cc:261): the `uint64_t` converted to
`int64_t`. -/
def Field.GetLong (pf : Field → List Char) (memory : ObjectMemory) (this : Field)
    (object : Option Nat) : CallResult Int :=
  (this.Get64 pf memory object).result.map (to_signed 64)

/-- `Field::SetLong(Object* object, int64_t j)` (object.cc:266). -/
def Field.SetLong (pf : Field → List Char) (this : Field) (object : Option Nat) (j : Int) :
    Field.AccessOutcome Unit :=
  this.Set64 pf object (to_unsigned 64 j)

/-- The debug assertion of a typed accessor: the primitive kind of the field is the kind of the
accessor (`DCHECK(GetPrimitiveType() == Primitive::kPrim...)`). -/
def Field.typed_DCHECK (primitive_type : Class → PrimitiveType) (dex_cache : DexCache)
    (this : Field) (kind : PrimitiveType) : Prop :=
  this.GetPrimitiveType primitive_type dex_cache = kind

/-! ## Array classes over an element class -/

/-- The class `X` is `T[]^k`: `k` array levels over `T`, read off the component types. -/
def Class.IsArrayOver (T : Class) : Nat → Class → Prop
  | 0, X => X = T
  | k + 1, X => ∃ K, X.GetComponentType = some K ∧ Class.IsArrayOver T k K

namespace Sample

/-- The array class `Object[]`. -/
def Object_array : Class :=
  .mk 0x1c00 0x0411 (string "[Ljava/lang/Object;".data) 0 (some java_lang_Object)
    (some java_lang_Object) []

/-- The array class `Object[][]`. -/
def Object_array2 : Class :=
  .mk 0x1c10 0x0411 (string "[[Ljava/lang/Object;".data) 0 (some java_lang_Object)
    (some Object_array) []

/-- The array class `Object[][][]`. -/
def Object_array3 : Class :=
  .mk 0x1c20 0x0411 (string "[[[Ljava/lang/Object;".data) 0 (some java_lang_Object)
    (some Object_array2) []

/-- The array class `Task[][]`. -/
def Task_array2 : Class :=
  .mk 0x1c30 0x0411 (string "[[Lp/q/Task;".data) 0 (some java_lang_Object)
    (some Task_array) []

/-- The primitive class `int`: no superclass, no component type. -/
def int_class : Class :=
  .mk 0x1a00 0x0411 (string "I".data) 0 none none []

/-- The array class `int[]`. -/
def int_array : Class :=
  .mk 0x1c40 0x0411 (string "[I".data) 0 (some java_lang_Object) (some int_class) []

end Sample

/-! ## Signatures -/

/-- The descriptor characters of the primitive types and of `void`: `Z B C S I J F D V`. -/
def primitiveDescriptorChars : List Nat :=
  [0x5a, 0x42, 0x43, 0x53, 0x49, 0x4a, 0x46, 0x44, 0x56]

/-- A well-formed descriptor of a signature: a primitive character, `L...;` (no `;` inside), or
`[` followed by a descriptor. -/
inductive IsDescriptor : List Nat → Prop where
  | primitive (c : Nat) (h : c ∈ primitiveDescriptorChars) : IsDescriptor [c]
  | object (name : List Nat) (h : 0x3b ∉ name) : IsDescriptor (0x4c :: name ++ [0x3b])
  | array (d : List Nat) (h : IsDescriptor d) : IsDescriptor (0x5b :: d)

/-- What a call of `ExtractNextClassFromSignature` hands to the class linker for a descriptor:
`FindClass(descriptor, cl)` for an array or object descriptor, `FindPrimitiveClass(c)` for a
primitive character. -/
def ReflectionRuntime.handed (class_linker : ReflectionRuntime) (cl : Nat)
    (descriptor : List Nat) : Option Nat :=
  if descriptor.headD 0 = 0x5b ∨ descriptor.headD 0 = 0x4c then
    class_linker.FindClass descriptor cl
  else
    class_linker.FindPrimitiveClass (descriptor.headD 0)

/-- The text of the descriptors `P1 ... Pn` followed by `rest`. -/
def signatureText (descriptors : List (List Nat)) (rest : List Nat) : List Nat :=
  descriptors.foldr (fun descriptor text => descriptor ++ text) rest

/-- The cursor after `n` successive calls of `ExtractNextClassFromSignature` from `p`. -/
def ExtractNextClassFromSignature.cursor (class_linker : ReflectionRuntime) (cl : Nat) :
    Nat → List Nat → List Nat
  | 0, p => p
  | n + 1, p =>
    ExtractNextClassFromSignature.cursor class_linker cl n
      (ExtractNextClassFromSignature class_linker cl p).2

namespace Sample

/-- The descriptors `I`, `[Lp/q/Task;` and `[[J` of the parameters of the signature
`(I[Lp/q/Task;[[J)V`. -/
def parameterDescriptors : List (List Nat) :=
  [[0x49], [0x5b, 0x4c, 0x70, 0x2f, 0x71, 0x2f, 0x54, 0x61, 0x73, 0x6b, 0x3b],
    [0x5b, 0x5b, 0x4a]]

/-- A class linker that answers with the length of the descriptor it is handed, and with the
character for a primitive. -/
def echoRuntime : ReflectionRuntime :=
  { FindClass := fun descriptor _ => some descriptor.length
    FindPrimitiveClass := fun type => some type
    AllocParameters := fun _ => true }

end Sample

/-! ## Virtual-method lookup by text -/

/-- The loop of `Class::FindDeclaredVirtualMethod(const StringPiece& name,
const StringPiece& signature)` over the virtual methods: the strings are compared by content,
with `String::Equals(const StringPiece&)`. -/
def Class.FindDeclaredVirtualMethod_StringPiece.loop (name signature : List Nat) :
    List Method → Option Method
  | [] => none
  | method :: rest =>
    if method.name_.object.Equals_StringPiece name &&
        method.signature_.object.Equals_StringPiece signature then
      some method
    else
      Class.FindDeclaredVirtualMethod_StringPiece.loop name signature rest

/-- `Class::FindDeclaredVirtualMethod(const StringPiece& name, const StringPiece& signature)`
(object.cc:1107); the arguments are the bytes of the two pieces. -/
def Class.FindDeclaredVirtualMethod_StringPiece (heap : ClassHeap) (this : Class)
    (name signature : List Nat) : Option Method :=
  Class.FindDeclaredVirtualMethod_StringPiece.loop name signature
    (heap.virtual_methods_ this.addr)

/-- `Class::FindVirtualMethod(const StringPiece& name, const StringPiece& signature)`
(object.cc:1128): the walk
`for (const Class* klass = this; klass != NULL; klass = klass->GetSuperClass())`. -/
def Class.FindVirtualMethod_StringPiece (heap : ClassHeap) :
    Class → List Nat → List Nat → Option Method
  | .mk a f d l s c i, name, signature =>
    match (Class.mk a f d l s c i).FindDeclaredVirtualMethod_StringPiece heap name signature with
    | some method => some method
    | none =>
      match s with
      | some klass => klass.FindVirtualMethod_StringPiece heap name signature
      | none => none

/-- The search order of `FindVirtualMethod`: the declared virtual methods of the class, then
those of its superclass, and so on up the superclass chain. -/
def Class.FindVirtualMethod.searchOrder (heap : ClassHeap) : Class → List Method
  | .mk a _ _ _ s _ _ =>
    heap.virtual_methods_ a ++
      (match s with
        | some super => Class.FindVirtualMethod.searchOrder heap super
        | none => [])

/-- The code units of a string, as `CharAt` reads them at the indices below `count_`. -/
def String.units (this : String) : List Nat :=
  (List.range this.count_).map this.CharAt

/-- All code units of the string lie in `0x01..0x7f`: the units that modified UTF-8 encodes in
one byte. -/
def String.IsAscii (this : String) : Prop :=
  ∀ i, i < this.count_ → 1 ≤ this.CharAt i ∧ this.CharAt i ≤ 0x7f

/-- Strings are interned over the methods searched from `C`: a virtual method of a class on the
superclass chain of `C` has the object `name` as its name exactly when its name has the code
units of `name`, and likewise for the signature. -/
def ClassHeap.Interned (heap : ClassHeap) (C : Class) (name signature : StringPtr) : Prop :=
  ∀ m ∈ Class.FindVirtualMethod.searchOrder heap C,
    (m.name_.addr = name.addr ↔ m.name_.object.units = name.object.units) ∧
    (m.signature_.addr = signature.addr ↔
      m.signature_.object.units = signature.object.units)

namespace Sample

/-- A second `String` object with the text `run`, at another address than the name of
`Task.run()`. -/
def run_copy : StringPtr := ⟨0x9980, string "run".data⟩

/-- The `String` object of the text `été` (code units `e9 74 e9`). -/
def ete_name : StringPtr :=
  ⟨0x9480, { array_ := [0xe9, 0x74, 0xe9], offset_ := 0, count_ := 3, hash_code_ := 0 }⟩

/-- The virtual method `A.été()`. -/
def A_ete : Method :=
  { code_ := 0x8880
    mapping_table_ := none
    dex_cache_ := dexCache
    code_item_ := { catch_handlers := fun _ => [] }
    addr := 0x7c80
    access_flags_ := 0x0001
    declaring_class_ := p_q_A
    method_index_ := 1
    name_ := ete_name
    signature_ := ⟨0x9010, string "()V".data⟩
    shorty_ := ⟨0x9020, string "V".data⟩ }

/-- A heap in which the class `A` declares the one virtual method `été`. -/
def accentHeap : ClassHeap :=
  { class_at := fun a => if a = 0x2000 then p_q_A else java_lang_Object
    sfields_ := fun _ => []
    virtual_methods_ := fun a => if a = 0x2000 then [A_ete] else []
    vtable_ := fun _ => none
    interfaces_ := fun _ => none }

end Sample

/-! ## Array allocation: the overflow check -/

/-- For a non-zero `x` that fits the word, the bit below the leading zeros is set: `x` lies
between `2 ^ (bits - 1 - CLZ)` and twice that. -/
theorem CLZ_spec : ∀ (bits x : Nat), 1 ≤ x → x < 2 ^ bits →
    CLZ bits x < bits ∧ 2 ^ (bits - 1 - CLZ bits x) ≤ x ∧ x < 2 ^ (bits - 1 - CLZ bits x + 1)
  | 0, x, h1, h2 => by simp at h2; omega
  | bits + 1, x, h1, h2 => by
    unfold CLZ
    by_cases hx : x < 2 ^ bits
    · obtain ⟨a, b, c⟩ := CLZ_spec bits x h1 hx
      rw [if_pos hx]
      have e : bits + 1 - 1 - (1 + CLZ bits x) = bits - 1 - CLZ bits x := by omega
      rw [e]
      exact ⟨by omega, b, c⟩
    · rw [if_neg hx]
      simp only [Nat.add_sub_cancel, Nat.sub_zero]
      exact ⟨by omega, by omega, h2⟩

/-- The shift test of the overflow check passes only when the product did not wrap. -/
theorem shift_test_exact (bits n e : Nat) (he1 : 1 ≤ e) (he : e < 2 ^ bits)
    (hn : n < 2 ^ bits)
    (h : ((n * e) % 2 ^ bits) >>> (bits - 1 - CLZ bits e) = n) :
    n * e < 2 ^ bits := by
  obtain ⟨_, hlo, _⟩ := CLZ_spec bits e he1 he
  set s := bits - 1 - CLZ bits e with hs
  by_contra hov
  rw [Nat.shiftRight_eq_div_pow] at h
  -- the wrapped product is below `2 ^ bits`, so `n * 2 ^ s` is as well
  have hd : (n * e) % 2 ^ bits < 2 ^ bits := Nat.mod_lt _ (by positivity)
  have hpos : 0 < 2 ^ s := by positivity
  have h1 : n * 2 ^ s ≤ (n * e) % 2 ^ bits := by
    have := Nat.div_mul_le_self ((n * e) % 2 ^ bits) (2 ^ s)
    rw [h] at this
    exact this
  have h2 : (n * e) % 2 ^ bits < (n + 1) * 2 ^ s := by
    have := Nat.lt_succ_iff.mpr (le_of_eq h)
    exact (Nat.div_lt_iff_lt_mul hpos).mp this
  -- but a wrapped product lost at least `2 ^ bits`
  have h3 : (n * e) % 2 ^ bits + 2 ^ bits ≤ n * e := by
    have hge : 2 ^ bits ≤ n * e := Nat.le_of_not_lt hov
    have := Nat.mod_add_div (n * e) (2 ^ bits)
    have hq : 1 ≤ n * e / 2 ^ bits := (Nat.one_le_div_iff (by positivity)).mpr hge
    nlinarith
  have h4 : n * e < n * 2 ^ (s + 1) := by
    have hn0 : 0 < n := by
      rcases Nat.eq_zero_or_pos n with h0 | h0
      · subst h0; simp at hov
      · exact h0
    exact Nat.mul_lt_mul_of_pos_left (by assumption) hn0
  rw [pow_succ] at h4
  nlinarith

/-- The overflow predicate of `Array::Alloc` is false only when `header_size + n * e` is
computed without wrapping. -/
theorem overflow_check_sound (bits hdr n e : Nat) (he1 : 1 ≤ e) (he : e < 2 ^ bits)
    (hn : n < 2 ^ bits) (hh : hdr < 2 ^ bits)
    (h : ¬ (((n * e) % 2 ^ bits) >>> (bits - 1 - CLZ bits e) ≠ n % 2 ^ bits ∨
        (hdr + (n * e) % 2 ^ bits) % 2 ^ bits < (n * e) % 2 ^ bits)) :
    hdr + n * e < 2 ^ bits := by
  rw [not_or, not_not, Nat.mod_eq_of_lt hn] at h
  obtain ⟨hshift, hsum⟩ := h
  have hmul := shift_test_exact bits n e he1 he hn hshift
  rw [Nat.mod_eq_of_lt hmul] at hsum
  by_contra hov
  have hge : 2 ^ bits ≤ hdr + n * e := Nat.le_of_not_lt hov
  have hlt : hdr + n * e - 2 ^ bits < 2 ^ bits := by omega
  have hmod : (hdr + n * e) % 2 ^ bits = hdr + n * e - 2 ^ bits := by
    rw [Nat.mod_eq_sub_mod hge, Nat.mod_eq_of_lt hlt]
  omega

/-- C1. For a component count `n` below `2 ^ 31` and a component size `e ≥ 1` that fits
`size_t`: if `header_size + n * e`, computed exactly, does not fit `size_t`, `Array::Alloc`
returns `NULL`, leaves a pending `OutOfMemoryError` whose message ends in
"exceeds the VM limit", and sends no request to the heap; and every size that is sent to the
heap is exactly `header_size + n * e`. -/
theorem Array_Alloc_overflow_rejected (bits hdr : Nat) (pretty : List Char)
    (heap : Nat → Option Nat) (n e : Nat)
    (hbits : 31 ≤ bits) (hh : hdr < 2 ^ bits) (hn : n < 2 ^ 31)
    (he1 : 1 ≤ e) (he : e < 2 ^ bits) :
    (2 ^ bits ≤ hdr + n * e →
      (Array.Alloc bits hdr pretty heap n e).result = none ∧
      (∃ pre, (Array.Alloc bits hdr pretty heap n e).exception =
        some ⟨"Ljava/lang/OutOfMemoryError;".data, pre ++ " exceeds the VM limit".data⟩) ∧
      (Array.Alloc bits hdr pretty heap n e).heap_requests = []) ∧
    (∀ s ∈ (Array.Alloc bits hdr pretty heap n e).heap_requests, s = hdr + n * e) := by
  have hn' : n < 2 ^ bits := lt_of_lt_of_le hn (Nat.pow_le_pow_right (by norm_num) hbits)
  by_cases hc : ((n * e) % 2 ^ bits) >>> (bits - 1 - CLZ bits e) ≠ n % 2 ^ bits ∨
      (hdr + (n * e) % 2 ^ bits) % 2 ^ bits < (n * e) % 2 ^ bits
  · have hA : Array.Alloc bits hdr pretty heap n e =
        { result := none
          exception := some ⟨"Ljava/lang/OutOfMemoryError;".data,
                             Array.vmLimitMessage pretty n⟩
          heap_requests := [] } := by
      unfold Array.Alloc
      simp only []
      rw [if_pos hc]
    rw [hA]
    refine ⟨fun _ =>
      ⟨rfl, ⟨pretty ++ " of length ".data ++ (Nat.repr n).data, ?_⟩, rfl⟩, ?_⟩
    · simp [Array.vmLimitMessage]
    · intro s hs
      simp at hs
  · have hfit := overflow_check_sound bits hdr n e he1 he hn' hh hc
    have hmul : n * e < 2 ^ bits := by omega
    refine ⟨fun hov => absurd hfit (by omega), ?_⟩
    intro s hs
    unfold Array.Alloc at hs
    simp only [] at hs
    rw [if_neg hc] at hs
    have hsize : (hdr + (n * e) % 2 ^ bits) % 2 ^ bits = hdr + n * e := by
      rw [Nat.mod_eq_of_lt hmul, Nat.mod_eq_of_lt hfit]
    rw [hsize] at hs
    cases hheap : heap (hdr + n * e) <;> rw [hheap] at hs <;> simpa using hs

/-- The scenario of the specification on a machine with a 32-bit `size_t` and a 12-byte array
header: `Alloc(int_array_class, 0x40000001, 4)` is rejected without a heap request, and
`Alloc(int_array_class, 3, 4)` asks the heap for 24 bytes. -/
theorem Array_Alloc_overflow_rejected_witness :
    ((Array.Alloc 32 12 "int[]".data (fun _ => some 4096) 0x40000001 4).result = none ∧
      (∃ pre, (Array.Alloc 32 12 "int[]".data (fun _ => some 4096) 0x40000001 4).exception =
        some ⟨"Ljava/lang/OutOfMemoryError;".data, pre ++ " exceeds the VM limit".data⟩) ∧
      (Array.Alloc 32 12 "int[]".data (fun _ => some 4096) 0x40000001 4).heap_requests = []) ∧
    (Array.Alloc 32 12 "int[]".data (fun _ => some 4096) 3 4).heap_requests = [24] ∧
    (∀ s ∈ (Array.Alloc 32 12 "int[]".data (fun _ => some 4096) 3 4).heap_requests,
      s = 12 + 3 * 4) :=
  ⟨(Array_Alloc_overflow_rejected 32 12 "int[]".data (fun _ => some 4096) 0x40000001 4
      (by decide) (by decide) (by decide) (by decide) (by decide)).1 (by decide),
    by decide,
    (Array_Alloc_overflow_rejected 32 12 "int[]".data (fun _ => some 4096) 3 4
      (by decide) (by decide) (by decide) (by decide) (by decide)).2⟩

/-! ## Packages -/

theorem ConvertUtf16UnitToModifiedUtf8_ne_zero (ch b : Nat)
    (hb : b ∈ ConvertUtf16UnitToModifiedUtf8 ch) : b ≠ 0 := by
  unfold ConvertUtf16UnitToModifiedUtf8 at hb
  split_ifs at hb with h1 h2 <;> simp at hb <;> omega

/-- The modified UTF-8 text of a string contains no NUL byte. -/
theorem ConvertUtf16ToModifiedUtf8_ne_zero : ∀ (l : List Nat) (b : Nat),
    b ∈ ConvertUtf16ToModifiedUtf8 l → b ≠ 0
  | [], b, hb => by simp [ConvertUtf16ToModifiedUtf8] at hb
  | ch :: rest, b, hb => by
    simp only [ConvertUtf16ToModifiedUtf8, List.mem_append] at hb
    rcases hb with hb | hb
    · exact ConvertUtf16UnitToModifiedUtf8_ne_zero ch b hb
    · exact ConvertUtf16ToModifiedUtf8_ne_zero rest b hb

theorem String_ToModifiedUtf8_ne_zero (s : String) (b : Nat) (hb : b ∈ s.ToModifiedUtf8) :
    b ≠ 0 :=
  ConvertUtf16ToModifiedUtf8_ne_zero _ b hb

theorem std_string_find_scan_ne_none (ch : Nat) : ∀ (s : List Nat) (k : Nat),
    std_string_find.scan ch s k ≠ none ↔ ch ∈ s
  | [], k => by simp [std_string_find.scan]
  | c :: rest, k => by
    unfold std_string_find.scan
    by_cases h : c = ch
    · simp [h]
    · rw [if_neg h, std_string_find_scan_ne_none ch rest (k + 1)]
      simp [Ne.symm h]

theorem std_string_find_ne_none (s : List Nat) (ch pos : Nat) :
    std_string_find s ch pos ≠ none ↔ ch ∈ s.drop pos :=
  std_string_find_scan_ne_none ch _ _

/-- The mismatch loop only adds to its starting index. -/
theorem mismatch_start : ∀ (d1 d2 : List Nat) (i : Nat),
    Class.IsInSamePackage.mismatch d1 d2 i = i + Class.IsInSamePackage.mismatch d1 d2 0
  | [], d2, i => by simp [Class.IsInSamePackage.mismatch]
  | c1 :: rest1, d2, i => by
    unfold Class.IsInSamePackage.mismatch
    by_cases h : c1 ≠ 0 ∧ c1 = d2.headD 0
    · rw [if_pos h, if_pos h, mismatch_start rest1 d2.tail (i + 1),
        mismatch_start rest1 d2.tail (0 + 1)]
      omega
    · rw [if_neg h, if_neg h]; rfl

theorem packagePrefix_cons (c : Nat) (rest : List Nat) :
    packagePrefix (c :: rest) = if slash ∈ c :: rest then c :: packagePrefix rest else [] := by
  rw [packagePrefix]

theorem packagePrefix_eq_nil (d : List Nat) : packagePrefix d = [] ↔ slash ∉ d := by
  cases d with
  | nil => simp [packagePrefix]
  | cons c rest =>
    rw [packagePrefix_cons]
    by_cases h : slash ∈ c :: rest
    · rw [if_pos h]; simp [h]
    · rw [if_neg h]; simp [h]

/-- The package prefix is a prefix of the descriptor, what follows it has no `'/'`, and a
non-empty package prefix ends in `'/'`. -/
theorem packagePrefix_is_prefix : ∀ (d : List Nat),
    ∃ rest, d = packagePrefix d ++ rest ∧ slash ∉ rest ∧
      (packagePrefix d = [] ∨ (packagePrefix d).getLast? = some slash)
  | [] => ⟨[], by simp [packagePrefix]⟩
  | c :: r => by
    obtain ⟨rest, hsplit, hrest, hlast⟩ := packagePrefix_is_prefix r
    rw [packagePrefix_cons]
    by_cases h : slash ∈ c :: r
    · rw [if_pos h]
      refine ⟨rest, by rw [List.cons_append, ← hsplit], hrest, Or.inr ?_⟩
      rcases hlast with hnil | hlast
      · have hr : slash ∉ r := (packagePrefix_eq_nil r).mp hnil
        have hc : slash = c := by
          rcases List.mem_cons.mp h with hc | hc
          · exact hc
          · exact absurd hc hr
        rw [hnil, ← hc]
        rfl
      · cases hp : packagePrefix r with
        | nil => rw [hp] at hlast; simp at hlast
        | cons x xs =>
          rw [hp] at hlast
          rw [List.getLast?_cons_cons]
          exact hlast
    · rw [if_neg h]
      exact ⟨c :: r, by simp, h, Or.inl rfl⟩

theorem packagePrefix_cons_inj (c : Nat) (r1 r2 : List Nat) :
    packagePrefix (c :: r1) = packagePrefix (c :: r2) ↔ packagePrefix r1 = packagePrefix r2 := by
  have e1 := packagePrefix_eq_nil r1
  have e2 := packagePrefix_eq_nil r2
  rw [packagePrefix_cons, packagePrefix_cons]
  by_cases hc : slash = c
  · rw [if_pos (by simp [hc]), if_pos (by simp [hc])]; simp
  · have m1 : (slash ∈ c :: r1) ↔ slash ∈ r1 := by simp [hc]
    have m2 : (slash ∈ c :: r2) ↔ slash ∈ r2 := by simp [hc]
    by_cases h1 : slash ∈ r1 <;> by_cases h2 : slash ∈ r2
    · rw [if_pos (m1.mpr h1), if_pos (m2.mpr h2)]; simp
    · rw [if_pos (m1.mpr h1), if_neg (fun h => h2 (m2.mp h))]
      have := e2.mpr h2
      constructor
      · intro h; simp at h
      · intro h; rw [this] at h; exact absurd h1 (e1.mp h)
    · rw [if_neg (fun h => h1 (m1.mp h)), if_pos (m2.mpr h2)]
      have := e1.mpr h1
      constructor
      · intro h; simp at h
      · intro h; rw [this] at h; exact absurd h2 (e2.mp h.symm)
    · rw [if_neg (fun h => h1 (m1.mp h)), if_neg (fun h => h2 (m2.mp h))]
      simp [e1.mpr h1, e2.mpr h2]

/-- What the descriptor comparison computes: no `'/'` at or after the first mismatch in either
text iff the two texts have the same package prefix. -/
theorem mismatch_packagePrefix : ∀ (d1 d2 : List Nat), (∀ b ∈ d1, b ≠ 0) →
    ((slash ∉ d1.drop (Class.IsInSamePackage.mismatch d1 d2 0) ∧
      slash ∉ d2.drop (Class.IsInSamePackage.mismatch d1 d2 0)) ↔
      packagePrefix d1 = packagePrefix d2)
  | [], d2, _ => by
    simp only [Class.IsInSamePackage.mismatch, List.drop_zero]
    have e : packagePrefix ([] : List Nat) = [] := by rw [packagePrefix]
    rw [e, eq_comm, packagePrefix_eq_nil]
    simp
  | c1 :: rest1, d2, hz => by
    have hc1 : c1 ≠ 0 := hz c1 (by simp)
    unfold Class.IsInSamePackage.mismatch
    by_cases h : c1 ≠ 0 ∧ c1 = d2.headD 0
    · rw [if_pos h]
      cases d2 with
      | nil => simp at h
      | cons c2 rest2 =>
        simp only [List.headD_cons] at h
        obtain ⟨_, rfl⟩ := h
        rw [mismatch_start, List.tail_cons]
        have ih := mismatch_packagePrefix rest1 rest2 (fun b hb => hz b (by simp [hb]))
        rw [packagePrefix_cons_inj, ← ih]
        simp [Nat.add_comm 1]
    · rw [if_neg h]
      simp only [List.drop_zero]
      rw [← packagePrefix_eq_nil, ← packagePrefix_eq_nil]
      constructor
      · rintro ⟨a, b⟩; rw [a, b]
      · intro e
        have key : packagePrefix (c1 :: rest1) = [] := by
          by_contra hne
          rw [packagePrefix_eq_nil, not_not] at hne
          have e1 : packagePrefix (c1 :: rest1) = c1 :: packagePrefix rest1 := by
            rw [packagePrefix_cons, if_pos hne]
          rw [e1] at e
          cases d2 with
          | nil => simp [packagePrefix] at e
          | cons c2 rest2 =>
            rw [packagePrefix_cons] at e
            split_ifs at e
            · simp at e
              exact h ⟨hc1, by simp [e.1]⟩
        exact ⟨key, by rw [← e]; exact key⟩

/-- The descriptor comparison is true exactly when the two modified UTF-8 texts have the same
package prefix. -/
theorem IsInSamePackageDescriptors_iff (s1 s2 : String) :
    Class.IsInSamePackageDescriptors s1 s2 = true ↔
      packagePrefix s1.ToModifiedUtf8 = packagePrefix s2.ToModifiedUtf8 := by
  rw [← mismatch_packagePrefix _ _ (String_ToModifiedUtf8_ne_zero s1)]
  unfold Class.IsInSamePackageDescriptors
  simp only [std_string_find_ne_none]
  split_ifs with h
  · simp only [Bool.false_eq_true, false_iff]
    tauto
  · simp only [true_iff]
    tauto

/-- C3. Package membership is symmetric for all classes, array classes and classes of
different loaders included. -/
theorem IsInSamePackage_symm (A B : Class) : A.IsInSamePackage B = B.IsInSamePackage A := by
  unfold Class.IsInSamePackage
  simp only []
  by_cases hAB : A.addr = B.addr
  · rw [if_pos hAB, if_pos hAB.symm]
  · rw [if_neg hAB, if_neg (Ne.symm hAB)]
    by_cases hl : A.GetClassLoader = B.GetClassLoader
    · rw [if_neg (not_not.mpr hl), if_neg (not_not.mpr hl.symm), Bool.eq_iff_iff,
        IsInSamePackageDescriptors_iff, IsInSamePackageDescriptors_iff]
      exact eq_comm
    · rw [if_pos hl, if_pos (Ne.symm hl)]

/-! ## Assignability -/

theorem Class.addr_mk (a f d l s c i) : (Class.mk a f d l s c i).addr = a := rfl

theorem Class.GetSuperClass_mk (a f d l s c i) :
    (Class.mk a f d l s c i).GetSuperClass = s := rfl

theorem Class.GetComponentType_mk (a f d l s c i) :
    (Class.mk a f d l s c i).GetComponentType = c := rfl

/-- The dispatch of `IsAssignableFrom` in terms of the accessors. -/
theorem IsAssignableFrom_eq (this src : Class) :
    this.IsAssignableFrom src =
      if this.addr = src.addr then true
      else if this.IsInterface then src.Implements this
      else match this.GetComponentType, src.GetComponentType with
        | some this_component, some src_component =>
          this_component.IsAssignableFrom src_component
        | none, some _ => Class.ptrEq (some this) src.GetSuperClass
        | _, none => src.IsSubClass this := by
  cases this with
  | mk a f d l s c i =>
    rw [Class.IsAssignableFrom.eq_def]
    simp only [Class.GetComponentType, Class.addr]

/-- The identity case: a class is assignable from the class at its own address. -/
theorem IsAssignableFrom_same (this src : Class) (h : this.addr = src.addr) :
    this.IsAssignableFrom src = true := by
  rw [IsAssignableFrom_eq, if_pos h]

theorem IsAssignableFrom_interface (this src : Class) (hne : this.addr ≠ src.addr)
    (h : this.IsInterface = true) :
    this.IsAssignableFrom src = src.Implements this := by
  rw [IsAssignableFrom_eq, if_neg hne, if_pos h]

theorem IsAssignableFrom_arrays (this src tc sc : Class) (hne : this.addr ≠ src.addr)
    (h : this.IsInterface = false)
    (ht : this.GetComponentType = some tc) (hs : src.GetComponentType = some sc) :
    this.IsAssignableFrom src = tc.IsAssignableFrom sc := by
  rw [IsAssignableFrom_eq, if_neg hne, h, ht, hs]; rfl

theorem IsAssignableFrom_root (this src sc : Class) (hne : this.addr ≠ src.addr)
    (h : this.IsInterface = false)
    (ht : this.GetComponentType = none) (hs : src.GetComponentType = some sc) :
    this.IsAssignableFrom src = Class.ptrEq (some this) src.GetSuperClass := by
  rw [IsAssignableFrom_eq, if_neg hne, h, ht, hs]; rfl

theorem IsAssignableFrom_plain (this src : Class) (hne : this.addr ≠ src.addr)
    (h : this.IsInterface = false)
    (hs : src.GetComponentType = none) :
    this.IsAssignableFrom src = src.IsSubClass this := by
  rw [IsAssignableFrom_eq, if_neg hne, h, hs]
  cases this.GetComponentType <;> rfl

/-- For a target that is not an interface and another class, an array, as source,
`IsAssignableFrom` is the source's `IsAssignableFromArray`. -/
theorem IsAssignableFrom_eq_IsAssignableFromArray (this src : Class)
    (hne : this.addr ≠ src.addr) (h : this.IsInterface = false)
    (hs : src.IsArrayClass = true) :
    this.IsAssignableFrom src = this.IsAssignableFromArray src := by
  unfold Class.IsArrayClass at hs
  obtain ⟨sc, hsc⟩ := Option.isSome_iff_exists.mp hs
  unfold Class.IsAssignableFromArray Class.IsArrayAssignableFromArray Class.IsArrayClass
  cases ht : this.GetComponentType with
  | none => rw [IsAssignableFrom_root this src sc hne h ht hsc]; simp
  | some tc => rw [IsAssignableFrom_arrays this src tc sc hne h ht hsc]; simp [hsc]

theorem superChain_eq (X : Class) :
    X.superChain = X :: (match X.GetSuperClass with
      | some current => current.superChain
      | none => []) := by
  cases X with
  | mk a f d l s c i => rw [Class.superChain.eq_def]; rfl

theorem componentChain_eq (X : Class) :
    X.componentChain = X :: (match X.GetComponentType with
      | some component => component.componentChain
      | none => []) := by
  cases X with
  | mk a f d l s c i => rw [Class.componentChain.eq_def]; rfl

theorem IsSubClass_eq (X klass : Class) :
    X.IsSubClass klass = if X.addr = klass.addr then true
      else match X.GetSuperClass with
        | some current => current.IsSubClass klass
        | none => false := by
  cases X with
  | mk a f d l s c i => rw [Class.IsSubClass.eq_def]; rfl

theorem IsSubClass_self (X : Class) : X.IsSubClass X = true := by
  rw [IsSubClass_eq, if_pos rfl]

theorem superChain_self (X : Class) : X ∈ X.superChain := by
  rw [superChain_eq]
  exact List.mem_cons_self _ _

/-- The walk of `IsSubClass` succeeds iff a class on the superclass chain has the address of
`klass`. -/
theorem IsSubClass_iff : ∀ (X klass : Class),
    X.IsSubClass klass = true ↔ ∃ S ∈ X.superChain, S.addr = klass.addr
  | .mk a f d l none c i, klass => by
    rw [IsSubClass_eq, superChain_eq]
    simp [Class.GetSuperClass_mk]
  | .mk a f d l (some sup) c i, klass => by
    rw [IsSubClass_eq, superChain_eq]
    have ih := IsSubClass_iff sup klass
    simp only [Class.GetSuperClass_mk, List.mem_cons, exists_eq_or_imp]
    by_cases h : (Class.mk a f d l (some sup) c i).addr = klass.addr
    · simp [h]
    · simp [h, ih]

theorem ptrEq_some (A : Class) (o : Option Class) :
    Class.ptrEq (some A) o = true ↔ ∃ S, o = some S ∧ A.addr = S.addr := by
  cases o with
  | none => simp [Class.ptrEq]
  | some S => simp [Class.ptrEq]

theorem isArrayClass_of_component {X K : Class} (h : X.GetComponentType = some K) :
    X.IsArrayClass = true := by
  simp [Class.IsArrayClass, h]

theorem isArrayClass_of_no_component {X : Class} (h : X.GetComponentType = none) :
    X.IsArrayClass = false := by
  simp [Class.IsArrayClass, h]

/-- The scan of `Implements` finds an entry iff the address of `klass` is listed. -/
theorem Implements_scan_iff (klass : Class) : ∀ (iftable : List InterfaceEntry),
    Class.Implements.scan klass iftable = true ↔
      klass.addr ∈ iftable.map (fun interface_entry => interface_entry.interface_)
  | [] => by simp [Class.Implements.scan]
  | e :: rest => by
    rw [Class.Implements.scan, List.map_cons, List.mem_cons]
    by_cases h : e.interface_ = klass.addr
    · simp [h]
    · have h2 : ¬ klass.addr = e.interface_ := fun x => h x.symm
      simp [h, h2, Implements_scan_iff klass rest]

/-- `X.Implements(J)` is true iff the interface table of `X` lists `J`. -/
theorem Implements_iff (X J : Class) :
    X.Implements J = true ↔ J.addr ∈ X.listedInterfaces := by
  unfold Class.Implements Class.listedInterfaces
  exact Implements_scan_iff J X.GetIfTable

/-- A class implements what its superclass implements. -/
theorem implements_of_super {loaded : Class → Prop} {root : Nat}
    (wf : ClassTable.WellFormed loaded root) (X S J : Class) (hX : loaded X)
    (hS : X.GetSuperClass = some S) (h : S.Implements J = true) : X.Implements J = true :=
  (Implements_iff X J).mpr (wf.iftable_super X S hX hS J.addr ((Implements_iff S J).mp h))

/-- A class implements the super-interfaces of the interfaces it implements. -/
theorem implements_of_interface {loaded : Class → Prop} {root : Nat}
    (wf : ClassTable.WellFormed loaded root) (X I J : Class) (hX : loaded X) (hI : loaded I)
    (h1 : X.Implements I = true) (h2 : I.Implements J = true) : X.Implements J = true :=
  (Implements_iff X J).mpr
    (wf.iftable_closed X I hX hI ((Implements_iff X I).mp h1) J.addr ((Implements_iff I J).mp h2))

/-- An array class implements what another array class implements. -/
theorem implements_of_array {loaded : Class → Prop} {root : Nat}
    (wf : ClassTable.WellFormed loaded root) (X Y J : Class) (hX : loaded X) (hY : loaded Y)
    (hXa : X.IsArrayClass = true) (hYa : Y.IsArrayClass = true)
    (h : X.Implements J = true) : Y.Implements J = true :=
  (Implements_iff Y J).mpr (wf.iftable_array X Y hX hY hXa hYa J.addr ((Implements_iff X J).mp h))

/-- A class that is not an array and implements an interface descends from the root class. -/
theorem rooted_of_implements {loaded : Class → Prop} {root : Nat}
    (wf : ClassTable.WellFormed loaded root) (X I : Class) (hX : loaded X)
    (hXa : X.IsArrayClass = false) (h : X.Implements I = true) :
    ∃ O ∈ X.superChain, O.addr = root :=
  wf.implementer_rooted X hX hXa
    (fun e => by have hm := (Implements_iff X I).mp h; rw [e] at hm; cases hm)

theorem superChain_loaded {loaded : Class → Prop} {root : Nat}
    (wf : ClassTable.WellFormed loaded root) : ∀ (X : Class), loaded X →
    ∀ S ∈ X.superChain, loaded S
  | .mk a f d l none c i, hX, S, hS => by
    rw [superChain_eq] at hS
    simp [Class.GetSuperClass_mk] at hS
    rw [hS]; exact hX
  | .mk a f d l (some sup) c i, hX, S, hS => by
    rw [superChain_eq] at hS
    simp only [Class.GetSuperClass_mk, List.mem_cons] at hS
    rcases hS with rfl | hS
    · exact hX
    · exact superChain_loaded wf sup (wf.super_loaded _ sup hX rfl) S hS

/-- Every class on a superclass chain other than its start is an ordinary class. -/
theorem superChain_plain {loaded : Class → Prop} {root : Nat}
    (wf : ClassTable.WellFormed loaded root) : ∀ (X : Class), loaded X →
    ∀ S ∈ X.superChain, S = X ∨ (S.IsArrayClass = false ∧ S.IsInterface = false)
  | .mk a f d l none c i, hX, S, hS => by
    rw [superChain_eq] at hS
    simp [Class.GetSuperClass_mk] at hS
    exact Or.inl hS
  | .mk a f d l (some sup) c i, hX, S, hS => by
    rw [superChain_eq] at hS
    simp only [Class.GetSuperClass_mk, List.mem_cons] at hS
    rcases hS with rfl | hS
    · exact Or.inl rfl
    · right
      rcases superChain_plain wf sup (wf.super_loaded _ sup hX rfl) S hS with rfl | h
      · exact wf.super_plain _ S hX rfl
      · exact h

/-- A class implements every interface that a class on its superclass chain implements. -/
theorem superChain_implements {loaded : Class → Prop} {root : Nat}
    (wf : ClassTable.WellFormed loaded root) (J : Class) : ∀ (X : Class), loaded X →
    ∀ S ∈ X.superChain, S.Implements J = true → X.Implements J = true
  | .mk a f d l none c i, hX, S, hS, hJ => by
    rw [superChain_eq] at hS
    simp [Class.GetSuperClass_mk] at hS
    rw [← hS]; exact hJ
  | .mk a f d l (some sup) c i, hX, S, hS, hJ => by
    rw [superChain_eq] at hS
    simp only [Class.GetSuperClass_mk, List.mem_cons] at hS
    rcases hS with rfl | hS
    · exact hJ
    · exact implements_of_super wf _ sup J hX rfl
        (superChain_implements wf J sup (wf.super_loaded _ sup hX rfl) S hS hJ)

theorem superChain_trans : ∀ (X S T : Class), S ∈ X.superChain → T ∈ S.superChain →
    T ∈ X.superChain
  | .mk a f d l none c i, S, T, hS, hT => by
    rw [superChain_eq] at hS
    simp [Class.GetSuperClass_mk] at hS
    rw [← hS]; exact hT
  | .mk a f d l (some sup) c i, S, T, hS, hT => by
    rw [superChain_eq] at hS
    simp only [Class.GetSuperClass_mk, List.mem_cons] at hS
    rcases hS with rfl | hS
    · exact hT
    · rw [superChain_eq]
      simp only [Class.GetSuperClass_mk, List.mem_cons]
      exact Or.inr (superChain_trans sup S T hS hT)

/-- Among loaded classes the walk of `IsSubClass` succeeds iff `klass` is on the chain. -/
theorem IsSubClass_mem {loaded : Class → Prop} {root : Nat}
    (wf : ClassTable.WellFormed loaded root) (X klass : Class) (hX : loaded X)
    (hK : loaded klass) : X.IsSubClass klass = true ↔ klass ∈ X.superChain := by
  rw [IsSubClass_iff]
  constructor
  · rintro ⟨S, hS, hadr⟩
    have : S = klass := wf.addr_inj S klass (superChain_loaded wf X hX S hS) hK hadr
    rw [← this]; exact hS
  · intro h
    exact ⟨klass, h, rfl⟩

/-- The chain of a class without superclass is the class alone. -/
theorem superChain_of_no_super (X : Class) (h : X.GetSuperClass = none) :
    X.superChain = [X] := by
  rw [superChain_eq, h]

/-- A loaded class that is assignable to an array class through the superclass walk does not
exist: the walk from `X` can only meet `X` itself or ordinary classes. -/
theorem not_IsSubClass_array {loaded : Class → Prop} {root : Nat}
    (wf : ClassTable.WellFormed loaded root) (X Y K : Class) (hX : loaded X) (hY : loaded Y)
    (hXc : X.GetComponentType = none) (hYc : Y.GetComponentType = some K) :
    X.IsSubClass Y = false := by
  by_contra hne
  have h : X.IsSubClass Y = true := by simpa using hne
  have hmem := (IsSubClass_mem wf X Y hX hY).mp h
  rcases superChain_plain wf X hX Y hmem with rfl | ⟨harr, _⟩
  · rw [hXc] at hYc; simp at hYc
  · rw [isArrayClass_of_component hYc] at harr; simp at harr

/-- One level of the transitivity proof: the component types are handled by `IH`. -/
theorem IsAssignableFrom_trans_step {loaded : Class → Prop} {root : Nat}
    (wf : ClassTable.WellFormed loaded root) (A B C : Class)
    (hA : loaded A) (hB : loaded B) (hC : loaded C)
    (IH : ∀ tc bc cc, A.GetComponentType = some tc → B.GetComponentType = some bc →
      C.GetComponentType = some cc → tc.IsAssignableFrom bc = true →
      bc.IsAssignableFrom cc = true → tc.IsAssignableFrom cc = true)
    (hAB : A.IsAssignableFrom B = true) (hBC : B.IsAssignableFrom C = true) :
    A.IsAssignableFrom C = true := by
  by_cases eAB : A.addr = B.addr
  · rw [wf.addr_inj A B hA hB eAB]
    exact hBC
  by_cases eBC : B.addr = C.addr
  · rw [← wf.addr_inj B C hB hC eBC]
    exact hAB
  by_cases eAC : A.addr = C.addr
  · exact IsAssignableFrom_same A C eAC
  have notIface : ∀ (X K : Class), loaded X → X.GetComponentType = some K →
      X.IsInterface = false :=
    fun X K hX h => wf.array_not_interface X hX (isArrayClass_of_component h)
  by_cases hAi : A.IsInterface = true
  · -- the target is an interface: `C` must list it in its interface table
    rw [IsAssignableFrom_interface A B eAB hAi] at hAB
    rw [IsAssignableFrom_interface A C eAC hAi]
    by_cases hBi : B.IsInterface = true
    · rw [IsAssignableFrom_interface B C eBC hBi] at hBC
      exact implements_of_interface wf C B A hC hB hBC hAB
    · have hBi : B.IsInterface = false := by simpa using hBi
      cases hCc : C.GetComponentType with
      | none =>
        rw [IsAssignableFrom_plain B C eBC hBi hCc] at hBC
        exact superChain_implements wf A C hC B ((IsSubClass_mem wf C B hC hB).mp hBC) hAB
      | some cc =>
        cases hBc : B.GetComponentType with
        | some bc =>
          exact implements_of_array wf B C A hB hC (isArrayClass_of_component hBc)
            (isArrayClass_of_component hCc) hAB
        | none =>
          rw [IsAssignableFrom_root B C cc eBC hBi hBc hCc] at hBC
          obtain ⟨S, hS, hadr⟩ := (ptrEq_some B _).mp hBC
          have hSB : S = B := wf.addr_inj S B (wf.super_loaded C S hC hS) hB hadr.symm
          rw [hSB] at hS
          exact implements_of_super wf C B A hC hS hAB
  · have hAi : A.IsInterface = false := by simpa using hAi
    cases hAc : A.GetComponentType with
    | some tc =>
      -- the target is an array class
      cases hBc : B.GetComponentType with
      | none =>
        rw [IsAssignableFrom_plain A B eAB hAi hBc, not_IsSubClass_array wf B A tc hB hA hBc hAc]
          at hAB
        simp at hAB
      | some bc =>
        have hBi := notIface B bc hB hBc
        rw [IsAssignableFrom_arrays A B tc bc eAB hAi hAc hBc] at hAB
        cases hCc : C.GetComponentType with
        | none =>
          rw [IsAssignableFrom_plain B C eBC hBi hCc,
            not_IsSubClass_array wf C B bc hC hB hCc hBc] at hBC
          simp at hBC
        | some cc =>
          rw [IsAssignableFrom_arrays B C bc cc eBC hBi hBc hCc] at hBC
          rw [IsAssignableFrom_arrays A C tc cc eAC hAi hAc hCc]
          exact IH tc bc cc hAc hBc hCc hAB hBC
    | none =>
      -- the target is an ordinary (or primitive) class
      cases hBc : B.GetComponentType with
      | some bc =>
        have hBi := notIface B bc hB hBc
        rw [IsAssignableFrom_root A B bc eAB hAi hAc hBc] at hAB
        obtain ⟨S, hS, hadr⟩ := (ptrEq_some A _).mp hAB
        obtain ⟨O, hO, hOroot⟩ := wf.array_super B hB (isArrayClass_of_component hBc)
        have hAroot : A.addr = root := by
          rw [hS] at hO; cases hO; rw [hadr]; exact hOroot
        cases hCc : C.GetComponentType with
        | none =>
          rw [IsAssignableFrom_plain B C eBC hBi hCc,
            not_IsSubClass_array wf C B bc hC hB hCc hBc] at hBC
          simp at hBC
        | some cc =>
          rw [IsAssignableFrom_root A C cc eAC hAi hAc hCc]
          obtain ⟨O2, hO2, hO2root⟩ := wf.array_super C hC (isArrayClass_of_component hCc)
          exact (ptrEq_some A _).mpr ⟨O2, hO2, by rw [hAroot, hO2root]⟩
      | none =>
        rw [IsAssignableFrom_plain A B eAB hAi hBc] at hAB
        have hAmem := (IsSubClass_mem wf B A hB hA).mp hAB
        by_cases hBi : B.IsInterface = true
        · -- `B` is an interface, so `A` is the root class
          rw [IsAssignableFrom_interface B C eBC hBi] at hBC
          obtain ⟨P, hP, hProot⟩ := wf.interface_super B hB hBi
          have hPl : loaded P := wf.super_loaded B P hB hP
          have hAroot : A.addr = root := by
            rw [superChain_eq, hP] at hAmem
            simp only [List.mem_cons] at hAmem
            rcases hAmem with rfl | hmem
            · rw [hAi] at hBi; simp at hBi
            · rw [superChain_of_no_super P (wf.root_super P hPl hProot)] at hmem
              simp at hmem
              rw [hmem]; exact hProot
          cases hCc : C.GetComponentType with
          | some cc =>
            rw [IsAssignableFrom_root A C cc eAC hAi hAc hCc]
            obtain ⟨O2, hO2, hO2root⟩ := wf.array_super C hC (isArrayClass_of_component hCc)
            exact (ptrEq_some A _).mpr ⟨O2, hO2, by rw [hAroot, hO2root]⟩
          | none =>
            rw [IsAssignableFrom_plain A C eAC hAi hCc, IsSubClass_iff]
            obtain ⟨O, hO, hOroot⟩ :=
              rooted_of_implements wf C B hC (isArrayClass_of_no_component hCc) hBC
            exact ⟨O, hO, by rw [hAroot, hOroot]⟩
        · have hBi : B.IsInterface = false := by simpa using hBi
          cases hCc : C.GetComponentType with
          | some cc =>
            rw [IsAssignableFrom_root B C cc eBC hBi hBc hCc] at hBC
            obtain ⟨S, hS, hadr⟩ := (ptrEq_some B _).mp hBC
            obtain ⟨O, hO, hOroot⟩ := wf.array_super C hC (isArrayClass_of_component hCc)
            have hBroot : B.addr = root := by
              rw [hS] at hO; cases hO; rw [hadr]; exact hOroot
            rw [superChain_of_no_super B (wf.root_super B hB hBroot)] at hAmem
            simp at hAmem
            rw [IsAssignableFrom_root A C cc eAC hAi hAc hCc, hAmem]
            exact hBC
          | none =>
            rw [IsAssignableFrom_plain B C eBC hBi hCc] at hBC
            rw [IsAssignableFrom_plain A C eAC hAi hCc]
            have hBmem := (IsSubClass_mem wf C B hC hB).mp hBC
            exact (IsSubClass_mem wf C A hC hA).mpr (superChain_trans C B A hBmem hAmem)

theorem IsAssignableFrom_trans_aux {loaded : Class → Prop} {root : Nat}
    (wf : ClassTable.WellFormed loaded root) : ∀ (A B C : Class),
    loaded A → loaded B → loaded C →
    A.IsAssignableFrom B = true → B.IsAssignableFrom C = true → A.IsAssignableFrom C = true
  | .mk a f d l s none i, B, C, hA, hB, hC, hAB, hBC =>
    IsAssignableFrom_trans_step wf _ B C hA hB hC
      (fun tc bc cc h _ _ _ _ => by simp [Class.GetComponentType_mk] at h) hAB hBC
  | .mk a f d l s (some component) i, B, C, hA, hB, hC, hAB, hBC =>
    IsAssignableFrom_trans_step wf _ B C hA hB hC
      (fun tc bc cc h hb hc h1 h2 => by
        simp only [Class.GetComponentType_mk, Option.some.injEq] at h
        subst h
        exact IsAssignableFrom_trans_aux wf component bc cc
          (wf.component_loaded _ component hA rfl) (wf.component_loaded B bc hB hb)
          (wf.component_loaded C cc hC hc) h1 h2) hAB hBC

/-- C4. Assignability is reflexive: for every class `A` (ordinary class, interface, array
class or primitive class), `A.is_assignable_from(A)` is true.  For a source `src` that is
another class, `is_assignable_from` dispatches to `src.Implements(A)` for an interface target,
to the assignability of the component types for two array classes, to the root-object test
(`A` is the superclass of `src`) for an array source with a non-array target, and to the
superclass walk of `src` otherwise. -/
theorem IsAssignableFrom_refl (A : Class) :
    A.IsAssignableFrom A = true ∧
    (∀ src, A.addr ≠ src.addr →
      (A.IsInterface = true → A.IsAssignableFrom src = src.Implements A) ∧
      (A.IsInterface = false → ∀ tc sc, A.GetComponentType = some tc →
        src.GetComponentType = some sc →
        A.IsAssignableFrom src = tc.IsAssignableFrom sc) ∧
      (A.IsInterface = false → A.GetComponentType = none → src.IsArrayClass = true →
        A.IsAssignableFrom src = Class.ptrEq (some A) src.GetSuperClass) ∧
      (A.IsInterface = false → src.GetComponentType = none →
        A.IsAssignableFrom src = src.IsSubClass A)) := by
  refine ⟨IsAssignableFrom_same A A rfl, ?_⟩
  intro src hne
  refine ⟨IsAssignableFrom_interface A src hne, ?_, ?_, IsAssignableFrom_plain A src hne⟩
  · intro hi tc sc ht hs
    exact IsAssignableFrom_arrays A src tc sc hne hi ht hs
  · intro hi hc hs
    obtain ⟨sc, hsc⟩ := Option.isSome_iff_exists.mp hs
    exact IsAssignableFrom_root A src sc hne hi hc hsc

/-- C4 witness: the interface `Runnable`, whose interface table is empty, and the array class
`Task[]` are assignable from themselves; from the other class `Task`, `Runnable` is assignable
as `Task.Implements(Runnable)` says. -/
theorem IsAssignableFrom_refl_witness :
    Sample.java_lang_Runnable.IsAssignableFrom Sample.java_lang_Runnable = true ∧
    Sample.Task_array.IsAssignableFrom Sample.Task_array = true ∧
    Sample.java_lang_Runnable.IsAssignableFrom Sample.Task =
      Sample.Task.Implements Sample.java_lang_Runnable :=
  ⟨(IsAssignableFrom_refl Sample.java_lang_Runnable).1,
    (IsAssignableFrom_refl Sample.Task_array).1,
    ((IsAssignableFrom_refl Sample.java_lang_Runnable).2 Sample.Task (by decide)).1
      (by decide)⟩

theorem Sample.loaded_cases {X : Class} (h : Sample.loaded X) :
    X = Sample.java_lang_Object ∨ X = Sample.java_lang_Runnable ∨ X = Sample.Task ∨
      X = Sample.SubTask ∨ X = Sample.Task_array ∨ X = Sample.SubTask_array := by
  simpa [Sample.loaded] using h

theorem Sample.not_Implements_of_empty (X J : Class) (h : X.GetIfTable = []) :
    X.Implements J = false := by
  unfold Class.Implements
  rw [h]
  rfl

/-- The sample class table satisfies the invariants of the class linker. -/
theorem Sample.wellFormed : ClassTable.WellFormed Sample.loaded 0x1000 where
  super_loaded := by
    intro X S hX h
    rcases loaded_cases hX with rfl | rfl | rfl | rfl | rfl | rfl <;> cases h <;>
      simp [loaded]
  component_loaded := by
    intro X K hX h
    rcases loaded_cases hX with rfl | rfl | rfl | rfl | rfl | rfl <;> cases h <;>
      simp [loaded]
  addr_inj := by
    intro X Y hX hY h
    rcases loaded_cases hX with rfl | rfl | rfl | rfl | rfl | rfl <;>
      rcases loaded_cases hY with rfl | rfl | rfl | rfl | rfl | rfl <;>
      first
        | rfl
        | (exfalso; revert h; decide)
  array_not_interface := by
    intro X hX h
    rcases loaded_cases hX with rfl | rfl | rfl | rfl | rfl | rfl <;> revert h <;> decide
  array_super := by
    intro X hX h
    rcases loaded_cases hX with rfl | rfl | rfl | rfl | rfl | rfl <;>
      first
        | exact ⟨java_lang_Object, rfl, rfl⟩
        | (exfalso; revert h; decide)
  interface_super := by
    intro X hX h
    rcases loaded_cases hX with rfl | rfl | rfl | rfl | rfl | rfl <;>
      first
        | (exfalso; revert h; decide)
        | exact ⟨java_lang_Object, rfl, rfl⟩
  root_super := by
    intro X hX h
    rcases loaded_cases hX with rfl | rfl | rfl | rfl | rfl | rfl <;>
      first
        | rfl
        | (exfalso; revert h; decide)
  super_plain := by
    intro X S hX h
    rcases loaded_cases hX with rfl | rfl | rfl | rfl | rfl | rfl <;> cases h <;>
      exact ⟨by decide, by decide⟩
  iftable_super := by
    intro X S hX h a ha
    rcases loaded_cases hX with rfl | rfl | rfl | rfl | rfl | rfl <;> cases h <;>
      first
        | exact ha
        | (exfalso; revert ha; simp [Class.listedInterfaces, Class.GetIfTable,
            java_lang_Object, plainClass])
  iftable_closed := by
    intro X I hX hI h1 a ha
    rcases loaded_cases hI with rfl | rfl | rfl | rfl | rfl | rfl <;>
      rcases loaded_cases hX with rfl | rfl | rfl | rfl | rfl | rfl <;>
      first
        | (exfalso; revert h1; decide)
        | (exfalso; revert ha; simp [Class.listedInterfaces, Class.GetIfTable,
            java_lang_Runnable])
  iftable_array := by
    intro X Y hX hY hXa hYa a ha
    rcases loaded_cases hX with rfl | rfl | rfl | rfl | rfl | rfl <;>
      first
        | (exfalso; revert hXa; decide)
        | (exfalso; revert ha; simp [Class.listedInterfaces, Class.GetIfTable,
            Task_array, SubTask_array])
  implementer_rooted := by
    intro X hX _ _
    rcases loaded_cases hX with rfl | rfl | rfl | rfl | rfl | rfl <;>
      exact (IsSubClass_iff _ java_lang_Object).mp (by decide)

/-- Counterexample to C5 as stated.  `Limits` and `Bounded` are interfaces, the interface table
of `Bounded` lists `Limits`, and the interface table of the class `Dial` lists `Bounded` only:
`Limits` is assignable from `Bounded` and `Bounded` from `Dial`, and `Limits` is not assignable
from `Dial`, whose table `Implements` scans without following `Bounded`. -/
theorem IsAssignableFrom_trans_counterexample :
    Sample.Limits.IsAssignableFrom Sample.Bounded = true ∧
    Sample.Bounded.IsAssignableFrom Sample.Dial = true ∧
    Sample.Limits.IsAssignableFrom Sample.Dial = false ∧
    Sample.Dial.Implements Sample.Bounded = true ∧
    Sample.Bounded.Implements Sample.Limits = true ∧
    Sample.Dial.Implements Sample.Limits = false := by
  decide

/-- C5 (as amended). Assignability is transitive on the classes of a linked class table, that
is a table in which an address denotes one class object, arrays and interfaces have the root
class (a class without superclass) as superclass, superclasses are ordinary classes, and the
interface tables are flattened as `Implements` expects (the table of a class lists the
interfaces its superclass lists and the interfaces that the interfaces it lists list; array
classes list the same interfaces; a class that is not an array and lists an interface descends
from the root class): for all classes `A`, `B`, `C` of such a table, if `A` is assignable from
`B` and `B` from `C`, then `A` is assignable from `C`, in every mix of interfaces, array
classes, ordinary and primitive classes. -/
theorem IsAssignableFrom_trans {loaded : Class → Prop} {root : Nat}
    (wf : ClassTable.WellFormed loaded root) (A B C : Class)
    (hA : loaded A) (hB : loaded B) (hC : loaded C)
    (hAB : A.IsAssignableFrom B = true) (hBC : B.IsAssignableFrom C = true) :
    A.IsAssignableFrom C = true :=
  IsAssignableFrom_trans_aux wf A B C hA hB hC hAB hBC

/-- C5 witness: in the sample class table `Runnable` is assignable from `Task` and `Task` from
`SubTask`, so `Runnable` from `SubTask`; and the root class is assignable from `Task[]` and
`Task[]` from `SubTask[]`, so the root class from `SubTask[]`. -/
theorem IsAssignableFrom_trans_witness :
    (Sample.java_lang_Runnable.IsAssignableFrom Sample.Task = true ∧
      Sample.Task.IsAssignableFrom Sample.SubTask = true ∧
      Sample.java_lang_Runnable.IsAssignableFrom Sample.SubTask = true) ∧
    (Sample.java_lang_Object.IsAssignableFrom Sample.Task_array = true ∧
      Sample.Task_array.IsAssignableFrom Sample.SubTask_array = true ∧
      Sample.java_lang_Object.IsAssignableFrom Sample.SubTask_array = true) :=
  ⟨⟨by decide, by decide,
      IsAssignableFrom_trans Sample.wellFormed Sample.java_lang_Runnable Sample.Task
        Sample.SubTask (by simp [Sample.loaded]) (by simp [Sample.loaded])
        (by simp [Sample.loaded]) (by decide) (by decide)⟩,
    ⟨by decide, by decide,
      IsAssignableFrom_trans Sample.wellFormed Sample.java_lang_Object Sample.Task_array
        Sample.SubTask_array (by simp [Sample.loaded]) (by simp [Sample.loaded])
        (by simp [Sample.loaded]) (by decide) (by decide)⟩⟩

/-! ## PC mapping -/

/-- The pointer difference `(code + n) - code`, truncated to `uint32_t`, is `n`. -/
theorem sought_offset_of_entry (bits code n : Nat) (hbits : 32 ≤ bits) (hcode : code < 2 ^ bits)
    (hn : n < 2 ^ 32) :
    (((code + n) % 2 ^ bits + 2 ^ bits - code) % 2 ^ bits) % 2 ^ 32 = n := by
  have hle : 2 ^ 32 ≤ 2 ^ bits := Nat.pow_le_pow_right (by norm_num) hbits
  have hn' : n < 2 ^ bits := lt_of_lt_of_le hn hle
  have key : ((code + n) % 2 ^ bits + 2 ^ bits - code) % 2 ^ bits = n := by
    by_cases hw : code + n < 2 ^ bits
    · rw [Nat.mod_eq_of_lt hw]
      have e : code + n + 2 ^ bits - code = n + 2 ^ bits := by omega
      rw [e, Nat.add_mod_right, Nat.mod_eq_of_lt hn']
    · have hge : 2 ^ bits ≤ code + n := Nat.le_of_not_lt hw
      have hlt : code + n - 2 ^ bits < 2 ^ bits := by omega
      rw [Nat.mod_eq_sub_mod hge, Nat.mod_eq_of_lt hlt]
      have e : code + n - 2 ^ bits + 2 ^ bits - code = n := by omega
      rw [e, Nat.mod_eq_of_lt hn']
  rw [key, Nat.mod_eq_of_lt hn]

/-- The loop of `ToDexPC` stops at the first pair whose native offset is the sought one and
returns its bytecode offset, whatever the best candidate so far. -/
theorem ToDexPC_loop_exact (sought d : Nat) (post : List (Nat × Nat)) :
    ∀ (pre : List (Nat × Nat)) (best_offset best_dex_offset : Nat),
    (∀ e ∈ pre, e.1 ≠ sought) →
    Method.ToDexPC.loop sought (pre ++ (sought, d) :: post) best_offset best_dex_offset = d
  | [], _, _, _ => by
    simp [Method.ToDexPC.loop]
  | (n', d') :: pre, best_offset, best_dex_offset, h => by
    have hne : n' ≠ sought := h (n', d') (by simp)
    have hrest : ∀ e ∈ pre, e.1 ≠ sought := fun e he => h e (by simp [he])
    rw [List.cons_append, Method.ToDexPC.loop, if_neg hne]
    split_ifs
    · exact ToDexPC_loop_exact sought d post pre _ _ hrest
    · exact ToDexPC_loop_exact sought d post pre _ _ hrest

/-- The loop of `ToNativePC` returns at the first pair whose bytecode offset is `dex_pc`. -/
theorem ToNativePC_loop_first (bits code dex_pc n : Nat) (post : List (Nat × Nat)) :
    ∀ (pre : List (Nat × Nat)), (∀ e ∈ pre, e.2 ≠ dex_pc) →
    Method.ToNativePC.loop bits code dex_pc (pre ++ (n, dex_pc) :: post) =
      .returned ((code + n) % 2 ^ bits)
  | [], _ => by
    simp [Method.ToNativePC.loop]
  | (n', d') :: pre, h => by
    have hne : d' ≠ dex_pc := h (n', d') (by simp)
    rw [List.cons_append, Method.ToNativePC.loop, if_neg hne]
    exact ToNativePC_loop_first bits code dex_pc n post pre (fun e he => h e (by simp [he]))

/-- The loop of `ToNativePC` reaches `LOG(FATAL)` iff no pair has the bytecode offset. -/
theorem ToNativePC_loop_fatal (bits code dex_pc : Nat) :
    ∀ (table : List (Nat × Nat)),
    (∃ log, Method.ToNativePC.loop bits code dex_pc table = .fatal log) ↔
      ∀ e ∈ table, e.2 ≠ dex_pc
  | [] => by
    simp [Method.ToNativePC.loop]
  | (n', d') :: rest => by
    rw [Method.ToNativePC.loop]
    by_cases h : d' = dex_pc
    · rw [if_pos h]
      simp [h]
    · rw [if_neg h, ToNativePC_loop_fatal bits code dex_pc rest]
      simp [h]

/-- What the loop of `ToDexPC` computes from a starting candidate `best_offset`: the bytecode
offset of an exactly matching pair if there is one; otherwise the bytecode offset of a pair
with the largest native offset strictly between `best_offset` and the sought offset, and the
starting `best_dex_offset` when no pair lies in between. -/
theorem ToDexPC_loop_spec (sought : Nat) :
    ∀ (table : List (Nat × Nat)) (best_offset best_dex_offset : Nat),
    (∃ e ∈ table, e.1 = sought ∧
      Method.ToDexPC.loop sought table best_offset best_dex_offset = e.2) ∨
    ((∀ e ∈ table, e.1 ≠ sought) ∧
      (((∀ e ∈ table, e.1 < sought → e.1 ≤ best_offset) ∧
          Method.ToDexPC.loop sought table best_offset best_dex_offset = best_dex_offset) ∨
        (∃ e ∈ table, best_offset < e.1 ∧ e.1 < sought ∧
          Method.ToDexPC.loop sought table best_offset best_dex_offset = e.2 ∧
          ∀ e' ∈ table, e'.1 < sought → e'.1 ≤ e.1)))
  | [], best_offset, best_dex_offset => by
    right
    simp [Method.ToDexPC.loop]
  | (n, d) :: rest, best_offset, best_dex_offset => by
    rw [Method.ToDexPC.loop]
    by_cases hex : n = sought
    · left
      exact ⟨(n, d), by simp, hex, by rw [if_pos hex]⟩
    · rw [if_neg hex]
      by_cases hbetter : n < sought ∧ n > best_offset
      · rw [if_pos hbetter]
        rcases ToDexPC_loop_spec sought rest n d with ⟨e, he, hes, hr⟩ | ⟨hno, h⟩
        · exact Or.inl ⟨e, by simp [he], hes, hr⟩
        · right
          refine ⟨?_, Or.inr ?_⟩
          · intro e he
            rcases List.mem_cons.mp he with rfl | he
            · exact hex
            · exact hno e he
          · rcases h with ⟨hmax, hr⟩ | ⟨e, he, hlo, hhi, hr, hmax⟩
            · refine ⟨(n, d), by simp, hbetter.2, hbetter.1, hr, ?_⟩
              intro e' he' hlt
              rcases List.mem_cons.mp he' with rfl | he'
              · exact le_refl _
              · exact hmax e' he' hlt
            · refine ⟨e, by simp [he], by omega, hhi, hr, ?_⟩
              intro e' he' hlt
              rcases List.mem_cons.mp he' with rfl | he'
              · exact le_of_lt hlo
              · exact hmax e' he' hlt
      · rw [if_neg hbetter]
        rcases ToDexPC_loop_spec sought rest best_offset best_dex_offset with
          ⟨e, he, hes, hr⟩ | ⟨hno, h⟩
        · exact Or.inl ⟨e, by simp [he], hes, hr⟩
        · right
          refine ⟨?_, ?_⟩
          · intro e he
            rcases List.mem_cons.mp he with rfl | he
            · exact hex
            · exact hno e he
          · rcases h with ⟨hmax, hr⟩ | ⟨e, he, hlo, hhi, hr, hmax⟩
            · left
              refine ⟨?_, hr⟩
              intro e' he' hlt
              rcases List.mem_cons.mp he' with rfl | he'
              · simp only [not_and, not_lt] at hbetter
                exact hbetter hlt
              · exact hmax e' he' hlt
            · right
              refine ⟨e, by simp [he], hlo, hhi, hr, ?_⟩
              intro e' he' hlt
              rcases List.mem_cons.mp he' with rfl | he'
              · simp only [not_and, not_lt] at hbetter
                exact le_trans (hbetter hlt) (le_of_lt hlo)
              · exact hmax e' he' hlt

/-- On a mapping table without an entry at native offset 0, `ToDexPC` does return the bytecode
offset of an entry with the largest native offset not above the sought offset, whenever some
entry is not above it. -/
theorem ToDexPC_largest_of_positive_offsets (bits : Nat) (m : Method) (pc : Nat)
    (table : List (Nat × Nat)) (htable : m.mapping_table_ = some table)
    (hpos : ∀ e ∈ table, 0 < e.1)
    (hsome : ∃ e ∈ table, e.1 ≤ ((pc + 2 ^ bits - m.code_) % 2 ^ bits) % 2 ^ 32) :
    ∃ e ∈ table, e.1 ≤ ((pc + 2 ^ bits - m.code_) % 2 ^ bits) % 2 ^ 32 ∧
      (∀ e' ∈ table, e'.1 ≤ ((pc + 2 ^ bits - m.code_) % 2 ^ bits) % 2 ^ 32 → e'.1 ≤ e.1) ∧
      Method.ToDexPC bits m pc = e.2 := by
  unfold Method.ToDexPC
  rw [htable]
  simp only []
  generalize ((pc + 2 ^ bits - m.code_) % 2 ^ bits) % 2 ^ 32 = sought at hsome ⊢
  rcases ToDexPC_loop_spec sought table 0 0 with ⟨e, he, hes, hr⟩ | ⟨hno, h⟩
  · exact ⟨e, he, le_of_eq hes, fun e' _ hle => by rw [hes]; exact hle, hr⟩
  · rcases h with ⟨hmax, _⟩ | ⟨e, he, _, hhi, hr, hmax⟩
    · obtain ⟨e, he, hle⟩ := hsome
      have hlt : e.1 < sought := lt_of_le_of_ne hle (hno e he)
      have := hmax e he hlt
      have := hpos e he
      omega
    · refine ⟨e, he, le_of_lt hhi, ?_, hr⟩
      intro e' he' hle
      exact hmax e' he' (lt_of_le_of_ne hle (hno e' he'))

/-- C6 (failing input). With the mapping table `[(0, 5)]` and a pc three bytes into the code,
the entry `(0, 5)` is the one with the largest native offset `≤ 3`, yet `ToDexPC` returns 0: an
entry at native offset 0 never replaces the initial `best_offset = 0`. -/
theorem ToDexPC_ignores_offset_zero_entry :
    (Sample.methodWithTable (some [(0, 5)])).mapping_table_ = some [(0, 5)] ∧
    (0x8003 + 2 ^ 32 - (Sample.methodWithTable (some [(0, 5)])).code_) % 2 ^ 32 % 2 ^ 32 = 3 ∧
    Method.ToDexPC 32 (Sample.methodWithTable (some [(0, 5)])) 0x8003 = 0 := by
  decide

/-- Counterexample to C7 as stated.  The round trip fails on an entry that repeats a native
offset: with the table `[(4, 1), (4, 2)]` the entry `(4, 2)` is mapped, yet
`ToDexPC(code_base + 4)` is 1. -/
theorem PC_round_trip_counterexample :
    (4, 2) ∈ [((4 : Nat), (1 : Nat)), (4, 2)] ∧
    (Sample.methodWithTable (some [(4, 1), (4, 2)])).code_ = 0x8000 ∧
    Method.ToDexPC 32 (Sample.methodWithTable (some [(4, 1), (4, 2)])) (0x8000 + 4) = 1 ∧
    Method.ToDexPC 32 (Sample.methodWithTable (some [(4, 1), (4, 2)])) (0x8000 + 4) ≠ 2 := by
  decide

/-- C7 (as amended). For an entry `(n, d)` of the mapping table: if no earlier entry has the
native offset `n`, `ToDexPC(code_base + n)` is `d`; if no earlier entry has the bytecode offset
`d`, `ToNativePC(d)` returns `code_base + n` (pointer arithmetic of `bits` bits). -/
theorem PC_round_trip_first_entries (bits : Nat) (m : Method) (pre post : List (Nat × Nat))
    (n d : Nat) (hbits : 32 ≤ bits) (hcode : m.code_ < 2 ^ bits) (hn : n < 2 ^ 32)
    (htable : m.mapping_table_ = some (pre ++ (n, d) :: post)) :
    ((∀ e ∈ pre, e.1 ≠ n) → Method.ToDexPC bits m ((m.code_ + n) % 2 ^ bits) = d) ∧
    ((∀ e ∈ pre, e.2 ≠ d) →
      Method.ToNativePC bits m d = .returned ((m.code_ + n) % 2 ^ bits)) := by
  constructor
  · intro h
    unfold Method.ToDexPC
    rw [htable]
    simp only []
    rw [sought_offset_of_entry bits m.code_ n hbits hcode hn]
    exact ToDexPC_loop_exact n d post pre 0 0 h
  · intro h
    unfold Method.ToNativePC
    rw [htable]
    exact ToNativePC_loop_first bits m.code_ d n post pre h

/-- The round trip on the second entry of the table `[(4, 1), (12, 7)]`. -/
theorem PC_round_trip_first_entries_witness :
    Method.ToDexPC 32 (Sample.methodWithTable (some [(4, 1), (12, 7)])) 0x800c = 7 ∧
    Method.ToNativePC 32 (Sample.methodWithTable (some [(4, 1), (12, 7)])) 7 =
      .returned 0x800c :=
  ⟨(PC_round_trip_first_entries 32 (Sample.methodWithTable (some [(4, 1), (12, 7)]))
      [(4, 1)] [] 12 7 (by decide) (by decide) (by decide) rfl).1 (by decide),
    (PC_round_trip_first_entries 32 (Sample.methodWithTable (some [(4, 1), (12, 7)]))
      [(4, 1)] [] 12 7 (by decide) (by decide) (by decide) rfl).2 (by decide)⟩

/-- C8. With a mapping table, `ToNativePC(d)` returns `code_base + n` for the first entry
`(n, d)` with bytecode offset `d` and ends in `LOG(FATAL)` iff no entry has that bytecode
offset; without a mapping table the asserted argument is 0 and the result is 0. -/
theorem ToNativePC_spec (bits : Nat) (m : Method) (d : Nat) :
    (∀ table, m.mapping_table_ = some table →
      (∀ pre n post, table = pre ++ (n, d) :: post → (∀ e ∈ pre, e.2 ≠ d) →
        Method.ToNativePC bits m d = .returned ((m.code_ + n) % 2 ^ bits)) ∧
      ((∃ log, Method.ToNativePC bits m d = .fatal log) ↔ ∀ e ∈ table, e.2 ≠ d)) ∧
    (m.mapping_table_ = none →
      (Method.ToNativePC_DCHECK m d ↔ d = 0) ∧ Method.ToNativePC bits m d = .returned 0) := by
  constructor
  · intro table htable
    unfold Method.ToNativePC
    rw [htable]
    refine ⟨?_, ToNativePC_loop_fatal bits m.code_ d table⟩
    intro pre n post hsplit h
    rw [hsplit]
    exact ToNativePC_loop_first bits m.code_ d n post pre h
  · intro hnone
    unfold Method.ToNativePC Method.ToNativePC_DCHECK
    rw [hnone]
    simp

/-- `ToNativePC` on the table `[(4, 7), (8, 7)]`: bytecode offset 7 gives the first entry,
bytecode offset 9 is fatal; and without a table the argument 0 gives 0. -/
theorem ToNativePC_spec_witness :
    Method.ToNativePC 32 (Sample.methodWithTable (some [(4, 7), (8, 7)])) 7 = .returned 0x8004 ∧
    (∃ log, Method.ToNativePC 32 (Sample.methodWithTable (some [(4, 7), (8, 7)])) 9 =
      .fatal log) ∧
    Method.ToNativePC_DCHECK (Sample.methodWithTable none) 0 ∧
    Method.ToNativePC 32 (Sample.methodWithTable none) 0 = .returned 0 :=
  ⟨((ToNativePC_spec 32 (Sample.methodWithTable (some [(4, 7), (8, 7)])) 7).1
      [(4, 7), (8, 7)] rfl).1 [] 4 [(8, 7)] rfl (by simp),
    ((ToNativePC_spec 32 (Sample.methodWithTable (some [(4, 7), (8, 7)])) 9).1
      [(4, 7), (8, 7)] rfl).2.mpr (by decide),
    ((ToNativePC_spec 32 (Sample.methodWithTable none) 0).2 rfl).1.mpr rfl,
    ((ToNativePC_spec 32 (Sample.methodWithTable none) 0).2 rfl).2⟩

/-! ## Catch-handler search -/

theorem FindCatchBlock_loop_cons (dex_cache : DexCache) (E : Class) (it : CatchHandler)
    (rest : List CatchHandler) :
    Method.FindCatchBlock.loop dex_cache E (it :: rest) =
      if it.type_idx = DexFile.kDexNoIndex16 then it.address
      else match dex_cache.GetResolvedType it.type_idx with
        | none => Method.FindCatchBlock.loop dex_cache E rest
        | some iter_exception_type =>
          if iter_exception_type.IsAssignableFrom E then it.address
          else Method.FindCatchBlock.loop dex_cache E rest := by
  rw [Method.FindCatchBlock.loop]

/-- A handler that does not catch the exception is passed over. -/
theorem FindCatchBlock_loop_skip (dex_cache : DexCache) (E : Class) (it : CatchHandler)
    (rest : List CatchHandler) (h : ¬ it.catches dex_cache E) :
    Method.FindCatchBlock.loop dex_cache E (it :: rest) =
      Method.FindCatchBlock.loop dex_cache E rest := by
  unfold CatchHandler.catches at h
  rw [not_or] at h
  rw [FindCatchBlock_loop_cons, if_neg h.1]
  cases hres : dex_cache.GetResolvedType it.type_idx with
  | none => rfl
  | some T =>
    have hT : ¬ T.IsAssignableFrom E = true := fun hT => h.2 ⟨T, hres, hT⟩
    simp only [if_neg hT]

/-- A handler that catches the exception ends the search with its address. -/
theorem FindCatchBlock_loop_take (dex_cache : DexCache) (E : Class) (it : CatchHandler)
    (rest : List CatchHandler) (h : it.catches dex_cache E) :
    Method.FindCatchBlock.loop dex_cache E (it :: rest) = it.address := by
  rw [FindCatchBlock_loop_cons]
  by_cases hall : it.type_idx = DexFile.kDexNoIndex16
  · rw [if_pos hall]
  · rw [if_neg hall]
    rcases h with h | ⟨T, hres, hT⟩
    · exact absurd h hall
    · rw [hres]
      simp only [if_pos hT]

theorem FindCatchBlock_loop_first (dex_cache : DexCache) (E : Class) (h : CatchHandler)
    (post : List CatchHandler) (hh : h.catches dex_cache E) :
    ∀ (pre : List CatchHandler), (∀ x ∈ pre, ¬ x.catches dex_cache E) →
    Method.FindCatchBlock.loop dex_cache E (pre ++ h :: post) = h.address
  | [], _ => FindCatchBlock_loop_take dex_cache E h post hh
  | x :: pre, hpre => by
    rw [List.cons_append, FindCatchBlock_loop_skip dex_cache E x _ (hpre x (by simp))]
    exact FindCatchBlock_loop_first dex_cache E h post hh pre
      (fun y hy => hpre y (by simp [hy]))

theorem FindCatchBlock_loop_none (dex_cache : DexCache) (E : Class) :
    ∀ (handlers : List CatchHandler), (∀ x ∈ handlers, ¬ x.catches dex_cache E) →
    Method.FindCatchBlock.loop dex_cache E handlers = DexFile.kDexNoIndex
  | [], _ => by rw [Method.FindCatchBlock.loop]
  | x :: rest, h => by
    rw [FindCatchBlock_loop_skip dex_cache E x _ (h x (by simp))]
    exact FindCatchBlock_loop_none dex_cache E rest (fun y hy => h y (by simp [hy]))

/-- C9. `FindCatchBlock` returns the address of the first handler, in the iteration order of
the code item for the pc, that is the catch-all handler or whose type is resolved in the dex
cache and assignable from the exception class; a handler whose type is unresolved does not
catch and is passed over; when no handler catches, the result is `NO_INDEX`. -/
theorem FindCatchBlock_first_catching_handler (m : Method) (E : Class) (dex_pc : Nat) :
    (∀ pre h post, m.code_item_.catch_handlers dex_pc = pre ++ h :: post →
      (∀ x ∈ pre, ¬ x.catches m.dex_cache_ E) → h.catches m.dex_cache_ E →
      Method.FindCatchBlock m E dex_pc = h.address) ∧
    ((∀ x ∈ m.code_item_.catch_handlers dex_pc, ¬ x.catches m.dex_cache_ E) →
      Method.FindCatchBlock m E dex_pc = DexFile.kDexNoIndex) := by
  constructor
  · intro pre h post hsplit hpre hh
    unfold Method.FindCatchBlock
    rw [hsplit]
    exact FindCatchBlock_loop_first m.dex_cache_ E h post hh pre hpre
  · intro hnone
    exact FindCatchBlock_loop_none m.dex_cache_ E _ hnone

/-- In the sample dex cache the `IOException` handler does not catch an `Error`. -/
theorem Sample.IOException_handler_not_catches_Error :
    ¬ (CatchHandler.mk 2 0x50).catches Sample.dexCache Sample.java_lang_Error := by
  rintro (h | ⟨T, hres, hT⟩)
  · revert h; decide
  · have e : Sample.java_io_IOException = T := by
      simpa [Sample.dexCache, DexCache.GetResolvedType] using hres
    subst e
    revert hT; decide

/-- An `Error` thrown at pc `0x10` of the sample method passes the `IOException` handler and
is caught by the catch-all handler at `0x40`; at a pc without handlers the result is
`NO_INDEX`. -/
theorem FindCatchBlock_first_catching_handler_witness :
    Method.FindCatchBlock Sample.methodCatchAllLast Sample.java_lang_Error 0x10 = 0x40 ∧
    Method.FindCatchBlock Sample.methodCatchAllLast Sample.java_lang_Error 0x20 =
      DexFile.kDexNoIndex :=
  ⟨(FindCatchBlock_first_catching_handler Sample.methodCatchAllLast Sample.java_lang_Error
      0x10).1 [⟨2, 0x50⟩] ⟨DexFile.kDexNoIndex16, 0x40⟩ [] rfl
      (by
        intro x hx
        rw [List.mem_singleton] at hx
        subst hx
        exact Sample.IOException_handler_not_catches_Error)
      (Or.inl rfl),
    (FindCatchBlock_first_catching_handler Sample.methodCatchAllLast Sample.java_lang_Error
      0x20).2 (by
        intro x hx
        simp [Sample.methodCatchAllLast] at hx)⟩

/-- Counterexample to C10 as stated.  In the catch-search scenario with the handlers in the
listed order the catch-all handler comes first, so a thrown `IOException` is sent to `0x40`,
not to `0x50`. -/
theorem FindCatchBlock_scenario_counterexample :
    Sample.methodCatchAllFirst.code_item_.catch_handlers 0x10 =
      [⟨DexFile.kDexNoIndex16, 0x40⟩, ⟨2, 0x50⟩] ∧
    Sample.java_lang_Error.IsSubClass Sample.java_io_IOException = false ∧
    Sample.java_io_IOException.IsAssignableFrom Sample.java_io_IOException = true ∧
    Method.FindCatchBlock Sample.methodCatchAllFirst Sample.java_io_IOException 0x10 = 0x40 ∧
    Method.FindCatchBlock Sample.methodCatchAllFirst Sample.java_io_IOException 0x10 ≠ 0x50 := by
  decide

/-- C10 (as amended). With `IOException` resolved at type index `idx`, assignable from the
class `Thrown` of a thrown `IOException` and not assignable from `Error`: when the handlers of
the pc are the `IOException` handler `0x50` followed by the catch-all handler `0x40`,
`FindCatchBlock` returns `0x50` for the thrown `IOException` and `0x40` for a thrown `Error`;
when the catch-all handler is listed first, it returns `0x40` for both. -/
theorem FindCatchBlock_scenario (m : Method) (IOException Thrown Error : Class)
    (idx dex_pc : Nat) (hidx : idx ≠ DexFile.kDexNoIndex16)
    (hres : m.dex_cache_.GetResolvedType idx = some IOException)
    (hThrown : IOException.IsAssignableFrom Thrown = true)
    (hErr : IOException.IsAssignableFrom Error = false) :
    (m.code_item_.catch_handlers dex_pc = [⟨idx, 0x50⟩, ⟨DexFile.kDexNoIndex16, 0x40⟩] →
      Method.FindCatchBlock m Thrown dex_pc = 0x50 ∧
      Method.FindCatchBlock m Error dex_pc = 0x40) ∧
    (m.code_item_.catch_handlers dex_pc = [⟨DexFile.kDexNoIndex16, 0x40⟩, ⟨idx, 0x50⟩] →
      Method.FindCatchBlock m Thrown dex_pc = 0x40 ∧
      Method.FindCatchBlock m Error dex_pc = 0x40) := by
  have hcatch : (CatchHandler.mk idx 0x50).catches m.dex_cache_ Thrown :=
    Or.inr ⟨IOException, hres, hThrown⟩
  have hskip : ¬ (CatchHandler.mk idx 0x50).catches m.dex_cache_ Error := by
    rintro (h | ⟨T, hT, hA⟩)
    · exact hidx h
    · rw [hres] at hT
      cases hT
      rw [hErr] at hA
      simp at hA
  have hall : ∀ E, (CatchHandler.mk DexFile.kDexNoIndex16 0x40).catches m.dex_cache_ E :=
    fun E => Or.inl rfl
  constructor
  · intro hlist
    unfold Method.FindCatchBlock
    rw [hlist]
    refine ⟨FindCatchBlock_loop_take _ _ _ _ hcatch, ?_⟩
    rw [FindCatchBlock_loop_skip _ _ _ _ hskip]
    exact FindCatchBlock_loop_take _ _ _ _ (hall _)
  · intro hlist
    unfold Method.FindCatchBlock
    rw [hlist]
    exact ⟨FindCatchBlock_loop_take _ _ _ _ (hall _), FindCatchBlock_loop_take _ _ _ _ (hall _)⟩

/-- The scenario on the sample methods: catch-all last gives `0x50` and `0x40`, catch-all
first gives `0x40` twice. -/
theorem FindCatchBlock_scenario_witness :
    (Method.FindCatchBlock Sample.methodCatchAllLast Sample.java_io_IOException 0x10 = 0x50 ∧
      Method.FindCatchBlock Sample.methodCatchAllLast Sample.java_lang_Error 0x10 = 0x40) ∧
    (Method.FindCatchBlock Sample.methodCatchAllFirst Sample.java_io_IOException 0x10 = 0x40 ∧
      Method.FindCatchBlock Sample.methodCatchAllFirst Sample.java_lang_Error 0x10 = 0x40) :=
  ⟨(FindCatchBlock_scenario Sample.methodCatchAllLast Sample.java_io_IOException
      Sample.java_io_IOException Sample.java_lang_Error 2 0x10 (by decide) rfl (by decide)
      (by decide)).1 rfl,
    (FindCatchBlock_scenario Sample.methodCatchAllFirst Sample.java_io_IOException
      Sample.java_io_IOException Sample.java_lang_Error 2 0x10 (by decide) rfl (by decide)
      (by decide)).2 rfl⟩

/-! ## Class status -/

/-- The condition of the first `CHECK` of `SetStatus` decides the whole call. -/
theorem SetStatus_eq (pretty : List Char) (started : Bool) (cur new : Class.Status) :
    (new > cur ∨ new = Class.kStatusError ∨ started = false →
      Class.SetStatus pretty started cur new = { result := .returned (), status_ := new }) ∧
    (¬ (new > cur ∨ new = Class.kStatusError ∨ started = false) →
      Class.SetStatus pretty started cur new =
        { result := .fatal (pretty ++ " ".data ++ Class.Status.print cur ++ " -> ".data ++
            Class.Status.print new)
          status_ := cur }) := by
  constructor
  · intro h
    unfold Class.SetStatus
    rw [if_neg (not_not.mpr h), if_neg (by decide)]
  · intro h
    unfold Class.SetStatus
    rw [if_pos h]

/-- C11. `Class::SetStatus(new)` returns and stores `new` as the class status iff
`new > current`, or `new == Error`, or the runtime has not started; in every other case it ends
in a failed `CHECK` and the stored status is unchanged. -/
theorem SetStatus_succeeds_iff (pretty : List Char) (started : Bool) (cur new : Class.Status) :
    (((Class.SetStatus pretty started cur new).result = .returned () ∧
        (Class.SetStatus pretty started cur new).status_ = new) ↔
      (new > cur ∨ new = Class.kStatusError ∨ started = false)) ∧
    (¬ (new > cur ∨ new = Class.kStatusError ∨ started = false) →
      (∃ log, (Class.SetStatus pretty started cur new).result = .fatal log) ∧
      (Class.SetStatus pretty started cur new).status_ = cur) := by
  obtain ⟨hok, hfail⟩ := SetStatus_eq pretty started cur new
  refine ⟨⟨?_, fun h => by rw [hok h]; exact ⟨rfl, rfl⟩⟩,
    fun h => by rw [hfail h]; exact ⟨⟨_, rfl⟩, rfl⟩⟩
  intro hres
  by_contra h
  rw [hfail h] at hres
  exact absurd hres.1 (by simp)

/-- With the runtime started, `Loaded -> Resolved` and `Verified -> Error` are stored, and
`Resolved -> Loaded` fails and leaves `Resolved`; before the start `Resolved -> Loaded` is
stored. -/
theorem SetStatus_succeeds_iff_witness :
    ((Class.SetStatus "LFoo;".data true Class.kStatusLoaded Class.kStatusResolved).result =
        .returned () ∧
      (Class.SetStatus "LFoo;".data true Class.kStatusLoaded Class.kStatusResolved).status_ =
        Class.kStatusResolved) ∧
    ((Class.SetStatus "LFoo;".data true Class.kStatusVerified Class.kStatusError).result =
        .returned () ∧
      (Class.SetStatus "LFoo;".data true Class.kStatusVerified Class.kStatusError).status_ =
        Class.kStatusError) ∧
    ((Class.SetStatus "LFoo;".data false Class.kStatusResolved Class.kStatusLoaded).result =
        .returned () ∧
      (Class.SetStatus "LFoo;".data false Class.kStatusResolved Class.kStatusLoaded).status_ =
        Class.kStatusLoaded) ∧
    ((∃ log, (Class.SetStatus "LFoo;".data true Class.kStatusResolved
        Class.kStatusLoaded).result = .fatal log) ∧
      (Class.SetStatus "LFoo;".data true Class.kStatusResolved Class.kStatusLoaded).status_ =
        Class.kStatusResolved) :=
  ⟨(SetStatus_succeeds_iff "LFoo;".data true Class.kStatusLoaded Class.kStatusResolved).1.mpr
      (by decide),
    (SetStatus_succeeds_iff "LFoo;".data true Class.kStatusVerified Class.kStatusError).1.mpr
      (by decide),
    (SetStatus_succeeds_iff "LFoo;".data false Class.kStatusResolved Class.kStatusLoaded).1.mpr
      (by decide),
    (SetStatus_succeeds_iff "LFoo;".data true Class.kStatusResolved Class.kStatusLoaded).2
      (by decide)⟩

/-- Every transition that a sequence of `SetStatus` calls makes while the runtime is started
goes to a greater status or to `Error`. -/
theorem SetStatus_transitions_monotone (pretty : List Char) :
    ∀ (calls : List (Bool × Class.Status)) (status_ : Class.Status),
    ∀ t ∈ Class.SetStatus.transitions pretty status_ calls,
      t.2.2 = true → t.2.1 > t.1 ∨ t.2.1 = Class.kStatusError
  | [], _, t, ht => by simp [Class.SetStatus.transitions] at ht
  | (started, new) :: rest, cur, t, ht => by
    obtain ⟨hok, hfail⟩ := SetStatus_eq pretty started cur new
    rw [Class.SetStatus.transitions] at ht
    by_cases h : new > cur ∨ new = Class.kStatusError ∨ started = false
    · rw [hok h] at ht
      simp only [List.mem_cons] at ht
      rcases ht with rfl | ht
      · intro hstarted
        simp only at hstarted
        rcases h with h | h | h
        · exact Or.inl h
        · exact Or.inr h
        · rw [h] at hstarted; simp at hstarted
      · exact SetStatus_transitions_monotone pretty rest new t ht
    · rw [hfail h] at ht
      simp at ht

/-- Counterexample to C12 as stated.  Before the runtime has started `SetStatus` accepts every
status: the successful transition `Resolved -> Loaded` goes neither up nor to `Error`. -/
theorem SetStatus_monotone_counterexample :
    Class.SetStatus.transitions "LFoo;".data Class.kStatusResolved
        [(false, Class.kStatusLoaded)] =
      [(Class.kStatusResolved, Class.kStatusLoaded, false)] ∧
    ¬ (Class.kStatusLoaded > Class.kStatusResolved ∨
      Class.kStatusLoaded = Class.kStatusError) := by
  decide

/-- C12 (as amended). Monotonic class status once the runtime is started: in every sequence of
`SetStatus` calls on a class, each successful transition made while the runtime is started
satisfies `new_status > old_status` or `new_status = Error`. -/
theorem SetStatus_monotone_when_started (pretty : List Char) (status_ : Class.Status)
    (calls : List (Bool × Class.Status)) (old new : Class.Status)
    (h : (old, new, true) ∈ Class.SetStatus.transitions pretty status_ calls) :
    new > old ∨ new = Class.kStatusError :=
  SetStatus_transitions_monotone pretty calls status_ (old, new, true) h rfl

/-- The sequence `NotReady -> Loaded -> Error` with the runtime started: its second transition
goes to `Error`. -/
theorem SetStatus_monotone_when_started_witness :
    (Class.kStatusLoaded, Class.kStatusError, true) ∈
        Class.SetStatus.transitions "LFoo;".data Class.kStatusNotReady
          [(true, Class.kStatusLoaded), (true, Class.kStatusError)] ∧
    (Class.kStatusError > Class.kStatusLoaded ∨ Class.kStatusError = Class.kStatusError) :=
  ⟨by decide,
    SetStatus_monotone_when_started "LFoo;".data Class.kStatusNotReady
      [(true, Class.kStatusLoaded), (true, Class.kStatusError)] Class.kStatusLoaded
      Class.kStatusError (by decide)⟩

/-- Counterexample to C13 as stated.  With the runtime started, `SetStatus(Loaded)` on a class
whose status is `Error` returns and stores `Loaded`: `Error` is the lowest value, so every
other status is greater. -/
theorem SetStatus_Error_terminal_counterexample :
    Class.Status.print Class.kStatusError = "Error".data ∧
    Class.Status.print Class.kStatusLoaded = "Loaded".data ∧
    (Class.SetStatus "LFoo;".data true Class.kStatusError Class.kStatusLoaded).result =
      .returned () ∧
    (Class.SetStatus "LFoo;".data true Class.kStatusError Class.kStatusLoaded).status_ =
      Class.kStatusLoaded ∧
    Class.kStatusLoaded ≠ Class.kStatusError := by
  decide

/-- C13 (as amended). `SetStatus` does not make `Error` terminal: with the runtime started, a
call on a class whose status is `Error` returns and stores the new status for every status of
the name table (`Error` up to `Initialized`, all of them at least `Error`), and fails only for a
value below `Error`. -/
theorem SetStatus_from_Error (pretty : List Char) (new : Class.Status) :
    (Class.kStatusError ≤ new →
      (Class.SetStatus pretty true Class.kStatusError new).result = .returned () ∧
      (Class.SetStatus pretty true Class.kStatusError new).status_ = new) ∧
    (new < Class.kStatusError →
      (∃ log, (Class.SetStatus pretty true Class.kStatusError new).result = .fatal log) ∧
      (Class.SetStatus pretty true Class.kStatusError new).status_ = Class.kStatusError) := by
  obtain ⟨hok, hfail⟩ := SetStatus_eq pretty true Class.kStatusError new
  constructor
  · intro h
    have hc : new > Class.kStatusError ∨ new = Class.kStatusError ∨ true = false := by
      rcases lt_or_eq_of_le h with h | h
      · exact Or.inl h
      · exact Or.inr (Or.inl h.symm)
    rw [hok hc]
    exact ⟨rfl, rfl⟩
  · intro h
    have hc : ¬ (new > Class.kStatusError ∨ new = Class.kStatusError ∨ true = false) := by
      rintro (h' | h' | h')
      · exact absurd h' (not_lt.mpr (le_of_lt h))
      · exact absurd h' (ne_of_lt h)
      · exact absurd h' (by decide)
    rw [hfail hc]
    exact ⟨⟨_, rfl⟩, rfl⟩

/-- From `Error`, with the runtime started, `SetStatus(NotReady)` and `SetStatus(Initialized)`
are stored. -/
theorem SetStatus_from_Error_witness :
    ((Class.SetStatus "LFoo;".data true Class.kStatusError Class.kStatusNotReady).result =
        .returned () ∧
      (Class.SetStatus "LFoo;".data true Class.kStatusError Class.kStatusNotReady).status_ =
        Class.kStatusNotReady) ∧
    ((∃ log, (Class.SetStatus "LFoo;".data true Class.kStatusError (-2)).result =
        .fatal log) ∧
      (Class.SetStatus "LFoo;".data true Class.kStatusError (-2)).status_ =
        Class.kStatusError) :=
  ⟨(SetStatus_from_Error "LFoo;".data Class.kStatusNotReady).1 (by decide),
    (SetStatus_from_Error "LFoo;".data (-2)).2 (by decide)⟩

/-! ## Dex cache: the code-and-direct-methods table -/

theorem CodeAndDirectMethods.Get_Set_same (t : CodeAndDirectMethods) (i : Nat) (v : Int)
    (h : i < t.data.length) : (t.Set i v).Get i = v := by
  unfold CodeAndDirectMethods.Set CodeAndDirectMethods.Get
  rw [if_pos h]
  simp [List.getD_eq_getElem?_getD, h]

theorem CodeAndDirectMethods.Get_Set_other (t : CodeAndDirectMethods) (i j : Nat) (v : Int)
    (h : j ≠ i) : (t.Set i v).Get j = t.Get j := by
  unfold CodeAndDirectMethods.Set CodeAndDirectMethods.Get
  split_ifs
  · simp [List.getD_eq_getElem?_getD, List.getElem?_set_ne (Ne.symm h)]
  · rfl

theorem CodeAndDirectMethods.Set_length (t : CodeAndDirectMethods) (i : Nat) (v : Int) :
    (t.Set i v).data.length = t.data.length := by
  unfold CodeAndDirectMethods.Set
  split_ifs
  · simp
  · rfl

/-- The two stores of a resolved entry (or of a trampoline entry): the two slots of the method
index hold the values stored and every other slot is unchanged. -/
theorem CodeAndDirectMethods.store_pair (t : CodeAndDirectMethods) (i : Nat) (code method : Int)
    (h : CodeAndDirectMethods.MethodIndex i < t.data.length) :
    ((t.Set (CodeAndDirectMethods.CodeIndex i) code).Set
        (CodeAndDirectMethods.MethodIndex i) method).Get (CodeAndDirectMethods.CodeIndex i) =
      code ∧
    ((t.Set (CodeAndDirectMethods.CodeIndex i) code).Set
        (CodeAndDirectMethods.MethodIndex i) method).Get (CodeAndDirectMethods.MethodIndex i) =
      method ∧
    (∀ k, k ≠ CodeAndDirectMethods.CodeIndex i → k ≠ CodeAndDirectMethods.MethodIndex i →
      ((t.Set (CodeAndDirectMethods.CodeIndex i) code).Set
        (CodeAndDirectMethods.MethodIndex i) method).Get k = t.Get k) ∧
    ((t.Set (CodeAndDirectMethods.CodeIndex i) code).Set
        (CodeAndDirectMethods.MethodIndex i) method).data.length = t.data.length := by
  have hne : CodeAndDirectMethods.CodeIndex i ≠ CodeAndDirectMethods.MethodIndex i := by
    unfold CodeAndDirectMethods.CodeIndex CodeAndDirectMethods.MethodIndex; omega
  have hc : CodeAndDirectMethods.CodeIndex i < t.data.length := by
    unfold CodeAndDirectMethods.CodeIndex CodeAndDirectMethods.MethodIndex at *; omega
  refine ⟨?_, ?_, ?_, ?_⟩
  · rw [CodeAndDirectMethods.Get_Set_other _ _ _ _ hne,
      CodeAndDirectMethods.Get_Set_same _ _ _ hc]
  · rw [CodeAndDirectMethods.Get_Set_same]
    rw [CodeAndDirectMethods.Set_length]
    exact h
  · intro k hk1 hk2
    rw [CodeAndDirectMethods.Get_Set_other _ _ _ _ hk2,
      CodeAndDirectMethods.Get_Set_other _ _ _ _ hk1]
  · rw [CodeAndDirectMethods.Set_length, CodeAndDirectMethods.Set_length]

/-- The slots of another method index are neither the code slot nor the method slot. -/
theorem CodeAndDirectMethods.slots_of_other_index (i j : Nat) (h : j ≠ i) :
    CodeAndDirectMethods.CodeIndex j ≠ CodeAndDirectMethods.CodeIndex i ∧
    CodeAndDirectMethods.CodeIndex j ≠ CodeAndDirectMethods.MethodIndex i ∧
    CodeAndDirectMethods.MethodIndex j ≠ CodeAndDirectMethods.CodeIndex i ∧
    CodeAndDirectMethods.MethodIndex j ≠ CodeAndDirectMethods.MethodIndex i := by
  unfold CodeAndDirectMethods.CodeIndex CodeAndDirectMethods.MethodIndex
  omega

/-- The result of `SetResolvedDirectMethod` for a method that passes the three `CHECK`s. -/
theorem SetResolvedDirectMethod_ok (pm : Method → List Char) (t : CodeAndDirectMethods)
    (i : Nat) (m : Method) (hd : m.IsDirect = true) (hc : m.GetCode ≠ 0) :
    CodeAndDirectMethods.SetResolvedDirectMethod pm t i (some m) =
      { result := .returned ()
        table :=
          (t.Set (CodeAndDirectMethods.CodeIndex i) (reinterpret_cast_int32 m.GetCode)).Set
            (CodeAndDirectMethods.MethodIndex i) (reinterpret_cast_int32 m.addr) } := by
  unfold CodeAndDirectMethods.SetResolvedDirectMethod
  simp only []
  rw [if_neg (not_not.mpr hd), if_neg (not_not.mpr hc)]

/-- The result of `SetResolvedDirectMethod` for a method that fails a `CHECK`. -/
theorem SetResolvedDirectMethod_fail (pm : Method → List Char) (t : CodeAndDirectMethods)
    (i : Nat) (method : Option Method)
    (h : method = none ∨ ∃ m, method = some m ∧ (m.IsDirect = false ∨ m.GetCode = 0)) :
    (∃ log, (CodeAndDirectMethods.SetResolvedDirectMethod pm t i method).result =
      .fatal log) ∧
    (CodeAndDirectMethods.SetResolvedDirectMethod pm t i method).table = t := by
  rcases h with rfl | ⟨m, rfl, hm⟩
  · exact ⟨⟨_, rfl⟩, rfl⟩
  · unfold CodeAndDirectMethods.SetResolvedDirectMethod
    simp only []
    by_cases hd : m.IsDirect = true
    · have hc : m.GetCode = 0 := by
        rcases hm with hm | hm
        · rw [hd] at hm; simp at hm
        · exact hm
      rw [if_neg (not_not.mpr hd), if_pos (not_not.mpr hc)]
      exact ⟨⟨_, rfl⟩, rfl⟩
    · rw [if_pos hd]
      exact ⟨⟨_, rfl⟩, rfl⟩

/-- C14. After `SetResolvedDirectMethod(i, m)` with `m` non-null, direct and with code, for a
method index `i` of the table: the call returns, the code slot of `i` holds the code entry point
of `m` and the method slot holds `m` (as `int32_t` words), and the slots of every other method
index, as every other word of the table, are unchanged.  If `m` is null, not direct or has no
code, the call ends in a failed `CHECK` and the table is unchanged. -/
theorem SetResolvedDirectMethod_spec (pm : Method → List Char) (t : CodeAndDirectMethods)
    (i : Nat) (method : Option Method) :
    (∀ m, method = some m → m.IsDirect = true → m.GetCode ≠ 0 →
      CodeAndDirectMethods.MethodIndex i < t.data.length →
      (CodeAndDirectMethods.SetResolvedDirectMethod pm t i method).result = .returned () ∧
      (CodeAndDirectMethods.SetResolvedDirectMethod pm t i method).table.Get
        (CodeAndDirectMethods.CodeIndex i) = reinterpret_cast_int32 m.GetCode ∧
      (CodeAndDirectMethods.SetResolvedDirectMethod pm t i method).table.Get
        (CodeAndDirectMethods.MethodIndex i) = reinterpret_cast_int32 m.addr ∧
      (∀ j, j ≠ i →
        (CodeAndDirectMethods.SetResolvedDirectMethod pm t i method).table.Get
          (CodeAndDirectMethods.CodeIndex j) = t.Get (CodeAndDirectMethods.CodeIndex j) ∧
        (CodeAndDirectMethods.SetResolvedDirectMethod pm t i method).table.Get
          (CodeAndDirectMethods.MethodIndex j) = t.Get (CodeAndDirectMethods.MethodIndex j)) ∧
      (CodeAndDirectMethods.SetResolvedDirectMethod pm t i method).table.data.length =
        t.data.length) ∧
    ((method = none ∨ ∃ m, method = some m ∧ (m.IsDirect = false ∨ m.GetCode = 0)) →
      (∃ log, (CodeAndDirectMethods.SetResolvedDirectMethod pm t i method).result =
        .fatal log) ∧
      (CodeAndDirectMethods.SetResolvedDirectMethod pm t i method).table = t) := by
  refine ⟨?_, SetResolvedDirectMethod_fail pm t i method⟩
  rintro m rfl hd hc hi
  rw [SetResolvedDirectMethod_ok pm t i m hd hc]
  obtain ⟨h1, h2, h3, h4⟩ := CodeAndDirectMethods.store_pair t i
    (reinterpret_cast_int32 m.GetCode) (reinterpret_cast_int32 m.addr) hi
  refine ⟨rfl, h1, h2, ?_, h4⟩
  intro j hj
  obtain ⟨a, b, c, d⟩ := CodeAndDirectMethods.slots_of_other_index i j hj
  exact ⟨h3 _ a b, h3 _ c d⟩

/-- On the seeded sample table, resolving method index 1 to the private sample method stores
its code and address in the second pair and leaves the first pair; a virtual method and `NULL`
are refused and leave the table as it was. -/
theorem SetResolvedDirectMethod_spec_witness :
    (CodeAndDirectMethods.SetResolvedDirectMethod Sample.prettyMethod Sample.seededTable 1
      (some Sample.directMethod)).table = { data := [0x6000, 0, 0x8100, 0x7300] } ∧
    ((CodeAndDirectMethods.SetResolvedDirectMethod Sample.prettyMethod Sample.seededTable 1
        (some Sample.directMethod)).result = .returned () ∧
      (CodeAndDirectMethods.SetResolvedDirectMethod Sample.prettyMethod Sample.seededTable 1
        (some Sample.directMethod)).table.Get (CodeAndDirectMethods.CodeIndex 1) =
          reinterpret_cast_int32 Sample.directMethod.GetCode) ∧
    (CodeAndDirectMethods.SetResolvedDirectMethod Sample.prettyMethod Sample.seededTable 1
      (some Sample.virtualMethod)).table = Sample.seededTable ∧
    (CodeAndDirectMethods.SetResolvedDirectMethod Sample.prettyMethod Sample.seededTable 1
      none).table = Sample.seededTable :=
  ⟨by decide,
    ⟨((SetResolvedDirectMethod_spec Sample.prettyMethod Sample.seededTable 1
        (some Sample.directMethod)).1 Sample.directMethod rfl (by decide) (by decide)
        (by decide)).1,
      ((SetResolvedDirectMethod_spec Sample.prettyMethod Sample.seededTable 1
        (some Sample.directMethod)).1 Sample.directMethod rfl (by decide) (by decide)
        (by decide)).2.1⟩,
    ((SetResolvedDirectMethod_spec Sample.prettyMethod Sample.seededTable 1
      (some Sample.virtualMethod)).2 (Or.inr ⟨Sample.virtualMethod, rfl, Or.inl (by decide)⟩)).2,
    ((SetResolvedDirectMethod_spec Sample.prettyMethod Sample.seededTable 1 none).2
      (Or.inl rfl)).2⟩

/-- Counterexample to C15 as stated.  On the seeded sample table method index 0 is resolved to
the private sample method; a later `SetResolvedDirectMethod(0, m')` with the static sample
method returns and replaces both slots. -/
theorem SetResolvedDirectMethod_write_once_counterexample :
    (CodeAndDirectMethods.SetResolvedDirectMethod Sample.prettyMethod Sample.seededTable 0
      (some Sample.directMethod)).table = { data := [0x8100, 0x7300, 0x6000, 1] } ∧
    (CodeAndDirectMethods.SetResolvedDirectMethod Sample.prettyMethod
      (CodeAndDirectMethods.SetResolvedDirectMethod Sample.prettyMethod Sample.seededTable 0
        (some Sample.directMethod)).table 0 (some Sample.otherDirectMethod)).result =
      .returned () ∧
    (CodeAndDirectMethods.SetResolvedDirectMethod Sample.prettyMethod
      (CodeAndDirectMethods.SetResolvedDirectMethod Sample.prettyMethod Sample.seededTable 0
        (some Sample.directMethod)).table 0 (some Sample.otherDirectMethod)).table =
      { data := [0x8200, 0x7400, 0x6000, 1] } := by
  decide

/-- C15 (as amended). `SetResolvedDirectMethod` does not keep an entry write-once: a later call
`SetResolvedDirectMethod(i, m')` with `m'` non-null, direct and with code returns and stores
the code entry point of `m'` and `m'` itself in the slots of `i`, so the slots keep their
content only if they already held these two words.  The slots of `i` are left as they are by a
call that fails a `CHECK` and by a call for another method index. -/
theorem SetResolvedDirectMethod_overwrites (pm : Method → List Char)
    (t : CodeAndDirectMethods) (i : Nat) (m' : Method)
    (hi : CodeAndDirectMethods.MethodIndex i < t.data.length)
    (hd : m'.IsDirect = true) (hc : m'.GetCode ≠ 0) :
    ((CodeAndDirectMethods.SetResolvedDirectMethod pm t i (some m')).result = .returned () ∧
      (CodeAndDirectMethods.SetResolvedDirectMethod pm t i (some m')).table.Get
        (CodeAndDirectMethods.CodeIndex i) = reinterpret_cast_int32 m'.GetCode ∧
      (CodeAndDirectMethods.SetResolvedDirectMethod pm t i (some m')).table.Get
        (CodeAndDirectMethods.MethodIndex i) = reinterpret_cast_int32 m'.addr) ∧
    (((CodeAndDirectMethods.SetResolvedDirectMethod pm t i (some m')).table.Get
          (CodeAndDirectMethods.CodeIndex i) = t.Get (CodeAndDirectMethods.CodeIndex i) ∧
        (CodeAndDirectMethods.SetResolvedDirectMethod pm t i (some m')).table.Get
          (CodeAndDirectMethods.MethodIndex i) = t.Get (CodeAndDirectMethods.MethodIndex i)) ↔
      (t.Get (CodeAndDirectMethods.CodeIndex i) = reinterpret_cast_int32 m'.GetCode ∧
        t.Get (CodeAndDirectMethods.MethodIndex i) = reinterpret_cast_int32 m'.addr)) ∧
    (∀ j, j ≠ i →
      (CodeAndDirectMethods.SetResolvedDirectMethod pm t j (some m')).table.Get
        (CodeAndDirectMethods.CodeIndex i) = t.Get (CodeAndDirectMethods.CodeIndex i) ∧
      (CodeAndDirectMethods.SetResolvedDirectMethod pm t j (some m')).table.Get
        (CodeAndDirectMethods.MethodIndex i) = t.Get (CodeAndDirectMethods.MethodIndex i)) ∧
    (∀ method, (method = none ∨ ∃ m, method = some m ∧ (m.IsDirect = false ∨ m.GetCode = 0)) →
      (CodeAndDirectMethods.SetResolvedDirectMethod pm t i method).table = t) := by
  obtain ⟨h1, h2, _, _⟩ := CodeAndDirectMethods.store_pair t i
    (reinterpret_cast_int32 m'.GetCode) (reinterpret_cast_int32 m'.addr) hi
  refine ⟨?_, ?_, ?_, fun method h => (SetResolvedDirectMethod_fail pm t i method h).2⟩
  · rw [SetResolvedDirectMethod_ok pm t i m' hd hc]
    exact ⟨rfl, h1, h2⟩
  · rw [SetResolvedDirectMethod_ok pm t i m' hd hc]
    simp only []
    rw [h1, h2]
    constructor
    · rintro ⟨a, b⟩; exact ⟨a.symm, b.symm⟩
    · rintro ⟨a, b⟩; exact ⟨a.symm, b.symm⟩
  · intro j hj
    rw [SetResolvedDirectMethod_ok pm t j m' hd hc]
    simp only []
    obtain ⟨a, b, c, d⟩ := CodeAndDirectMethods.slots_of_other_index j i (Ne.symm hj)
    constructor
    · rw [CodeAndDirectMethods.Get_Set_other _ _ _ _ b,
        CodeAndDirectMethods.Get_Set_other _ _ _ _ a]
    · rw [CodeAndDirectMethods.Get_Set_other _ _ _ _ d,
        CodeAndDirectMethods.Get_Set_other _ _ _ _ c]

/-- On the table in which method index 0 is resolved to the private sample method, a call with
the static sample method stores that method and its code. -/
theorem SetResolvedDirectMethod_overwrites_witness :
    (CodeAndDirectMethods.SetResolvedDirectMethod Sample.prettyMethod
      { data := [0x8100, 0x7300, 0x6000, 1] } 0 (some Sample.otherDirectMethod)).result =
        .returned () ∧
    (CodeAndDirectMethods.SetResolvedDirectMethod Sample.prettyMethod
      { data := [0x8100, 0x7300, 0x6000, 1] } 0 (some Sample.otherDirectMethod)).table.Get
        (CodeAndDirectMethods.CodeIndex 0) =
      reinterpret_cast_int32 Sample.otherDirectMethod.GetCode ∧
    (CodeAndDirectMethods.SetResolvedDirectMethod Sample.prettyMethod
      { data := [0x8100, 0x7300, 0x6000, 1] } 0 (some Sample.otherDirectMethod)).table.Get
        (CodeAndDirectMethods.MethodIndex 0) =
      reinterpret_cast_int32 Sample.otherDirectMethod.addr :=
  (SetResolvedDirectMethod_overwrites Sample.prettyMethod
    { data := [0x8100, 0x7300, 0x6000, 1] } 0 Sample.otherDirectMethod (by decide) (by decide)
    (by decide)).1

/-! ## Dex cache: initialisation -/

theorem SetResolvedDirectMethodTrampoline_other (sentinel : Nat → Int)
    (t : CodeAndDirectMethods) (n tramp k : Nat)
    (h1 : k ≠ CodeAndDirectMethods.CodeIndex n) (h2 : k ≠ CodeAndDirectMethods.MethodIndex n) :
    (t.SetResolvedDirectMethodTrampoline sentinel n tramp).Get k = t.Get k := by
  unfold CodeAndDirectMethods.SetResolvedDirectMethodTrampoline
  rw [CodeAndDirectMethods.Get_Set_other _ _ _ _ h2,
    CodeAndDirectMethods.Get_Set_other _ _ _ _ h1]

theorem SetResolvedDirectMethodTrampoline_length (sentinel : Nat → Int)
    (t : CodeAndDirectMethods) (n tramp : Nat) :
    (t.SetResolvedDirectMethodTrampoline sentinel n tramp).data.length = t.data.length := by
  unfold CodeAndDirectMethods.SetResolvedDirectMethodTrampoline
  rw [CodeAndDirectMethods.Set_length, CodeAndDirectMethods.Set_length]

/-- The seeding loop of `DexCache::Init` over the first `n` method indices: their code slots
hold the trampoline, the words from `2 * n` on are unchanged. -/
theorem Init_loop_spec (sentinel : Nat → Int) (tramp : Nat) (t : CodeAndDirectMethods) :
    ∀ (n : Nat),
    (DexCache.Init.loop sentinel tramp n t).data.length = t.data.length ∧
    (∀ i, i < n → CodeAndDirectMethods.MethodIndex i < t.data.length →
      (DexCache.Init.loop sentinel tramp n t).Get (CodeAndDirectMethods.CodeIndex i) =
        reinterpret_cast_int32 tramp) ∧
    (∀ k, n * 2 ≤ k → (DexCache.Init.loop sentinel tramp n t).Get k = t.Get k)
  | 0 => ⟨rfl, fun i hi => absurd hi (Nat.not_lt_zero i), fun k _ => rfl⟩
  | n + 1 => by
    obtain ⟨hlen, hseed, hrest⟩ := Init_loop_spec sentinel tramp t n
    rw [DexCache.Init.loop]
    refine ⟨?_, ?_, ?_⟩
    · rw [SetResolvedDirectMethodTrampoline_length, hlen]
    · intro i hi hin
      by_cases hn : i = n
      · subst hn
        have hr : CodeAndDirectMethods.MethodIndex i <
            (DexCache.Init.loop sentinel tramp i t).data.length := by rw [hlen]; exact hin
        exact (CodeAndDirectMethods.store_pair _ i _ _ hr).1
      · obtain ⟨a, b, _, _⟩ := CodeAndDirectMethods.slots_of_other_index n i hn
        rw [SetResolvedDirectMethodTrampoline_other _ _ _ _ _ a b]
        exact hseed i (by omega) hin
    · intro k hk
      have a : k ≠ CodeAndDirectMethods.CodeIndex n := by
        unfold CodeAndDirectMethods.CodeIndex; omega
      have b : k ≠ CodeAndDirectMethods.MethodIndex n := by
        unfold CodeAndDirectMethods.MethodIndex; omega
      rw [SetResolvedDirectMethodTrampoline_other _ _ _ _ _ a b]
      exact hrest k (by omega)

/-- Counterexample to C16 as stated.  With a `resolved_methods` array of one element and a
table for two method indices, `DexCache::Init` with the runtime started seeds method index 0
only: the code slot of method index 1 is not the trampoline. -/
theorem DexCache_Init_seeds_all_counterexample :
    (DexCache.Init (fun i => (i : Int)) true 0x6000 Sample.initArguments).result =
      .returned () ∧
    (DexCache.Init (fun i => (i : Int)) true 0x6000
      Sample.initArguments).code_and_direct_methods = some { data := [0x6000, 0, 0, 0] } ∧
    CodeAndDirectMethods.Get { data := [0x6000, 0, 0, 0] }
      (CodeAndDirectMethods.CodeIndex 1) ≠ reinterpret_cast_int32 0x6000 := by
  decide

/-- C16 (as amended). After `DexCache::Init` with all seven arguments non-null and the runtime
started, the code slot of every method index below `NumResolvedMethods()`, the length of
`resolved_methods`, holds the shared resolution trampoline, and the slots of the method indices
from that length on are unchanged; when the runtime is not started `Init` leaves the table as it
was. -/
theorem DexCache_Init_seeds_resolved_methods (sentinel : Nat → Int) (tramp : Nat)
    (location : String) (strings resolved_types resolved_methods resolved_fields : List Nat)
    (table : CodeAndDirectMethods) (initialized_static_storage : List Nat) :
    (∃ table',
      (DexCache.Init sentinel true tramp
        ⟨some location, some strings, some resolved_types, some resolved_methods,
          some resolved_fields, some table, some initialized_static_storage⟩) =
        { result := .returned ()
          stored := some ⟨some location, some strings, some resolved_types,
            some resolved_methods, some resolved_fields, some table,
            some initialized_static_storage⟩
          code_and_direct_methods := some table' } ∧
      (∀ i, i < resolved_methods.length →
        CodeAndDirectMethods.MethodIndex i < table.data.length →
        table'.Get (CodeAndDirectMethods.CodeIndex i) = reinterpret_cast_int32 tramp) ∧
      (∀ i, resolved_methods.length ≤ i →
        table'.Get (CodeAndDirectMethods.CodeIndex i) =
          table.Get (CodeAndDirectMethods.CodeIndex i) ∧
        table'.Get (CodeAndDirectMethods.MethodIndex i) =
          table.Get (CodeAndDirectMethods.MethodIndex i))) ∧
    (DexCache.Init sentinel false tramp
        ⟨some location, some strings, some resolved_types, some resolved_methods,
          some resolved_fields, some table, some initialized_static_storage⟩) =
      { result := .returned ()
        stored := some ⟨some location, some strings, some resolved_types,
          some resolved_methods, some resolved_fields, some table,
          some initialized_static_storage⟩
        code_and_direct_methods := some table } := by
  obtain ⟨_, hseed, hrest⟩ := Init_loop_spec sentinel tramp table resolved_methods.length
  refine ⟨⟨DexCache.Init.loop sentinel tramp resolved_methods.length table, rfl, hseed, ?_⟩,
    rfl⟩
  intro i hi
  constructor
  · apply hrest
    unfold CodeAndDirectMethods.CodeIndex; omega
  · apply hrest
    unfold CodeAndDirectMethods.MethodIndex; omega

/-- `DexCache::Init` on the sample arguments with the runtime started: the code slot of method
index 0, the only index below the length of `resolved_methods`, holds the trampoline, and the
slots of method index 1 are as before; with the runtime not started the table is as before. -/
theorem DexCache_Init_seeds_resolved_methods_witness :
    (∃ table',
      (DexCache.Init (fun i => (i : Int)) true 0x6000
        Sample.initArguments).code_and_direct_methods
        = some table' ∧
      table'.Get (CodeAndDirectMethods.CodeIndex 0) = reinterpret_cast_int32 0x6000 ∧
      table'.Get (CodeAndDirectMethods.CodeIndex 1) =
        Sample.zeroTable.Get (CodeAndDirectMethods.CodeIndex 1)) ∧
    (DexCache.Init (fun i => (i : Int)) false 0x6000
      Sample.initArguments).code_and_direct_methods
      = some Sample.zeroTable :=
  ⟨(DexCache_Init_seeds_resolved_methods (fun i => (i : Int)) 0x6000
      (Sample.string "core.dex".data) [0] [0] [0] [0] Sample.zeroTable [0]).1.elim
      (fun table' h =>
        ⟨table', congrArg DexCache.InitOutcome.code_and_direct_methods h.1,
          h.2.1 0 (by decide) (by decide), (h.2.2 1 (by decide)).1⟩),
    congrArg DexCache.InitOutcome.code_and_direct_methods
      (DexCache_Init_seeds_resolved_methods (fun i => (i : Int)) 0x6000
        (Sample.string "core.dex".data) [0] [0] [0] [0] Sample.zeroTable [0]).2⟩

/-! ## Strings: equality -/

theorem String.CharAt_of_lt (s : String) (i : Nat) (h : i < s.count_) :
    s.CharAt i = s.array_.getD (s.offset_ + i) 0 := by
  unfold String.CharAt
  rw [if_neg (by omega), Nat.add_comm]

/-- The comparison loop of `Equals` is true iff the strings agree at every index it visits. -/
theorem String_Equals_loop_iff (s t : String) : ∀ (remaining i : Nat),
    String.Equals.loop s t remaining i = true ↔
      ∀ k, k < remaining → s.CharAt (i + k) = t.CharAt (i + k)
  | 0, i => by simp [String.Equals.loop]
  | remaining + 1, i => by
    rw [String.Equals.loop]
    by_cases h : s.CharAt i = t.CharAt i
    · rw [if_neg (not_not.mpr h), String_Equals_loop_iff s t remaining (i + 1)]
      constructor
      · intro hr k hk
        cases k with
        | zero => exact h
        | succ k =>
          have := hr k (by omega)
          rw [Nat.add_assoc, Nat.add_comm 1 k] at this
          exact this
      · intro hr k hk
        have := hr (k + 1) (by omega)
        rw [Nat.add_assoc, Nat.add_comm 1 k]
        exact this
    · rw [if_pos h]
      simp only [Bool.false_eq_true, false_iff]
      intro hr
      exact h (hr 0 (by omega))

/-- `Equals` on two different objects: same length and the same code unit at every index. -/
theorem String_Equals_of_ne (s t : StringPtr) (h : s.addr ≠ t.addr) :
    String.Equals s (some t) = true ↔
      (s.object.count_ = t.object.count_ ∧
        ∀ i, i < s.object.count_ →
          s.object.array_.getD (s.object.offset_ + i) 0 =
            t.object.array_.getD (t.object.offset_ + i) 0) := by
  unfold String.Equals
  simp only []
  rw [if_neg h]
  unfold String.GetLength
  by_cases hlen : s.object.count_ = t.object.count_
  · rw [if_neg (not_not.mpr hlen), String_Equals_loop_iff]
    constructor
    · intro hr
      refine ⟨hlen, fun i hi => ?_⟩
      have := hr i (by omega)
      rw [Nat.zero_add, String.CharAt_of_lt s.object i hi,
        String.CharAt_of_lt t.object i (by omega)] at this
      exact this
    · rintro ⟨_, hr⟩ k hk
      rw [Nat.zero_add, String.CharAt_of_lt s.object k (by omega),
        String.CharAt_of_lt t.object k hk]
      exact hr k (by omega)
  · rw [if_pos hlen]
    simp [hlen]

theorem String_Equals_iff (s t : StringPtr) (hst : s.addr = t.addr → s.object = t.object) :
    String.Equals s (some t) = true ↔
      (s.object.count_ = t.object.count_ ∧
        ∀ i, i < s.object.count_ →
          s.object.array_.getD (s.object.offset_ + i) 0 =
            t.object.array_.getD (t.object.offset_ + i) 0) := by
  by_cases h : s.addr = t.addr
  · have e : String.Equals s (some t) = true := by
      unfold String.Equals
      simp only []
      rw [if_pos h]
    rw [e, hst h]
    simp
  · exact String_Equals_of_ne s t h

/-- C17. For every string `s`: `s.Equals(s)` is true and `s.Equals(NULL)` is false; for every
non-null string `t` (an address denoting one object), `s.Equals(t)` is true iff `s` and `t`
have the same length and `s.chars[s.offset + i] == t.chars[t.offset + i]` for every `i` below
it, whatever their offsets, backing arrays and cached hashes; hence `Equals` is symmetric. -/
theorem String_Equals_spec (s t : StringPtr) (hst : s.addr = t.addr → s.object = t.object) :
    String.Equals s (some s) = true ∧
    String.Equals s none = false ∧
    (String.Equals s (some t) = true ↔
      (s.object.count_ = t.object.count_ ∧
        ∀ i, i < s.object.count_ →
          s.object.array_.getD (s.object.offset_ + i) 0 =
            t.object.array_.getD (t.object.offset_ + i) 0)) ∧
    String.Equals s (some t) = String.Equals t (some s) := by
  refine ⟨?_, rfl, String_Equals_iff s t hst, ?_⟩
  · unfold String.Equals
    simp
  · rw [Bool.eq_iff_iff, String_Equals_iff s t hst,
      String_Equals_iff t s (fun h => (hst h.symm).symm)]
    constructor
    · rintro ⟨hlen, h⟩
      exact ⟨hlen.symm, fun i hi => (h i (by omega)).symm⟩
    · rintro ⟨hlen, h⟩
      exact ⟨hlen.symm, fun i hi => (h i (by omega)).symm⟩

/-- The string "llo" at offset 2 of the array of "héllo", with no cached hash, equals a string
"llo" with its own array, offset 0 and a cached hash, in both directions. -/
theorem String_Equals_spec_witness :
    String.Equals ⟨0x5100, Sample.llo⟩ (some ⟨0x5200, Sample.lloCopy⟩) = true ∧
    String.Equals ⟨0x5200, Sample.lloCopy⟩ (some ⟨0x5100, Sample.llo⟩) =
      String.Equals ⟨0x5100, Sample.llo⟩ (some ⟨0x5200, Sample.lloCopy⟩) :=
  ⟨(String_Equals_spec ⟨0x5100, Sample.llo⟩ ⟨0x5200, Sample.lloCopy⟩
      (fun h => absurd h (by decide))).2.2.1.mpr ⟨by decide, by decide⟩,
    ((String_Equals_spec ⟨0x5100, Sample.llo⟩ ⟨0x5200, Sample.lloCopy⟩
      (fun h => absurd h (by decide))).2.2.2).symm⟩

/-! ## Strings: the modified UTF-8 round trip -/

theorem ConvertModifiedUtf8ToUtf16_one (b : Nat) (rest : List Nat) (h0 : 0 < b)
    (h : b < 128) :
    ConvertModifiedUtf8ToUtf16 (b :: rest) = b :: ConvertModifiedUtf8ToUtf16 rest := by
  have h1 : ¬ b = 0 := by omega
  have h2 : b / 128 % 2 = 0 := by omega
  rcases rest with _ | ⟨c, _ | ⟨d, rest⟩⟩
  · rw [ConvertModifiedUtf8ToUtf16.eq_2, if_neg h1, if_pos h2]
  · rw [ConvertModifiedUtf8ToUtf16.eq_3, if_neg h1, if_pos h2]
  · rw [ConvertModifiedUtf8ToUtf16.eq_4, if_neg h1, if_pos h2]

theorem ConvertModifiedUtf8ToUtf16_two (b1 b2 : Nat) (rest : List Nat) (h0 : 192 ≤ b1)
    (h : b1 < 224) :
    ConvertModifiedUtf8ToUtf16 (b1 :: b2 :: rest) =
      (b1 % 32 * 64 + b2 % 64) :: ConvertModifiedUtf8ToUtf16 rest := by
  have h1 : ¬ b1 = 0 := by omega
  have h2 : ¬ b1 / 128 % 2 = 0 := by omega
  have h3 : b1 / 32 % 2 = 0 := by omega
  rcases rest with _ | ⟨c, rest⟩
  · rw [ConvertModifiedUtf8ToUtf16.eq_3, if_neg h1, if_neg h2, if_pos h3]
  · rw [ConvertModifiedUtf8ToUtf16.eq_4, if_neg h1, if_neg h2, if_pos h3]

theorem ConvertModifiedUtf8ToUtf16_three (b1 b2 b3 : Nat) (rest : List Nat) (h0 : 224 ≤ b1)
    (h : b1 < 256) :
    ConvertModifiedUtf8ToUtf16 (b1 :: b2 :: b3 :: rest) =
      (b1 % 16 * 4096 + b2 % 64 * 64 + b3 % 64) :: ConvertModifiedUtf8ToUtf16 rest := by
  have h1 : ¬ b1 = 0 := by omega
  have h2 : ¬ b1 / 128 % 2 = 0 := by omega
  have h3 : ¬ b1 / 32 % 2 = 0 := by omega
  rw [ConvertModifiedUtf8ToUtf16.eq_4, if_neg h1, if_neg h2, if_neg h3]

/-- Decoding the modified UTF-8 form of 16-bit code units gives the code units back. -/
theorem ConvertModifiedUtf8ToUtf16_ConvertUtf16ToModifiedUtf8 : ∀ (units : List Nat),
    (∀ u ∈ units, u < 2 ^ 16) →
    ConvertModifiedUtf8ToUtf16 (ConvertUtf16ToModifiedUtf8 units) = units
  | [], _ => by
    rw [ConvertUtf16ToModifiedUtf8, ConvertModifiedUtf8ToUtf16]
  | ch :: rest, h => by
    have hch : ch < 2 ^ 16 := h ch (by simp)
    have ih := ConvertModifiedUtf8ToUtf16_ConvertUtf16ToModifiedUtf8 rest
      (fun u hu => h u (by simp [hu]))
    rw [ConvertUtf16ToModifiedUtf8]
    unfold ConvertUtf16UnitToModifiedUtf8
    by_cases h1 : 1 ≤ ch ∧ ch ≤ 0x7f
    · rw [if_pos h1, List.singleton_append,
        ConvertModifiedUtf8ToUtf16_one ch _ (by omega) (by omega), ih]
    · rw [if_neg h1]
      by_cases h2 : ch ≤ 0x7ff
      · rw [if_pos h2, List.cons_append, List.singleton_append,
          ConvertModifiedUtf8ToUtf16_two _ _ _ (by omega) (by omega), ih]
        congr 1
        omega
      · rw [if_neg h2, List.cons_append, List.cons_append, List.singleton_append,
          ConvertModifiedUtf8ToUtf16_three _ _ _ _ (by omega) (by omega), ih]
        congr 1
        omega

/-- The shift of the overflow check for two-byte components is 1. -/
theorem component_shift_two (bits : Nat) (h : 2 ≤ bits) : bits - 1 - CLZ bits 2 = 1 := by
  have hlt : 2 < 2 ^ bits := by
    calc 2 < 2 ^ 2 := by norm_num
      _ ≤ 2 ^ bits := Nat.pow_le_pow_right (by norm_num) h
  obtain ⟨_, hlo, hhi⟩ := CLZ_spec bits 2 (by norm_num) hlt
  generalize bits - 1 - CLZ bits 2 = s at hlo hhi
  match s, hlo, hhi with
  | 0, _, hhi => simp at hhi
  | 1, _, _ => rfl
  | s + 2, hlo, _ =>
    have : 2 ^ 2 ≤ 2 ^ (s + 2) := Nat.pow_le_pow_right (by norm_num) (by omega)
    omega

/-- `Array::Alloc` for two-byte components returns the array the heap gives when the size
fits. -/
theorem Array_Alloc_two_fits (bits hdr : Nat) (pretty : List Char) (heap : Nat → Option Nat)
    (n a : Nat) (hbits : 31 ≤ bits) (hfit : hdr + n * 2 < 2 ^ bits)
    (hheap : heap (hdr + n * 2) = some a) :
    (Array.Alloc bits hdr pretty heap n 2).result = some ⟨a, n⟩ := by
  have hn : n < 2 ^ bits := by omega
  have hmul : n * 2 < 2 ^ bits := by omega
  unfold Array.Alloc
  simp only []
  rw [component_shift_two bits (by omega), Nat.mod_eq_of_lt hmul, Nat.mod_eq_of_lt hfit,
    Nat.mod_eq_of_lt hn, Nat.shiftRight_eq_div_pow]
  have hdiv : n * 2 / 2 ^ 1 = n := by omega
  rw [hdiv, if_neg (by omega), hheap]

/-- `String::Alloc` on a heap that serves the request: a zero-filled string of the length. -/
theorem String_Alloc_of_serves (heap : StringHeap) (n : Nat) (h : heap.Serves n) :
    ∃ addr, heap.string_object = some addr ∧
      String.Alloc heap n =
        some ⟨addr, { array_ := List.replicate n 0, offset_ := 0, count_ := n,
                       hash_code_ := 0 }⟩ := by
  obtain ⟨hbits, _, hfit, ⟨a, ha⟩, ⟨addr, haddr⟩⟩ := h
  refine ⟨addr, haddr, ?_⟩
  unfold String.Alloc CharArray.Alloc
  rw [Array_Alloc_two_fits heap.bits heap.sizeof_Array _ heap.char_array_heap n a hbits hfit ha]
  simp only []
  unfold String.AllocWithArray
  rw [haddr]
  simp

/-- The code units of a string, `chars[offset .. offset + count)`. -/
theorem String_units_length (s : String) (hwf : s.offset_ + s.count_ ≤ s.array_.length) :
    ((s.array_.drop s.offset_).take s.count_).length = s.count_ := by
  rw [List.length_take, List.length_drop]
  omega

theorem String_units_getD (s : String) (i : Nat) (hi : i < s.count_) :
    ((s.array_.drop s.offset_).take s.count_).getD i 0 = s.array_.getD (s.offset_ + i) 0 := by
  simp [List.getD_eq_getElem?_getD, List.getElem?_take, hi]

/-- `Equals` is true on strings of the same length with the same code units, whatever the
addresses. -/
theorem String_Equals_of_contents (s t : StringPtr)
    (hlen : s.object.count_ = t.object.count_)
    (h : ∀ i, i < s.object.count_ →
      s.object.array_.getD (s.object.offset_ + i) 0 =
        t.object.array_.getD (t.object.offset_ + i) 0) :
    String.Equals s (some t) = true := by
  by_cases ha : s.addr = t.addr
  · unfold String.Equals
    simp only []
    rw [if_pos ha]
  · exact (String_Equals_of_ne s t ha).mpr ⟨hlen, h⟩

/-- The string that `AllocFromModifiedUtf8` builds from the modified UTF-8 text of a string on a
heap that serves the request. -/
theorem AllocFromModifiedUtf8_ToModifiedUtf8 (heap : StringHeap) (s : String)
    (hunits : ∀ u ∈ s.array_, u < 2 ^ 16)
    (hwf : s.offset_ + s.count_ ≤ s.array_.length) (hheap : heap.Serves s.count_) :
    ∃ addr, heap.string_object = some addr ∧
      String.AllocFromModifiedUtf8 heap s.ToModifiedUtf8 =
        some ⟨addr, { array_ := (s.array_.drop s.offset_).take s.count_, offset_ := 0,
                       count_ := s.count_,
                       hash_code_ :=
                         ComputeUtf16Hash ((s.array_.drop s.offset_).take s.count_) 0
                           s.count_ }⟩ := by
  have hu : ∀ u ∈ (s.array_.drop s.offset_).take s.count_, u < 2 ^ 16 :=
    fun u hu => hunits u (List.mem_of_mem_drop (List.mem_of_mem_take hu))
  have hdec := ConvertModifiedUtf8ToUtf16_ConvertUtf16ToModifiedUtf8 _ hu
  have hlen := String_units_length s hwf
  obtain ⟨addr, haddr, halloc⟩ := String_Alloc_of_serves heap s.count_ hheap
  refine ⟨addr, haddr, ?_⟩
  have harr : ((s.array_.drop s.offset_).take s.count_ ++
      List.drop s.count_ (List.replicate s.count_ 0)).take s.count_ =
      (s.array_.drop s.offset_).take s.count_ := by
    rw [List.drop_replicate, Nat.sub_self, List.replicate_zero, List.append_nil,
      List.take_take, Nat.min_self]
  unfold String.AllocFromModifiedUtf8 String.AllocFromModifiedUtf8WithLength
    CountModifiedUtf8Chars String.ToModifiedUtf8
  simp only []
  rw [hdec, hlen, halloc]
  simp only [String.ComputeHashCode, String.SetHashCode, String.GetLength,
    List.length_replicate]
  rw [harr]

/-- C18. String round trip: for every string `s` (16-bit code units, inside its backing array),
on a heap that serves the allocation, `AllocFromModifiedUtf8(s.ToModifiedUtf8())` is a string
of the same length with the same code units, and it `Equals` `s` in both directions. -/
theorem String_round_trip (heap : StringHeap) (s : String) (s_addr : Nat)
    (hunits : ∀ u ∈ s.array_, u < 2 ^ 16)
    (hwf : s.offset_ + s.count_ ≤ s.array_.length) (hheap : heap.Serves s.count_) :
    ∃ r, String.AllocFromModifiedUtf8 heap s.ToModifiedUtf8 = some r ∧
      r.object.GetLength = s.GetLength ∧
      (∀ i, i < s.GetLength → r.object.CharAt i = s.CharAt i) ∧
      String.Equals r (some ⟨s_addr, s⟩) = true ∧
      String.Equals ⟨s_addr, s⟩ (some r) = true := by
  obtain ⟨addr, _, hr⟩ := AllocFromModifiedUtf8_ToModifiedUtf8 heap s hunits hwf hheap
  refine ⟨_, hr, rfl, ?_, ?_, ?_⟩
  · intro i hi
    unfold String.GetLength at hi
    rw [String.CharAt_of_lt s i hi]
    unfold String.CharAt
    simp only [ge_iff_le, Nat.add_zero]
    rw [if_neg (by omega)]
    exact String_units_getD s i hi
  · apply String_Equals_of_contents
    · rfl
    · intro i hi
      simp only [Nat.zero_add]
      exact String_units_getD s i hi
  · apply String_Equals_of_contents
    · rfl
    · intro i hi
      simp only [Nat.zero_add]
      exact (String_units_getD s i hi).symm

/-- C18 witness: "héllo" is well formed, its modified UTF-8 form is the six bytes of the
scenario, `AllocFromModifiedUtf8` of them is the string `AllocFromUtf16` makes from the five
code units (hash included), and the round trip holds for it. -/
theorem String_round_trip_witness :
    (∀ u ∈ Sample.hello.object.array_, u < 2 ^ 16) ∧
    Sample.hello.object.offset_ + Sample.hello.object.count_ ≤
      Sample.hello.object.array_.length ∧
    Sample.stringHeap.Serves Sample.hello.object.count_ ∧
    Sample.hello.object.ToModifiedUtf8 = Sample.hello_utf8 ∧
    String.AllocFromModifiedUtf8 Sample.stringHeap Sample.hello_utf8 =
      String.AllocFromUtf16 Sample.stringHeap 5 Sample.hello_utf16 0 ∧
    String.AllocFromModifiedUtf8 Sample.stringHeap Sample.hello_utf8 = some Sample.hello ∧
    ∃ r, String.AllocFromModifiedUtf8 Sample.stringHeap Sample.hello.object.ToModifiedUtf8 =
        some r ∧
      r.object.GetLength = Sample.hello.object.GetLength ∧
      (∀ i, i < Sample.hello.object.GetLength →
        r.object.CharAt i = Sample.hello.object.CharAt i) ∧
      String.Equals r (some ⟨0x5200, Sample.hello.object⟩) = true ∧
      String.Equals ⟨0x5200, Sample.hello.object⟩ (some r) = true :=
  ⟨by decide, by decide, ⟨by decide, by decide, by decide, ⟨_, rfl⟩, ⟨_, rfl⟩⟩, by decide,
    by decide, by decide,
    String_round_trip Sample.stringHeap Sample.hello.object 0x5200 (by decide) (by decide)
      ⟨by decide, by decide, by decide, ⟨_, rfl⟩, ⟨_, rfl⟩⟩⟩

/-! ## Strings: the hash code -/

/-- An array `Array::Alloc` returns has the requested number of components. -/
theorem Array_Alloc_length (bits hdr : Nat) (pretty : List Char) (heap : Nat → Option Nat)
    (n e : Nat) (array : Array) (h : (Array.Alloc bits hdr pretty heap n e).result = some array) :
    array.length_ = n := by
  unfold Array.Alloc at h
  simp only [] at h
  split at h
  · cases h
  · split at h
    · cases h
      rfl
    · cases h

/-- `String::Alloc` returns a zero-filled string of the requested length with no hash. -/
theorem String_Alloc_some (heap : StringHeap) (n : Nat) (r : StringPtr)
    (h : String.Alloc heap n = some r) :
    r.object = { array_ := List.replicate n 0, offset_ := 0, count_ := n, hash_code_ := 0 } := by
  unfold String.Alloc CharArray.Alloc at h
  cases harr : (Array.Alloc heap.bits heap.sizeof_Array "char[]".data heap.char_array_heap
      n 2).result with
  | none =>
    rw [harr] at h
    cases h
  | some array =>
    rw [harr] at h
    simp only [] at h
    have hlen := Array_Alloc_length _ _ _ _ _ _ _ harr
    unfold String.AllocWithArray at h
    cases haddr : heap.string_object with
    | none =>
      rw [haddr] at h
      cases h
    | some addr =>
      rw [haddr] at h
      cases h
      simp [hlen]

/-- The fill loop of `AllocFromUtf16` copies the first `n` units of the data. -/
theorem AllocFromUtf16_loop_spec (data : List Nat) : ∀ (n : Nat) (array : List Nat),
    n ≤ array.length → n ≤ data.length →
    String.AllocFromUtf16.loop data n array = data.take n ++ array.drop n
  | 0, array, _, _ => by simp [String.AllocFromUtf16.loop]
  | n + 1, array, ha, hd => by
    rw [String.AllocFromUtf16.loop, AllocFromUtf16_loop_spec data n array (by omega) (by omega)]
    apply List.ext_getElem?
    intro i
    simp only [List.getElem?_set, List.getElem?_append, List.getElem?_take, List.getElem?_drop,
      List.length_append, List.length_take, List.length_drop, List.getD_eq_getElem?_getD]
    have hmin : min n data.length = n := by omega
    have hmin1 : min (n + 1) data.length = n + 1 := by omega
    rw [hmin, hmin1]
    by_cases h1 : n = i
    · subst h1
      simp [List.getElem?_eq_getElem (show n < data.length by omega)]
      omega
    · by_cases h2 : i < n
      · simp [h1, h2, show i < n + 1 by omega]
      · have h3 : ¬ i < n + 1 := by omega
        simp [h1, h2, h3]
        congr 1
        omega

/-- A call of `GetHashCode` on a string whose stored hash is 0 or the hash of its code units
returns the hash of the code units and leaves a string with that hash stored. -/
theorem GetHashCode_of_valid (s : String)
    (h : s.hash_code_ = 0 ∨
      s.hash_code_ = ComputeUtf16Hash s.array_ s.offset_ s.GetLength) :
    String.GetHashCode s =
      (ComputeUtf16Hash s.array_ s.offset_ s.GetLength,
        { s with hash_code_ := ComputeUtf16Hash s.array_ s.offset_ s.GetLength }) := by
  unfold String.GetHashCode
  simp only []
  by_cases h0 : s.hash_code_ = 0
  · rw [if_pos h0]
    rfl
  · rw [if_neg h0]
    rcases h with h | h
    · exact absurd h h0
    · obtain ⟨a, o, c, hc⟩ := s
      simp only [String.GetLength] at h ⊢
      subst h
      rfl

/-- Every call in a run of calls of `GetHashCode` on such a string returns the hash of the code
units. -/
theorem GetHashCode_calls_of_valid : ∀ (n : Nat) (s : String),
    (s.hash_code_ = 0 ∨ s.hash_code_ = ComputeUtf16Hash s.array_ s.offset_ s.GetLength) →
    (String.GetHashCode.calls s n).1 = ComputeUtf16Hash s.array_ s.offset_ s.GetLength
  | 0, s, h => by
    rw [String.GetHashCode.calls, GetHashCode_of_valid s h]
  | n + 1, s, h => by
    rw [String.GetHashCode.calls, GetHashCode_of_valid s h]
    exact GetHashCode_calls_of_valid n _ (Or.inr rfl)

/-- Every call in a run of calls of `GetHashCode` on a string with a non-zero stored hash
returns the stored hash. -/
theorem GetHashCode_calls_of_nonzero : ∀ (n : Nat) (s : String), s.hash_code_ ≠ 0 →
    (String.GetHashCode.calls s n).1 = s.hash_code_
  | 0, s, h => by
    rw [String.GetHashCode.calls]
    unfold String.GetHashCode
    simp only []
    rw [if_neg h]
  | n + 1, s, h => by
    have hs : String.GetHashCode s = (s.hash_code_, s) := by
      unfold String.GetHashCode
      simp only []
      rw [if_neg h]
    rw [String.GetHashCode.calls, hs]
    exact GetHashCode_calls_of_nonzero n s h

/-- The string `AllocFromUtf16` returns: the units copied from the data, and the hash argument
stored when it is not 0, the hash of the units otherwise. -/
theorem AllocFromUtf16_some (heap : StringHeap) (len : Nat) (data : List Nat) (hash_code : Nat)
    (r : StringPtr) (h : String.AllocFromUtf16 heap len data hash_code = some r) :
    r.object.array_ = String.AllocFromUtf16.loop data len (List.replicate len 0) ∧
    r.object.offset_ = 0 ∧ r.object.count_ = len ∧
    (hash_code ≠ 0 → r.object.hash_code_ = hash_code) ∧
    (hash_code = 0 → r.object.hash_code_ =
      ComputeUtf16Hash r.object.array_ r.object.offset_ r.object.GetLength) := by
  unfold String.AllocFromUtf16 at h
  split at h
  · cases h
  · rename_i string hstring
    have hobj := String_Alloc_some heap len string hstring
    simp only [] at h
    by_cases h0 : hash_code = 0
    · rw [if_neg (by simpa using h0)] at h
      cases h
      simp [hobj, h0, String.ComputeHashCode, String.SetHashCode, String.GetLength]
    · rw [if_pos h0] at h
      cases h
      simp [hobj, h0, String.SetHashCode]

/-- The string `AllocFromModifiedUtf8` returns has the hash of its code units stored. -/
theorem AllocFromModifiedUtf8_some (heap : StringHeap) (utf : List Nat) (r : StringPtr)
    (h : String.AllocFromModifiedUtf8 heap utf = some r) :
    r.object.hash_code_ =
      ComputeUtf16Hash r.object.array_ r.object.offset_ r.object.GetLength := by
  unfold String.AllocFromModifiedUtf8 String.AllocFromModifiedUtf8WithLength at h
  simp only [] at h
  split at h
  · cases h
  · cases h
    rfl

/-- The hash of the units copied by `AllocFromUtf16` is the hash of the data. -/
theorem ComputeUtf16Hash_loop (data : List Nat) (len : Nat) (h : len ≤ data.length) :
    ComputeUtf16Hash (String.AllocFromUtf16.loop data len (List.replicate len 0)) 0 len =
      ComputeUtf16Hash data 0 len := by
  rw [AllocFromUtf16_loop_spec data len _ (by simp) h]
  unfold ComputeUtf16Hash
  simp [List.take_take]

/-- The hash of no units is 0 and the hash of one unit is the unit. -/
theorem ComputeUtf16Hash_short (s : String) :
    (s.count_ = 0 → ComputeUtf16Hash s.array_ s.offset_ s.count_ = 0) ∧
    (s.count_ = 1 → s.offset_ < s.array_.length →
      ComputeUtf16Hash s.array_ s.offset_ s.count_ = s.CharAt 0 % 2 ^ 32) := by
  constructor
  · intro h
    rw [h]
    simp [ComputeUtf16Hash]
  · intro h hoff
    rw [String.CharAt_of_lt s 0 (by omega), h]
    unfold ComputeUtf16Hash
    rw [List.drop_eq_getElem_cons hoff]
    simp only [List.take_succ_cons, List.take_zero, List.foldl_cons, List.foldl_nil]
    simp [List.getD_eq_getElem?_getD, List.getElem?_eq_getElem hoff]

/-- C19 counterexample: `AllocFromUtf16` of the one unit `0x61` with the precomputed hash
argument 12345 returns a string on which `GetHashCode` returns 12345, while the polynomial hash
of its code units is 97. -/
theorem GetHashCode_polynomial_counterexample :
    ∃ r, String.AllocFromUtf16 Sample.stringHeap 1 [0x61] 12345 = some r ∧
      (String.GetHashCode r.object).1 = 12345 ∧
      ComputeUtf16Hash r.object.array_ r.object.offset_ r.object.GetLength = 97 ∧
      (String.GetHashCode r.object).1 ≠
        ComputeUtf16Hash r.object.array_ r.object.offset_ r.object.GetLength :=
  ⟨_, rfl, by decide, by decide, by decide⟩

/-- C19 (amended). Hash stability: every call (call number `n` of a run of calls) of
`GetHashCode` on a string returned by `Alloc`, by `AllocFromModifiedUtf8`, or by
`AllocFromUtf16` with the hash argument 0 returns the polynomial hash of the string's code
units; on a string returned by `AllocFromUtf16` with a non-zero hash argument every call
returns that argument, and the polynomial hash of the string is that of the `utf16_length`
units of the data, so the two agree exactly when the caller passed the hash of the data. -/
theorem GetHashCode_stable (heap : StringHeap) (r : StringPtr) (n : Nat) :
    (∀ utf16_length, String.Alloc heap utf16_length = some r →
      (String.GetHashCode.calls r.object n).1 =
        ComputeUtf16Hash r.object.array_ r.object.offset_ r.object.GetLength) ∧
    (∀ utf, String.AllocFromModifiedUtf8 heap utf = some r →
      (String.GetHashCode.calls r.object n).1 =
        ComputeUtf16Hash r.object.array_ r.object.offset_ r.object.GetLength) ∧
    (∀ utf16_length utf16_data_in hash_code,
      String.AllocFromUtf16 heap utf16_length utf16_data_in hash_code = some r →
      (hash_code = 0 → (String.GetHashCode.calls r.object n).1 =
        ComputeUtf16Hash r.object.array_ r.object.offset_ r.object.GetLength) ∧
      (hash_code ≠ 0 → (String.GetHashCode.calls r.object n).1 = hash_code) ∧
      (utf16_length ≤ utf16_data_in.length →
        ComputeUtf16Hash r.object.array_ r.object.offset_ r.object.GetLength =
          ComputeUtf16Hash utf16_data_in 0 utf16_length)) := by
  refine ⟨?_, ?_, ?_⟩
  · intro len h
    apply GetHashCode_calls_of_valid
    left
    rw [String_Alloc_some heap len r h]
  · intro utf h
    exact GetHashCode_calls_of_valid n _ (Or.inr (AllocFromModifiedUtf8_some heap utf r h))
  · intro len data hash_code h
    obtain ⟨harr, hoff, hcount, hnz, hz⟩ := AllocFromUtf16_some heap len data hash_code r h
    refine ⟨?_, ?_, ?_⟩
    · intro h0
      exact GetHashCode_calls_of_valid n _ (Or.inr (hz h0))
    · intro h0
      rw [GetHashCode_calls_of_nonzero n _ (by rw [hnz h0]; exact h0), hnz h0]
    · intro hlen
      rw [harr, hoff, String.GetLength, hcount]
      exact ComputeUtf16Hash_loop data len hlen

/-- C19 witness: "héllo" is what `AllocFromModifiedUtf8` and `AllocFromUtf16` (hash argument 0)
return on the sample heap, and the fourth call of `GetHashCode` on it returns the polynomial
hash 103094734 of its five code units. -/
theorem GetHashCode_stable_witness :
    String.AllocFromModifiedUtf8 Sample.stringHeap Sample.hello_utf8 = some Sample.hello ∧
    String.AllocFromUtf16 Sample.stringHeap 5 Sample.hello_utf16 0 = some Sample.hello ∧
    ComputeUtf16Hash Sample.hello_utf16 0 5 = 103094734 ∧
    (String.GetHashCode.calls Sample.hello.object 3).1 =
      ComputeUtf16Hash Sample.hello.object.array_ Sample.hello.object.offset_
        Sample.hello.object.GetLength ∧
    ComputeUtf16Hash Sample.hello.object.array_ Sample.hello.object.offset_
        Sample.hello.object.GetLength = ComputeUtf16Hash Sample.hello_utf16 0 5 :=
  ⟨by decide, by decide, by decide,
    (GetHashCode_stable Sample.stringHeap Sample.hello 3).2.1 Sample.hello_utf8 (by decide),
    ((GetHashCode_stable Sample.stringHeap Sample.hello 3).2.2 5 Sample.hello_utf16 0
      (by decide)).2.2 (by decide)⟩

/-- C20 counterexample: the string made of the one code unit U+0000 is not empty and its
computed hash code is 0; `GetHashCode` returns 0 for it. -/
theorem ComputeHashCode_zero_iff_empty_counterexample :
    Sample.nulString.GetLength = 1 ∧
    ComputeUtf16Hash Sample.nulString.array_ Sample.nulString.offset_
      Sample.nulString.GetLength = 0 ∧
    Sample.nulString.ComputeHashCode.hash_code_ = 0 ∧
    (String.GetHashCode Sample.nulString).1 = 0 := by
  decide

/-- C20 (amended). The computed hash code of an empty string is 0, and that of a one-unit
string inside its array is its code unit (modulo `2 ^ 32`), so it is 0 for the unit U+0000;
`GetHashCode` of a string whose stored hash is 0 returns the computed hash, and for every
string the assertion of `GetHashCode` holds: it returns 0 only when the computed hash is 0. -/
theorem ComputeHashCode_zero (s : String) :
    (s.GetLength = 0 → s.ComputeHashCode.hash_code_ = 0) ∧
    (s.GetLength = 1 → s.offset_ < s.array_.length →
      s.ComputeHashCode.hash_code_ = s.CharAt 0 % 2 ^ 32) ∧
    (s.hash_code_ = 0 → (String.GetHashCode s).1 = s.ComputeHashCode.hash_code_) ∧
    String.GetHashCode_DCHECK s := by
  refine ⟨?_, ?_, ?_, ?_⟩
  · intro h
    exact (ComputeUtf16Hash_short s).1 h
  · intro h hoff
    exact (ComputeUtf16Hash_short s).2 h hoff
  · intro h
    unfold String.GetHashCode
    simp only []
    rw [if_pos h]
  · unfold String.GetHashCode_DCHECK String.GetHashCode
    simp only []
    by_cases h : s.hash_code_ = 0
    · rw [if_pos h]
      by_cases hc : ComputeUtf16Hash s.array_ s.offset_ s.GetLength = 0
      · exact Or.inr hc
      · exact Or.inl hc
    · rw [if_neg h]
      exact Or.inl h

/-- C20 witness: the empty string has the computed hash 0, and so has the non-empty string
made of the code unit U+0000, whose computed hash is its code unit. -/
theorem ComputeHashCode_zero_witness :
    Sample.emptyString.GetLength = 0 ∧ Sample.emptyString.ComputeHashCode.hash_code_ = 0 ∧
    Sample.nulString.GetLength = 1 ∧
    Sample.nulString.offset_ < Sample.nulString.array_.length ∧
    Sample.nulString.ComputeHashCode.hash_code_ = Sample.nulString.CharAt 0 % 2 ^ 32 ∧
    Sample.nulString.CharAt 0 = 0 :=
  ⟨by decide, (ComputeHashCode_zero Sample.emptyString).1 (by decide), by decide, by decide,
    (ComputeHashCode_zero Sample.nulString).2.1 (by decide) (by decide), by decide⟩

/-! ## Strings: equality against buffers -/

/-- The UTF-16 overload of `Equals` compares the string with the `that_length` units at
`that_offset`. -/
theorem String_Equals_uint16_loop_iff (s : String) (chars : List Nat) (offset : Nat) :
    ∀ (remaining i : Nat),
    String.Equals_uint16.loop s chars offset remaining i = true ↔
      ∀ k, k < remaining → s.CharAt (i + k) = chars.getD (offset + (i + k)) 0
  | 0, i => by simp [String.Equals_uint16.loop]
  | remaining + 1, i => by
    rw [String.Equals_uint16.loop]
    by_cases h : s.CharAt i = chars.getD (offset + i) 0
    · rw [if_neg (by simpa using h),
        String_Equals_uint16_loop_iff s chars offset remaining (i + 1)]
      constructor
      · intro hk k hlt
        rcases Nat.eq_zero_or_pos k with h0 | h0
        · subst h0
          simpa using h
        · have := hk (k - 1) (by omega)
          rw [show i + 1 + (k - 1) = i + k by omega] at this
          exact this
      · intro hk k hlt
        have := hk (k + 1) (by omega)
        rw [show i + (k + 1) = i + 1 + k by omega] at this
        exact this
    · rw [if_pos (by simpa using h)]
      constructor
      · intro hf
        cases hf
      · intro hk
        exact absurd (by simpa using hk 0 (by omega)) h

/-- The UTF-16 overload of `Equals` is true iff the length is the length of the string and
every unit matches. -/
theorem String_Equals_uint16_iff (s : String) (chars : List Nat) (offset : Nat) (length : Int) :
    String.Equals_uint16 s chars offset length = true ↔
      (length = (s.GetLength : Int) ∧
        ∀ i, i < s.GetLength → s.CharAt i = chars.getD (offset + i) 0) := by
  unfold String.Equals_uint16
  by_cases h : (s.GetLength : Int) = length
  · rw [if_neg (by simpa using h), String_Equals_uint16_loop_iff]
    subst h
    simp
  · rw [if_pos h]
    constructor
    · intro hf
      cases hf
    · rintro ⟨hl, _⟩
      exact absurd hl.symm h

/-- C21. The six bytes of "héllo" decode to the five code units of the string "héllo", and
`Equals(const char*)` accepts them, but `Equals(const StringPiece&)` of the same six bytes is
false: it compares the byte count 6 with the length 5.  The two bytes `c0 80` decode to the one
unit U+0000 of the string made of it, and `Equals(const char*)` is false on them: it takes the
decoded unit 0 for the terminator. -/
theorem String_Equals_buffer_rejects_equal_units :
    ConvertModifiedUtf8ToUtf16 Sample.hello_utf8 =
      (Sample.hello.object.array_.drop Sample.hello.object.offset_).take
        Sample.hello.object.count_ ∧
    String.Equals_cstr Sample.hello.object Sample.hello_utf8 = true ∧
    String.Equals_StringPiece Sample.hello.object Sample.hello_utf8 = false ∧
    ConvertModifiedUtf8ToUtf16 Sample.nul_utf8 =
      (Sample.nulString.array_.drop Sample.nulString.offset_).take Sample.nulString.count_ ∧
    String.Equals_StringPiece Sample.nulString Sample.nul_utf8 = false ∧
    String.Equals_cstr Sample.nulString Sample.nul_utf8 = false := by
  decide

/-! ## Interface dispatch -/

/-- The loop of `FindVirtualMethodForInterface` returns at the first entry of the declaring
class. -/
theorem FindVirtualMethodForInterface_scan_first (declaring_class : Class) (method : Method)
    (e : InterfaceEntry) (post : List InterfaceEntry) :
    ∀ (pre : List InterfaceEntry), (∀ e' ∈ pre, e'.interface_ ≠ declaring_class.addr) →
    e.interface_ = declaring_class.addr →
    Class.FindVirtualMethodForInterface.scan declaring_class method (pre ++ e :: post) =
      some (ObjectArray.Get e.method_array_ method.method_index_)
  | [], _, he => by
    rw [List.nil_append, Class.FindVirtualMethodForInterface.scan, if_pos he]
  | e' :: pre, hpre, he => by
    rw [List.cons_append, Class.FindVirtualMethodForInterface.scan,
      if_neg (hpre e' (List.mem_cons_self _ _))]
    exact FindVirtualMethodForInterface_scan_first declaring_class method e post pre
      (fun x hx => hpre x (List.mem_cons_of_mem _ hx)) he

/-- The loop of `FindVirtualMethodForInterface` ends without a result when no entry is of the
declaring class. -/
theorem FindVirtualMethodForInterface_scan_none (declaring_class : Class) (method : Method) :
    ∀ (iftable : List InterfaceEntry),
    (∀ e ∈ iftable, e.interface_ ≠ declaring_class.addr) →
    Class.FindVirtualMethodForInterface.scan declaring_class method iftable = none
  | [], _ => rfl
  | e :: rest, h => by
    rw [Class.FindVirtualMethodForInterface.scan, if_neg (h e (List.mem_cons_self _ _))]
    exact FindVirtualMethodForInterface_scan_none declaring_class method rest
      (fun x hx => h x (List.mem_cons_of_mem _ hx))

/-- C22. For every class `C` and interface method `M`: if the interface table of `C` has an
entry of the declaring class of `M`, `FindVirtualMethodForInterface(M, can_throw)` returns the
element at the method index of `M` of the method array of the first such entry (the index
being one of that array) and throws nothing; if there is no such entry it returns `NULL`, and
it leaves a pending `IncompatibleClassChangeError` whose message names the descriptors of `C`
and of the interface iff `can_throw` is true. -/
theorem FindVirtualMethodForInterface_spec (pd : String → List Char) (C : Class) (M : Method)
    (can_throw : Bool) :
    (∀ pre e post, C.GetIfTable = pre ++ e :: post →
      (∀ e' ∈ pre, e'.interface_ ≠ M.declaring_class_.addr) →
      e.interface_ = M.declaring_class_.addr →
      ∀ h : M.method_index_ < e.method_array_.length,
      C.FindVirtualMethodForInterface pd M can_throw =
        { result := some (e.method_array_.get ⟨M.method_index_, h⟩), exception := none }) ∧
    ((∀ e ∈ C.GetIfTable, e.interface_ ≠ M.declaring_class_.addr) →
      (C.FindVirtualMethodForInterface pd M can_throw).result = none ∧
      ((C.FindVirtualMethodForInterface pd M can_throw).exception.isSome = true ↔
        can_throw = true) ∧
      (can_throw = true →
        (C.FindVirtualMethodForInterface pd M can_throw).exception =
          some ⟨"Ljava/lang/IncompatibleClassChangeError;".data,
            "Class ".data ++ pd C.GetDescriptor ++ " does not implement interface ".data ++
              pd M.declaring_class_.GetDescriptor⟩)) := by
  constructor
  · intro pre e post htable hpre he h
    unfold Class.FindVirtualMethodForInterface
    simp only []
    rw [htable, FindVirtualMethodForInterface_scan_first _ M e post pre hpre he]
    simp only [ObjectArray.Get, dif_pos h]
  · intro hnone
    unfold Class.FindVirtualMethodForInterface
    simp only []
    rw [FindVirtualMethodForInterface_scan_none _ M _ hnone]
    cases can_throw
    · simp
    · simp [Class.doesNotImplementMessage]

/-- C22 witness: `Worker` implements `Runnable` and the lookup of `Runnable.run()` returns the
method at `0x7700` and throws nothing; `Lp/q/A;` has no entry for `Runnable`, and the lookup
with `can_throw` returns `NULL` and leaves the `IncompatibleClassChangeError` with both
descriptors. -/
theorem FindVirtualMethodForInterface_spec_witness :
    Sample.Worker.FindVirtualMethodForInterface Sample.prettyDescriptor Sample.Runnable_run
        true = { result := some 0x7700, exception := none } ∧
    (Sample.p_q_A.FindVirtualMethodForInterface Sample.prettyDescriptor Sample.Runnable_run
        true).result = none ∧
    (Sample.p_q_A.FindVirtualMethodForInterface Sample.prettyDescriptor Sample.Runnable_run
        true).exception =
      some ⟨"Ljava/lang/IncompatibleClassChangeError;".data,
        "Class ".data ++ Sample.prettyDescriptor Sample.p_q_A.GetDescriptor ++
          " does not implement interface ".data ++
          Sample.prettyDescriptor Sample.Runnable_run.declaring_class_.GetDescriptor⟩ :=
  ⟨(FindVirtualMethodForInterface_spec Sample.prettyDescriptor Sample.Worker
      Sample.Runnable_run true).1 [] ⟨0x1100, [0x7700]⟩ [] rfl (by simp) rfl (by decide),
    ((FindVirtualMethodForInterface_spec Sample.prettyDescriptor Sample.p_q_A
      Sample.Runnable_run true).2 (by simp [Sample.p_q_A, Sample.plainClass,
        Class.GetIfTable])).1,
    ((FindVirtualMethodForInterface_spec Sample.prettyDescriptor Sample.p_q_A
      Sample.Runnable_run true).2 (by simp [Sample.p_q_A, Sample.plainClass,
        Class.GetIfTable])).2.2 rfl⟩

/-! ## Static field lookup -/

/-- The loop of `FindDeclaredStaticField` returns the first field that passes the test. -/
theorem FindDeclaredStaticField_loop_eq (name type : List Nat) : ∀ (fields : List Field),
    Class.FindDeclaredStaticField.loop name type fields =
      fields.find? (fun f => f.isNamed name type)
  | [] => rfl
  | f :: rest => by
    rw [Class.FindDeclaredStaticField.loop, List.find?_cons]
    cases h : f.isNamed name type
    · simp only [Bool.false_eq_true, if_false]
      exact FindDeclaredStaticField_loop_eq name type rest
    · simp

/-- The first match of a concatenation is the first match of the first list, or else that of
the second. -/
theorem find?_append_or {α : Type} (p : α → Bool) : ∀ (xs ys : List α),
    (xs ++ ys).find? p = match xs.find? p with
      | some x => some x
      | none => ys.find? p
  | [], ys => rfl
  | x :: xs, ys => by
    rw [List.cons_append, List.find?_cons, List.find?_cons]
    cases h : p x
    · exact find?_append_or p xs ys
    · rfl

/-- The interface loop of `FindStaticField` returns the first match among the static fields of
the interfaces of the table. -/
theorem FindStaticField_interfaces_eq (heap : ClassHeap) (name type : List Nat) :
    ∀ (iftable : List InterfaceEntry),
    Class.FindStaticField.interfaces heap name type iftable =
      (Class.FindStaticField.interfaceFields heap iftable).find?
        (fun f => f.isNamed name type)
  | [] => rfl
  | e :: rest => by
    rw [Class.FindStaticField.interfaces, Class.FindStaticField.interfaceFields,
      find?_append_or, ← FindStaticField_interfaces_eq heap name type rest]
    simp only [Class.FindDeclaredStaticField, FindDeclaredStaticField_loop_eq]
    cases List.find? (fun f => f.isNamed name type)
      (heap.sfields_ (heap.class_at e.interface_).addr) <;> rfl

/-- `FindStaticField` returns the first match of the search order. -/
theorem FindStaticField_eq_aux (heap : ClassHeap) (name type : List Nat) : ∀ (C : Class),
    C.FindStaticField heap name type =
      (Class.FindStaticField.searchOrder heap C).find? (fun f => f.isNamed name type)
  | .mk a fl d l none c i => by
    rw [Class.FindStaticField, Class.FindStaticField.searchOrder, find?_append_or,
      find?_append_or, FindStaticField_interfaces_eq]
    simp only [Class.FindDeclaredStaticField, FindDeclaredStaticField_loop_eq, Class.addr,
      List.find?_nil]
    cases List.find? (fun f => f.isNamed name type) (heap.sfields_ a) <;>
      cases List.find? (fun f => f.isNamed name type)
        (Class.FindStaticField.interfaceFields heap i) <;> rfl
  | .mk a fl d l (some super) c i => by
    rw [Class.FindStaticField, Class.FindStaticField.searchOrder, find?_append_or,
      find?_append_or, FindStaticField_interfaces_eq, FindStaticField_eq_aux heap name type super]
    simp only [Class.FindDeclaredStaticField, FindDeclaredStaticField_loop_eq, Class.addr]
    cases List.find? (fun f => f.isNamed name type) (heap.sfields_ a) <;>
      cases List.find? (fun f => f.isNamed name type)
        (Class.FindStaticField.interfaceFields heap i) <;> rfl

/-- Counterexample to C23 as stated.  `Gauge` has the one direct interface `Bounded`, and its
interface table also lists the super-interface `Limits`, which declares `MAX`.  No class on the
superclass chain of `Gauge` and none of their direct interfaces declares a matching static
field, yet `FindStaticField("MAX", "I")` returns the field of `Limits`. -/
theorem FindStaticField_direct_interfaces_counterexample :
    Sample.Gauge.FindStaticField Sample.classHeap Sample.MAX_name Sample.int_descriptor =
      some Sample.Limits_MAX ∧
    (∀ c ∈ Sample.Gauge.superChain,
      (∀ f ∈ Sample.classHeap.sfields_ c.addr,
        f.isNamed Sample.MAX_name Sample.int_descriptor = false) ∧
      (∀ direct ∈ (Sample.classHeap.interfaces_ c.addr).getD [],
        ∀ f ∈ Sample.classHeap.sfields_ direct,
          f.isNamed Sample.MAX_name Sample.int_descriptor = false)) := by
  decide

/-- C23 (as amended). For every class `C`, name and type, `FindStaticField(name, type)` returns
the first match in this search order: for each class `c` on the superclass chain of `C`,
starting at `C`, first the declared static fields of `c` in order, then the declared static
fields of the interfaces of the interface table of `c` (its first `iftable_count` entries) in
order; it returns `NULL` iff no field of the search order matches. -/
theorem FindStaticField_search_order (heap : ClassHeap) (C : Class) (name type : List Nat) :
    C.FindStaticField heap name type =
      (Class.FindStaticField.searchOrder heap C).find? (fun f => f.isNamed name type) ∧
    (C.FindStaticField heap name type = none ↔
      ∀ f ∈ Class.FindStaticField.searchOrder heap C, f.isNamed name type = false) := by
  refine ⟨FindStaticField_eq_aux heap name type C, ?_⟩
  rw [FindStaticField_eq_aux heap name type C, List.find?_eq_none]
  simp

/-! ## Overridden-method search -/

/-- The interface loop of `FindOverriddenMethod` returns the first non-null result of
`FindInterfaceMethod` on the interfaces, in order. -/
theorem FindOverriddenMethod_scan_eq (heap : ClassHeap) (name signature : StringPtr) :
    ∀ (interfaces : List Nat),
    Method.FindOverriddenMethod.scan heap name signature interfaces =
      interfaces.findSome? (fun a => (heap.class_at a).FindInterfaceMethod heap name signature)
  | [] => rfl
  | a :: rest => by
    rw [Method.FindOverriddenMethod.scan, List.findSome?_cons,
      ← FindOverriddenMethod_scan_eq heap name signature rest]
    cases (heap.class_at a).FindInterfaceMethod heap name signature <;> rfl

/-- C24: evaluation at the failing inputs.  `Object.toString()` is not static and its declaring
class has no superclass, so there is no superclass vtable of length above its method index and
no direct interface matches; the call does not reach the interface search and does not return
`NULL`: it dereferences the null `super_class`.  `A.step()` has index 1, beyond the vtable of
`Object`, and `A` has no array of direct interfaces: the interface search dereferences the null
array where the result is to be `NULL`. -/
theorem FindOverriddenMethod_root_class_counterexample :
    Sample.Object_toString.IsStatic = false ∧
    Sample.Object_toString.declaring_class_.GetSuperClass = none ∧
    Sample.Object_toString.FindOverriddenMethod Sample.methodHeap = none ∧
    (((Sample.methodHeap.interfaces_ Sample.Object_toString.declaring_class_.addr).getD
      []).findSome? (fun a => (Sample.methodHeap.class_at a).FindInterfaceMethod
        Sample.methodHeap Sample.Object_toString.name_
        Sample.Object_toString.signature_)).isNone = true ∧
    Sample.A_step.IsStatic = false ∧
    Sample.A_step.declaring_class_.GetSuperClass = some Sample.java_lang_Object ∧
    Sample.methodHeap.vtable_ Sample.java_lang_Object.addr = some [some Sample.Object_toString] ∧
    Sample.methodHeap.interfaces_ Sample.A_step.declaring_class_.addr = none ∧
    Sample.A_step.FindOverriddenMethod Sample.methodHeap = none :=
  ⟨by decide, rfl, rfl, rfl, by decide, rfl, rfl, rfl, rfl⟩

/-- The calls of `FindOverriddenMethod` that return.  The result is `NULL` for every static
method.  For a non-static method with method index `k` whose declaring class has a superclass:
if the superclass has a vtable of length above `k` the call returns `super.vtable[k]`;
otherwise, when the declaring class has an array of direct interfaces, it returns the first
non-null result of looking up the name and signature of the method (`FindInterfaceMethod`) in
the direct interfaces of the declaring class, in order, or `NULL` if none matches. -/
theorem FindOverriddenMethod_spec (heap : ClassHeap) (m : Method) :
    (m.IsStatic = true → m.FindOverriddenMethod heap = some none) ∧
    (∀ super, m.IsStatic = false → m.declaring_class_.GetSuperClass = some super →
      (∀ vtable, heap.vtable_ super.addr = some vtable →
        m.method_index_ % 2 ^ 16 < vtable.length →
        m.FindOverriddenMethod heap = some (vtable.getD (m.method_index_ % 2 ^ 16) none)) ∧
      (∀ interfaces, (heap.vtable_ super.addr = none ∨
          ∃ vtable, heap.vtable_ super.addr = some vtable ∧
            vtable.length ≤ m.method_index_ % 2 ^ 16) →
        heap.interfaces_ m.declaring_class_.addr = some interfaces →
        m.FindOverriddenMethod heap =
          some (interfaces.findSome?
            (fun a => (heap.class_at a).FindInterfaceMethod heap m.name_ m.signature_)))) := by
  constructor
  · intro hs
    unfold Method.FindOverriddenMethod
    rw [if_pos hs]
  · intro super hs hsuper
    constructor
    · intro vtable hv hk
      unfold Method.FindOverriddenMethod
      simp only [hs, hsuper, hv, if_pos hk, Bool.false_eq_true, if_false]
    · rintro interfaces (hv | ⟨vtable, hv, hk⟩) hi
      · unfold Method.FindOverriddenMethod Method.FindOverriddenMethod.interfaces
        simp only [hs, hsuper, hv, hi, Bool.false_eq_true, if_false,
          FindOverriddenMethod_scan_eq]
      · unfold Method.FindOverriddenMethod Method.FindOverriddenMethod.interfaces
        simp only [hs, hsuper, hv, hi, if_neg (Nat.not_lt.mpr hk), Bool.false_eq_true,
          if_false, FindOverriddenMethod_scan_eq]

/-- Two calls that return: `Task.toString()` has index 0, inside the vtable of `Object`, and
overrides `Object.toString()`; `Task.run()` has index 1, beyond that vtable, and the search of
the direct interface `Runnable` finds `Runnable.run()`. -/
theorem FindOverriddenMethod_spec_witness :
    Sample.Task_toString.IsStatic = false ∧
    Sample.Task_toString.declaring_class_.GetSuperClass = some Sample.java_lang_Object ∧
    Sample.Task_toString.FindOverriddenMethod Sample.methodHeap =
      some (some Sample.Object_toString) ∧
    Sample.Task_run.FindOverriddenMethod Sample.methodHeap = some (some Sample.Runnable_run) :=
  ⟨by decide, rfl,
    ((FindOverriddenMethod_spec Sample.methodHeap Sample.Task_toString).2
      Sample.java_lang_Object (by decide) rfl).1 [some Sample.Object_toString] rfl
      (by decide),
    ((FindOverriddenMethod_spec Sample.methodHeap Sample.Task_run).2
      Sample.java_lang_Object (by decide) rfl).2 [0x1100]
      (Or.inr ⟨[some Sample.Object_toString], rfl, by decide⟩) rfl⟩

/-! ## Field accessors -/

/-- The start of the accessors on a static field: a null target is replaced by the declaring
class, a non-null target fails the `CHECK`. -/
theorem Field_checkedObject_static (f : Field) (hs : f.IsStatic = true) :
    f.checkedObject none = some f.declaring_class_ ∧ ∀ o, f.checkedObject (some o) = none := by
  unfold Field.checkedObject
  simp [hs]

/-- Counterexample to C25 as stated.  `Limits.MAX` is a static field.  `Get32` and `Set32` with
the non-null target `0x4000` end in the failed `CHECK((object == NULL) == IsStatic())`, which
logs the check and ends the process; no `IllegalArgumentError`, and no other exception, is
raised. -/
theorem Field_static_accessors_fatal_counterexample :
    Sample.Limits_MAX.IsStatic = true ∧
    (Sample.Limits_MAX.Get32 Sample.prettyField Sample.objectMemory (some 0x4000)).result =
      .fatal (Sample.Limits_MAX.checkFailed Sample.prettyField) ∧
    (Sample.Limits_MAX.Get32 Sample.prettyField Sample.objectMemory (some 0x4000)).exception =
      none ∧
    (Sample.Limits_MAX.Set32 Sample.prettyField (some 0x4000) 5).result =
      .fatal (Sample.Limits_MAX.checkFailed Sample.prettyField) ∧
    (Sample.Limits_MAX.Set32 Sample.prettyField (some 0x4000) 5).exception = none := by
  decide

/-- C25 (as amended). For a static field, each of `Get32`, `Set32`, `Get64`, `Set64`, `GetObj`,
`SetObj` called with a null target makes exactly one access, the read or write of the declaring
class object at the offset of the field with the volatility of the field, and returns (the
value read); called with a non-null target it fails the `CHECK((object == NULL) ==
IsStatic())`, a fatal assertion that ends the process with the logged check and raises no
exception, and makes no access. -/
theorem Field_static_accessors (pf : Field → List Char) (memory : ObjectMemory) (f : Field)
    (hs : f.IsStatic = true) (target v : Nat) (r : Option Nat) :
    (f.Get32 pf memory none).result =
        .returned (memory.GetField32 f.declaring_class_ f.GetOffset f.IsVolatile) ∧
      (f.Get32 pf memory none).accesses =
        [.GetField32 f.declaring_class_ f.GetOffset f.IsVolatile] ∧
    (f.Set32 pf none v).result = .returned () ∧
      (f.Set32 pf none v).accesses =
        [.SetField32 f.declaring_class_ f.GetOffset v f.IsVolatile] ∧
    (f.Get64 pf memory none).result =
        .returned (memory.GetField64 f.declaring_class_ f.GetOffset f.IsVolatile) ∧
      (f.Get64 pf memory none).accesses =
        [.GetField64 f.declaring_class_ f.GetOffset f.IsVolatile] ∧
    (f.Set64 pf none v).result = .returned () ∧
      (f.Set64 pf none v).accesses =
        [.SetField64 f.declaring_class_ f.GetOffset v f.IsVolatile] ∧
    (f.GetObj pf memory none).result =
        .returned (memory.GetFieldObject f.declaring_class_ f.GetOffset f.IsVolatile) ∧
      (f.GetObj pf memory none).accesses =
        [.GetFieldObject f.declaring_class_ f.GetOffset f.IsVolatile] ∧
    (f.SetObj pf none r).result = .returned () ∧
      (f.SetObj pf none r).accesses =
        [.SetFieldObject f.declaring_class_ f.GetOffset r f.IsVolatile] ∧
    ((f.Get32 pf memory (some target)).result = .fatal (f.checkFailed pf) ∧
      (f.Get32 pf memory (some target)).exception = none ∧
      (f.Get32 pf memory (some target)).accesses = []) ∧
    ((f.Set32 pf (some target) v).result = .fatal (f.checkFailed pf) ∧
      (f.Set32 pf (some target) v).exception = none ∧
      (f.Set32 pf (some target) v).accesses = []) ∧
    ((f.Get64 pf memory (some target)).result = .fatal (f.checkFailed pf) ∧
      (f.Get64 pf memory (some target)).exception = none ∧
      (f.Get64 pf memory (some target)).accesses = []) ∧
    ((f.Set64 pf (some target) v).result = .fatal (f.checkFailed pf) ∧
      (f.Set64 pf (some target) v).exception = none ∧
      (f.Set64 pf (some target) v).accesses = []) ∧
    ((f.GetObj pf memory (some target)).result = .fatal (f.checkFailed pf) ∧
      (f.GetObj pf memory (some target)).exception = none ∧
      (f.GetObj pf memory (some target)).accesses = []) ∧
    ((f.SetObj pf (some target) r).result = .fatal (f.checkFailed pf) ∧
      (f.SetObj pf (some target) r).exception = none ∧
      (f.SetObj pf (some target) r).accesses = []) := by
  obtain ⟨hnull, htarget⟩ := Field_checkedObject_static f hs
  simp only [Field.Get32, Field.Set32, Field.Get64, Field.Set64, Field.GetObj, Field.SetObj,
    hnull, htarget target, and_self]

/-- C25 witness: `Limits.MAX` is static and not volatile; `Get32(NULL)` reads the word at
offset `0x60` of the class object at `0x1700`, and `Set32` with the target `0x4000` fails the
check, with no exception and without an access. -/
theorem Field_static_accessors_witness :
    Sample.Limits_MAX.IsStatic = true ∧
    (Sample.Limits_MAX.Get32 Sample.prettyField Sample.objectMemory none).result =
      .returned 7 ∧
    (Sample.Limits_MAX.Get32 Sample.prettyField Sample.objectMemory none).accesses =
      [.GetField32 0x1700 0x60 false] ∧
    (Sample.Limits_MAX.Set32 Sample.prettyField (some 0x4000) 5).result =
      .fatal (Sample.Limits_MAX.checkFailed Sample.prettyField) ∧
    (Sample.Limits_MAX.Set32 Sample.prettyField (some 0x4000) 5).exception = none ∧
    (Sample.Limits_MAX.Set32 Sample.prettyField (some 0x4000) 5).accesses = [] :=
  have h := Field_static_accessors Sample.prettyField Sample.objectMemory Sample.Limits_MAX
    (by decide) 0x4000 5 none
  ⟨by decide, h.1, h.2.1, h.2.2.2.2.2.2.2.2.2.2.2.2.2.1⟩

/-! ## Method reflection fields -/

/-- C27. Invocation balance: for every method, receiver and argument buffer, and every stub
that leaves the record stack as it finds it, `Method::Invoke` returns iff the thread is
`Runnable` (the `CHECK_EQ`), and when it returns the `NativeToManaged` record stack of the
thread is the one on entry.  The calls it makes are, in order, one push of its record, the stub
call when the method has executable code and a stub (the stub is handed the thread with the
record on top of the entry stack) and one pop of the same record; the thread it returns is the
result of that pop on a thread whose stack is the record on top of the entry stack, namely the
thread the stub leaves on the stub path and the thread after the push on the no-code path. -/
theorem Invoke_balance (arm started : Bool) (pm : Method → List Char)
    (stub : Option Method.InvokeStub) (m : Method) (self : Thread) (receiver : Option Nat)
    (args : List Nat) (result : Option Int) (record : Nat)
    (hstub : ∀ s, stub = some s → ∀ state,
      (s m receiver args state).self.native_to_managed_records_ =
        state.self.native_to_managed_records_) :
    (self.GetState = Thread.State.kRunnable →
      ∃ out, m.Invoke arm started pm stub self receiver args result record = .returned out ∧
        out.self.native_to_managed_records_ = self.native_to_managed_records_ ∧
        (∃ before : Thread,
          before.native_to_managed_records_ = record :: self.native_to_managed_records_ ∧
          out.self = before.PopNativeToManagedRecord record) ∧
        (∀ s, (if arm then decide (m.GetCode ≠ 0) else m.IsNative) = true → stub = some s →
          out.calls = [.PushNativeToManagedRecord record,
            .InvokeStub (self.PushNativeToManagedRecord record),
            .PopNativeToManagedRecord record] ∧
          out.self = (s m receiver args
            { self := self.PushNativeToManagedRecord record, result := result }
            ).self.PopNativeToManagedRecord record) ∧
        (((if arm then decide (m.GetCode ≠ 0) else m.IsNative) = false ∨ stub = none) →
          out.calls = [.PushNativeToManagedRecord record,
            .PopNativeToManagedRecord record] ∧
          out.self =
            (self.PushNativeToManagedRecord record).PopNativeToManagedRecord record)) ∧
    (self.GetState ≠ Thread.State.kRunnable →
      ∃ log, m.Invoke arm started pm stub self receiver args result record = .fatal log) := by
  refine ⟨?_, ?_⟩
  · intro hstate
    unfold Method.Invoke
    rw [if_neg (by simpa using hstate)]
    cases hcode : (if arm then decide (m.GetCode ≠ 0) else m.IsNative) with
    | false =>
      refine ⟨_, rfl, ?_, ⟨self.PushNativeToManagedRecord record, rfl, ?_⟩, ?_, ?_⟩
      · simp [hcode, Thread.PopNativeToManagedRecord, Thread.PushNativeToManagedRecord]
      · simp [hcode]
      · intro s h
        cases h
      · intro _
        simp [hcode]
    | true =>
      cases hs : stub with
      | none =>
        refine ⟨_, rfl, ?_, ⟨self.PushNativeToManagedRecord record, rfl, ?_⟩, ?_, ?_⟩
        · simp [hcode, Thread.PopNativeToManagedRecord, Thread.PushNativeToManagedRecord]
        · simp [hcode]
        · intro s _ h
          cases h
        · intro _
          simp [hcode]
      | some s =>
        have hrec : (s m receiver args
            { self := self.PushNativeToManagedRecord record, result := result }
            ).self.native_to_managed_records_ = record :: self.native_to_managed_records_ :=
          hstub s hs { self := self.PushNativeToManagedRecord record, result := result }
        refine ⟨_, rfl, ?_, ⟨(s m receiver args
          { self := self.PushNativeToManagedRecord record, result := result }).self, ?_, ?_⟩,
          ?_, ?_⟩
        · simp only [hcode, Thread.PopNativeToManagedRecord, hrec, List.tail_cons]
        · exact hrec
        · simp [hcode]
        · intro s2 _ h
          cases h
          simp [hcode]
        · rintro (h | h)
          · cases h
          · cases h
  · intro hstate
    unfold Method.Invoke
    rw [if_pos hstate]
    exact ⟨_, rfl⟩

/-- C27 witness: a native method with a stub, invoked on a runnable thread with one record on
its stack, pushes its record, calls the stub with that record on top, pops it and returns with
the result the stub stored and the record stack of the entry; a method without executable code
returns with the same record stack after the push and the pop of its record. -/
theorem Invoke_balance_witness :
    Sample.nativeMethod.Invoke false true Sample.prettyMethod (some Sample.invokeStub)
        Sample.thread none [] (some 1) 0xb100 =
      .returned
        { self := Sample.thread, result := some 42, warnings := []
          calls := [.PushNativeToManagedRecord 0xb100,
            .InvokeStub (Sample.thread.PushNativeToManagedRecord 0xb100),
            .PopNativeToManagedRecord 0xb100] } ∧
    (∃ out, Sample.virtualMethod.Invoke false true Sample.prettyMethod (some Sample.invokeStub)
        Sample.thread none [] (some 1) 0xb100 = .returned out ∧
      out.self.native_to_managed_records_ = Sample.thread.native_to_managed_records_ ∧
      out.calls = [.PushNativeToManagedRecord 0xb100, .PopNativeToManagedRecord 0xb100]) :=
  ⟨by decide,
    Exists.imp (fun _ h => ⟨h.1, h.2.1, (h.2.2.2.2 (Or.inl (by decide))).1⟩)
      ((Invoke_balance false true Sample.prettyMethod (some Sample.invokeStub)
        Sample.virtualMethod Sample.thread none [] (some 1) 0xb100
        (fun s hs state => by cases hs; rfl)).1 rfl)⟩

/-! ## Reference offset bitmaps -/

/-- The count of a 32-bit word is at most 32. -/
theorem builtin_popcount_le (x : Nat) : builtin_popcount x ≤ 32 := by
  unfold builtin_popcount
  exact (List.length_filter_le _ _).trans (by simp)

/-- The walk of `SetReferenceInstanceOffsets` adds up the counts of the class and of all its
superclasses, modulo the width of `size_t`. -/
theorem SetReferenceInstanceOffsets_walk_eq (bits : Nat) (num : Class → Nat) :
    ∀ (C : Class) (cnt : Nat),
    Class.SetReferenceInstanceOffsets.walk bits num C cnt =
      (cnt + (C.superChain.map num).sum) % 2 ^ bits
  | .mk a f d l none c i, cnt => by
    rw [Class.SetReferenceInstanceOffsets.walk, Class.superChain]
    simp
  | .mk a f d l (some super) c i, cnt => by
    rw [Class.SetReferenceInstanceOffsets.walk, Class.superChain]
    simp only [List.map_cons, List.sum_cons]
    rw [SetReferenceInstanceOffsets_walk_eq bits num super, Nat.add_mod, Nat.mod_mod,
      ← Nat.add_mod, Nat.add_assoc]

/-- C28. Reference bitmap consistency: `SetReferenceInstanceOffsets(v)` on a class `C` (whose
reference instance fields, over `C` and all its superclasses, are fewer than `2 ^ bits`)
returns and stores `v` iff `v` is the `WALK_SUPER` sentinel or `popcount(v)` equals the sum,
over `C` and all its superclasses, of their numbers of reference instance fields; a
non-sentinel `v` with a different popcount ends in the failed `CHECK_EQ` and is not stored. -/
theorem SetReferenceInstanceOffsets_spec (bits WALK_SUPER : Nat) (num : Class → Nat)
    (C : Class) (old v : Nat) (hbits : 6 ≤ bits)
    (hsum : (C.superChain.map num).sum < 2 ^ bits) :
    (((C.SetReferenceInstanceOffsets bits WALK_SUPER num old v).result = .returned () ∧
        (C.SetReferenceInstanceOffsets bits WALK_SUPER num old v).reference_instance_offsets_
          = v) ↔
      (v = WALK_SUPER ∨ builtin_popcount v = (C.superChain.map num).sum)) ∧
    (v ≠ WALK_SUPER → builtin_popcount v ≠ (C.superChain.map num).sum →
      (∃ log, (C.SetReferenceInstanceOffsets bits WALK_SUPER num old v).result = .fatal log) ∧
      (C.SetReferenceInstanceOffsets bits WALK_SUPER num old v).reference_instance_offsets_
        = old) := by
  have hpop : builtin_popcount v % 2 ^ bits = builtin_popcount v := by
    apply Nat.mod_eq_of_lt
    have h1 := builtin_popcount_le v
    have h2 : 2 ^ 6 ≤ 2 ^ bits := Nat.pow_le_pow_right (by omega) hbits
    omega
  have hwalk : Class.SetReferenceInstanceOffsets.walk bits num C 0 =
      (C.superChain.map num).sum := by
    rw [SetReferenceInstanceOffsets_walk_eq, Nat.zero_add, Nat.mod_eq_of_lt hsum]
  unfold Class.SetReferenceInstanceOffsets
  simp only [hpop, hwalk]
  by_cases hv : v = WALK_SUPER
  · simp [hv]
  · by_cases hc : builtin_popcount v = (C.superChain.map num).sum
    · simp [hv, hc]
    · simp [hv, hc]

/-- C28 witness: on `SubTask` (two reference fields, one more in `Task`) the bitmap `0b10110`
with three bits is stored, and the bitmap `0b110` with two bits is rejected and the old word
kept; the sentinel is stored whatever the count. -/
theorem SetReferenceInstanceOffsets_spec_witness :
    (Sample.SubTask.superChain.map Sample.numReferenceInstanceFields).sum = 3 ∧
    ((Sample.SubTask.SetReferenceInstanceOffsets 32 3 Sample.numReferenceInstanceFields 0
        0b10110).result = .returned () ∧
      (Sample.SubTask.SetReferenceInstanceOffsets 32 3 Sample.numReferenceInstanceFields 0
        0b10110).reference_instance_offsets_ = 0b10110) ∧
    (Sample.SubTask.SetReferenceInstanceOffsets 32 3 Sample.numReferenceInstanceFields 0
      0b110).reference_instance_offsets_ = 0 :=
  ⟨by decide,
    ((SetReferenceInstanceOffsets_spec 32 3 Sample.numReferenceInstanceFields Sample.SubTask 0
      0b10110 (by decide) (by decide)).1).mpr (Or.inr (by decide)),
    ((SetReferenceInstanceOffsets_spec 32 3 Sample.numReferenceInstanceFields Sample.SubTask 0
      0b110 (by decide) (by decide)).2 (by decide) (by decide)).2⟩

/-! ## Argument counts -/

/-- The loop of `NumArgRegisters` adds 2 for `D` and `J` and 1 for any other character, in
32-bit arithmetic. -/
theorem NumArgRegisters_foldl (l : List Nat) : ∀ (acc : Nat),
    l.foldl Method.NumArgRegisters.step (acc % 2 ^ 32) =
      (acc + (l.map (fun ch => if ch = shorty_D ∨ ch = shorty_J then 2 else 1)).sum) %
        2 ^ 32 := by
  induction l with
  | nil => intro acc; simp
  | cons ch rest ih =>
    intro acc
    rw [List.foldl_cons, List.map_cons, List.sum_cons]
    have hstep : Method.NumArgRegisters.step (acc % 2 ^ 32) ch =
        (acc + (if ch = shorty_D ∨ ch = shorty_J then 2 else 1)) % 2 ^ 32 := by
      unfold Method.NumArgRegisters.step
      split <;> omega
    rw [hstep, ih, Nat.add_assoc]

/-- The sum of the register counts is the number of characters plus the number of `D` and
`J`. -/
theorem NumArgRegisters_sum (l : List Nat) :
    (l.map (fun ch => if ch = shorty_D ∨ ch = shorty_J then 2 else 1)).sum =
      l.length + l.countP (fun ch => ch = shorty_D ∨ ch = shorty_J) := by
  induction l with
  | nil => rfl
  | cons ch rest ih =>
    rw [List.map_cons, List.sum_cons, ih, List.length_cons, List.countP_cons]
    by_cases h : ch = shorty_D ∨ ch = shorty_J
    · simp only [h, if_true, decide_True]
      omega
    · simp only [h, if_false, decide_False]
      simp
      omega

/-- The loop of `NumLongOrDoubleArgs` counts the `D` and `J` among the characters it visits. -/
theorem NumLongOrDoubleArgs_loop_eq (s : String) (chars : List Nat)
    (hchars : ∀ i, i < chars.length → s.CharAt i % 256 = chars.getD i 0) :
    ∀ (remaining i result : Nat), i + remaining ≤ chars.length →
    Method.NumLongOrDoubleArgs.loop s remaining i result =
      result + ((chars.drop i).take remaining).countP (fun ch => ch = shorty_D ∨ ch = shorty_J)
  | 0, i, result, _ => by simp [Method.NumLongOrDoubleArgs.loop]
  | remaining + 1, i, result, h => by
    have hi : i < chars.length := by omega
    rw [Method.NumLongOrDoubleArgs.loop,
      NumLongOrDoubleArgs_loop_eq s chars hchars remaining (i + 1) _ (by omega),
      List.drop_eq_getElem_cons hi, List.take_succ_cons, List.countP_cons, hchars i hi,
      List.getD_eq_getElem?_getD, List.getElem?_eq_getElem hi, Option.getD_some]
    by_cases hc : chars[i] = shorty_D ∨ chars[i] = shorty_J
    · simp only [hc, if_true, decide_True]
      omega
    · simp only [hc, if_false, decide_False]
      simp

/-- C29. For every shorty of length at least 1 (a `StringPiece`, so shorter than `2 ^ 31`),
`NumArgRegisters(shorty)` returns the sum over the indices `1 .. len - 1` of 2 for `D` or `J`
and 1 for any other character; it does not depend on `shorty[0]`; and it equals `len - 1` plus
the number of `D` and `J` parameters, which for a static method with that shorty is
`NumArgs() + NumLongOrDoubleArgs()`. -/
theorem NumArgRegisters_spec (shorty : List Nat) (h1 : 1 ≤ shorty.length)
    (hlen : shorty.length < 2 ^ 31) :
    Method.NumArgRegisters shorty =
      .returned (((shorty.drop 1).map
        (fun ch => if ch = shorty_D ∨ ch = shorty_J then 2 else 1)).sum) ∧
    (∀ c, Method.NumArgRegisters (c :: shorty.drop 1) = Method.NumArgRegisters shorty) ∧
    Method.NumArgRegisters shorty =
      .returned (shorty.length - 1 +
        (shorty.drop 1).countP (fun ch => ch = shorty_D ∨ ch = shorty_J)) ∧
    (∀ (bits : Nat) (m : Method), 32 ≤ bits → m.IsStatic = true →
      m.shorty_.object.GetLength = shorty.length →
      (∀ i, i < shorty.length → m.shorty_.object.CharAt i % 256 = shorty.getD i 0) →
      Method.NumArgRegisters shorty =
        .returned (m.NumArgs bits + m.NumLongOrDoubleArgs)) := by
  have hcount : (shorty.drop 1).countP (fun ch => ch = shorty_D ∨ ch = shorty_J) ≤
      shorty.length - 1 := by
    have := List.countP_le_length (fun ch => decide (ch = shorty_D ∨ ch = shorty_J))
      (l := shorty.drop 1)
    rw [List.length_drop] at this
    exact this
  have hsum := NumArgRegisters_sum (shorty.drop 1)
  rw [List.length_drop] at hsum
  have hdef : ∀ l : List Nat, 1 ≤ l.length →
      Method.NumArgRegisters l =
        .returned ((l.drop 1).foldl Method.NumArgRegisters.step 0) := by
    intro l hl
    unfold Method.NumArgRegisters
    rw [if_neg (not_not.mpr hl)]
  have hval : Method.NumArgRegisters shorty =
      .returned (((shorty.drop 1).map
        (fun ch => if ch = shorty_D ∨ ch = shorty_J then 2 else 1)).sum) := by
    rw [hdef shorty h1]
    have := NumArgRegisters_foldl (shorty.drop 1) 0
    rw [Nat.zero_mod, Nat.zero_add] at this
    rw [this, Nat.mod_eq_of_lt (by omega)]
  refine ⟨hval, ?_, ?_, ?_⟩
  · intro c
    rw [hdef shorty h1, hdef (c :: shorty.drop 1) (by simp)]
    rfl
  · rw [hval, hsum]
  · intro bits m hbits hstatic hl hchars
    rw [hval, hsum]
    have hpow : 2 ^ 32 ≤ 2 ^ bits := Nat.pow_le_pow_right (by omega) hbits
    have hargs : m.NumArgs bits = shorty.length - 1 := by
      unfold Method.NumArgs
      rw [hstatic, hl]
      simp only [if_true, Nat.zero_add]
      have : shorty.length + 2 ^ bits - 1 = shorty.length - 1 + 2 ^ bits := by omega
      rw [this, Nat.add_mod_right, Nat.mod_eq_of_lt (by omega)]
    have hld : m.NumLongOrDoubleArgs =
        (shorty.drop 1).countP (fun ch => ch = shorty_D ∨ ch = shorty_J) := by
      unfold Method.NumLongOrDoubleArgs
      simp only [hl]
      rw [NumLongOrDoubleArgs_loop_eq m.shorty_.object shorty hchars _ 1 0 (by omega),
        Nat.zero_add, List.take_of_length_le (by rw [List.length_drop])]
    rw [hargs, hld]

/-- C29 witness: the shorty `JIDJL` of the static method `mix(int, double, long, Object)` needs
`1 + 2 + 2 + 1 = 6` registers, which is its 4 arguments plus its 2 long or double ones. -/
theorem NumArgRegisters_spec_witness :
    Method.NumArgRegisters Sample.mix_shorty = .returned 6 ∧
    Sample.Task_mix.NumArgs 32 = 4 ∧
    Sample.Task_mix.NumLongOrDoubleArgs = 2 ∧
    Method.NumArgRegisters Sample.mix_shorty =
      .returned (Sample.Task_mix.NumArgs 32 + Sample.Task_mix.NumLongOrDoubleArgs) :=
  ⟨(NumArgRegisters_spec Sample.mix_shorty (by decide) (by decide)).1,
    by decide, by decide,
    (NumArgRegisters_spec Sample.mix_shorty (by decide) (by decide)).2.2.2 32
      Sample.Task_mix (by decide) (by decide) (by decide) (by decide)⟩

/-! ## Assignability from array classes -/

/-- C30. For every non-interface class `T` and array class `S` (with component type `sc`), as
the function asserts them: if `T` is not an array class, `T.IsAssignableFromArray(S)` is true
iff `T` is the superclass of `S` (the root object class, a class without superclass); if `T` is
an array class with component type `tc`, the result equals `tc.IsAssignableFrom(sc)`. -/
theorem IsAssignableFromArray_spec (T S sc : Class) (hS : S.GetComponentType = some sc)
    (hd : T.IsAssignableFromArray_DCHECK S) :
    (T.IsArrayClass = false →
      ((T.IsAssignableFromArray S = true ↔
          ∃ super, S.GetSuperClass = some super ∧ T.addr = super.addr) ∧
        ∃ java_lang_Object, S.GetSuperClass = some java_lang_Object ∧
          java_lang_Object.GetSuperClass = none)) ∧
    (∀ tc, T.GetComponentType = some tc →
      T.IsAssignableFromArray S = tc.IsAssignableFrom sc) := by
  constructor
  · intro hna
    refine ⟨?_, hd.2.2 hna⟩
    unfold Class.IsAssignableFromArray
    rw [hna]
    simp only [Bool.not_false, if_true]
    cases hsup : S.GetSuperClass with
    | none => simp [Class.ptrEq]
    | some super => simp [Class.ptrEq]
  · intro tc htc
    have harr : T.IsArrayClass = true := by
      unfold Class.IsArrayClass
      rw [htc]
      rfl
    unfold Class.IsAssignableFromArray Class.IsArrayAssignableFromArray
    rw [harr, htc, hS]
    simp

/-- C30 witness: `Object` is assignable from `Task[]`, being its superclass, `Task` is not, and
`Task[]` is assignable from `SubTask[]` as `Task` is from `SubTask`. -/
theorem IsAssignableFromArray_spec_witness :
    Sample.java_lang_Object.IsAssignableFromArray Sample.Task_array = true ∧
    Sample.Task.IsAssignableFromArray Sample.Task_array = false ∧
    Sample.Task_array.IsAssignableFromArray Sample.SubTask_array =
      Sample.Task.IsAssignableFrom Sample.SubTask ∧
    Sample.Task.IsAssignableFrom Sample.SubTask = true :=
  ⟨(((IsAssignableFromArray_spec Sample.java_lang_Object Sample.Task_array Sample.Task
      rfl ⟨by decide, by decide, fun _ => ⟨_, rfl, rfl⟩⟩).1 (by decide)).1).mpr
      ⟨_, rfl, rfl⟩,
    by decide,
    (IsAssignableFromArray_spec Sample.Task_array Sample.SubTask_array Sample.SubTask
      rfl ⟨by decide, by decide, fun h => absurd h (by decide)⟩).2 Sample.Task rfl,
    by decide⟩

/-! ## Array allocation: component sizes that are powers of two -/

/-- The shift of the overflow check for a component size `2 ^ j` is `j`. -/
theorem component_shift_pow (bits j : Nat) (h : j < bits) :
    bits - 1 - CLZ bits (2 ^ j) = j := by
  have hlt : 2 ^ j < 2 ^ bits := Nat.pow_lt_pow_right (by norm_num) h
  obtain ⟨_, hlo, hhi⟩ := CLZ_spec bits (2 ^ j) (Nat.one_le_two_pow) hlt
  generalize bits - 1 - CLZ bits (2 ^ j) = s at hlo hhi
  have h1 : s ≤ j := (Nat.pow_le_pow_iff_right (by norm_num)).mp hlo
  have h2 : j < s + 1 := (Nat.pow_lt_pow_iff_right (by norm_num)).mp hhi
  omega

/-- For a component size `2 ^ j` and an exact size that fits `size_t`, the overflow predicate
of `Array::Alloc` is false. -/
theorem overflow_check_complete (bits hdr n j : Nat) (hj : j < bits)
    (hfit : hdr + n * 2 ^ j < 2 ^ bits) :
    ¬ (((n * 2 ^ j) % 2 ^ bits) >>> (bits - 1 - CLZ bits (2 ^ j)) ≠ n % 2 ^ bits ∨
        (hdr + (n * 2 ^ j) % 2 ^ bits) % 2 ^ bits < (n * 2 ^ j) % 2 ^ bits) := by
  have hpos : 0 < 2 ^ j := by positivity
  have hmul : n * 2 ^ j < 2 ^ bits := by omega
  have hn : n < 2 ^ bits := by
    have : n ≤ n * 2 ^ j := Nat.le_mul_of_pos_right n hpos
    omega
  rw [component_shift_pow bits j hj, Nat.mod_eq_of_lt hmul, Nat.mod_eq_of_lt hfit,
    Nat.mod_eq_of_lt hn, Nat.shiftRight_eq_div_pow, Nat.mul_div_cancel n hpos]
  omega

/-- `Array::Alloc` when its overflow predicate is false: no exception of its own and one
request to the heap, for the size computed. -/
theorem Array_Alloc_of_not_overflow (bits hdr : Nat) (pretty : List Char)
    (heap : Nat → Option Nat) (n e : Nat)
    (h : ¬ (((n * e) % 2 ^ bits) >>> (bits - 1 - CLZ bits e) ≠ n % 2 ^ bits ∨
        (hdr + (n * e) % 2 ^ bits) % 2 ^ bits < (n * e) % 2 ^ bits)) :
    (Array.Alloc bits hdr pretty heap n e).exception = none ∧
    (Array.Alloc bits hdr pretty heap n e).heap_requests =
      [(hdr + (n * e) % 2 ^ bits) % 2 ^ bits] := by
  unfold Array.Alloc
  simp only []
  rw [if_neg h]
  cases heap ((hdr + (n * e) % 2 ^ bits) % 2 ^ bits) <;> exact ⟨rfl, rfl⟩

/-- `Array::Alloc` when its overflow predicate is true: the `OutOfMemoryError` and no request
to the heap. -/
theorem Array_Alloc_of_overflow (bits hdr : Nat) (pretty : List Char)
    (heap : Nat → Option Nat) (n e : Nat)
    (h : ((n * e) % 2 ^ bits) >>> (bits - 1 - CLZ bits e) ≠ n % 2 ^ bits ∨
        (hdr + (n * e) % 2 ^ bits) % 2 ^ bits < (n * e) % 2 ^ bits) :
    (Array.Alloc bits hdr pretty heap n e).exception =
      some ⟨"Ljava/lang/OutOfMemoryError;".data, Array.vmLimitMessage pretty n⟩ ∧
    (Array.Alloc bits hdr pretty heap n e).heap_requests = [] := by
  unfold Array.Alloc
  simp only []
  rw [if_pos h]
  exact ⟨rfl, rfl⟩

/-- C35. No spurious rejection for power-of-two component sizes: for a component size `e` in
`{1, 2, 4, 8}` and a count `n` below `2 ^ 31`, if `header_size + n * e`, computed exactly, fits
`size_t`, the overflow predicate of `Array::Alloc` is false (no `OutOfMemoryError` is thrown)
and the heap is asked for exactly `header_size + n * e` bytes; and the predicate is true (the
error is thrown and the heap is not asked) iff the exact size does not fit. -/
theorem Array_Alloc_power_of_two (bits hdr : Nat) (pretty : List Char)
    (heap : Nat → Option Nat) (n e : Nat) (hbits : 31 ≤ bits) (hh : hdr < 2 ^ bits)
    (hn : n < 2 ^ 31) (he : e = 1 ∨ e = 2 ∨ e = 4 ∨ e = 8) :
    (hdr + n * e < 2 ^ bits →
      ¬ (((n * e) % 2 ^ bits) >>> (bits - 1 - CLZ bits e) ≠ n % 2 ^ bits ∨
        (hdr + (n * e) % 2 ^ bits) % 2 ^ bits < (n * e) % 2 ^ bits) ∧
      (Array.Alloc bits hdr pretty heap n e).exception = none ∧
      (Array.Alloc bits hdr pretty heap n e).heap_requests = [hdr + n * e]) ∧
    ((((n * e) % 2 ^ bits) >>> (bits - 1 - CLZ bits e) ≠ n % 2 ^ bits ∨
        (hdr + (n * e) % 2 ^ bits) % 2 ^ bits < (n * e) % 2 ^ bits) ↔
      2 ^ bits ≤ hdr + n * e) ∧
    (2 ^ bits ≤ hdr + n * e ↔
      (Array.Alloc bits hdr pretty heap n e).exception =
          some ⟨"Ljava/lang/OutOfMemoryError;".data, Array.vmLimitMessage pretty n⟩ ∧
        (Array.Alloc bits hdr pretty heap n e).heap_requests = []) := by
  have hn' : n < 2 ^ bits := lt_of_lt_of_le hn (Nat.pow_le_pow_right (by norm_num) hbits)
  have hpow : ∃ j, j < bits ∧ e = 2 ^ j := by
    rcases he with rfl | rfl | rfl | rfl
    · exact ⟨0, by omega, rfl⟩
    · exact ⟨1, by omega, rfl⟩
    · exact ⟨2, by omega, rfl⟩
    · exact ⟨3, by omega, rfl⟩
  obtain ⟨j, hj, rfl⟩ := hpow
  have he1 : 1 ≤ 2 ^ j := Nat.one_le_two_pow
  have he2 : 2 ^ j < 2 ^ bits := Nat.pow_lt_pow_right (by norm_num) hj
  have hiff : (((n * 2 ^ j) % 2 ^ bits) >>> (bits - 1 - CLZ bits (2 ^ j)) ≠ n % 2 ^ bits ∨
        (hdr + (n * 2 ^ j) % 2 ^ bits) % 2 ^ bits < (n * 2 ^ j) % 2 ^ bits) ↔
      2 ^ bits ≤ hdr + n * 2 ^ j := by
    constructor
    · intro hc
      by_contra hfit
      exact overflow_check_complete bits hdr n j hj (by omega) hc
    · intro hov
      by_contra hc
      have := overflow_check_sound bits hdr n (2 ^ j) he1 he2 hn' hh hc
      omega
  refine ⟨?_, hiff, ?_⟩
  · intro hfit
    have hc := overflow_check_complete bits hdr n j hj hfit
    obtain ⟨hex, hreq⟩ := Array_Alloc_of_not_overflow bits hdr pretty heap n (2 ^ j) hc
    refine ⟨hc, hex, ?_⟩
    rw [hreq, Nat.mod_eq_of_lt (by omega : n * 2 ^ j < 2 ^ bits), Nat.mod_eq_of_lt hfit]
  · constructor
    · intro hov
      exact Array_Alloc_of_overflow bits hdr pretty heap n (2 ^ j) (hiff.mpr hov)
    · intro hres
      by_contra hfit
      have hc := overflow_check_complete bits hdr n j hj (by omega)
      have := (Array_Alloc_of_not_overflow bits hdr pretty heap n (2 ^ j) hc).1
      rw [hres.1] at this
      cases this

/-- C35 witness: on a 32-bit machine with a 12-byte header, `0x1fffffff` eight-byte components
need `0xfffffff8 + 12` bytes, which does not fit, and the request is rejected; `0x1ffffffe`
components need `0xfffffffc` bytes, which fits, and the heap is asked for exactly that. -/
theorem Array_Alloc_power_of_two_witness :
    (Array.Alloc 32 12 "long[]".data (fun _ => some 0x5000) 0x1ffffffe 8).exception = none ∧
    (Array.Alloc 32 12 "long[]".data (fun _ => some 0x5000) 0x1ffffffe 8).heap_requests =
      [0xfffffffc] ∧
    (Array.Alloc 32 12 "long[]".data (fun _ => some 0x5000) 0x1fffffff 8).heap_requests = [] :=
  have h := (Array_Alloc_power_of_two 32 12 "long[]".data (fun _ => some 0x5000) 0x1ffffffe 8
    (by decide) (by decide) (by decide) (Or.inr (Or.inr (Or.inr rfl)))).1 (by decide)
  ⟨h.2.1, h.2.2,
    ((Array_Alloc_power_of_two 32 12 "long[]".data (fun _ => some 0x5000) 0x1fffffff 8
      (by decide) (by decide) (by decide) (Or.inr (Or.inr (Or.inr rfl)))).2.2.mp
        (by decide)).2⟩

/-! ## Parameters of a method -/

/-- `NumArgs` of a method whose shorty has at least the return character: the number of
characters after it, plus one for the receiver of an instance method. -/
theorem NumArgs_eq (bits : Nat) (m : Method) (hbits : 32 ≤ bits)
    (h1 : 1 ≤ m.shorty_.object.GetLength) (hlen : m.shorty_.object.GetLength < 2 ^ 31) :
    m.NumArgs bits =
      (if m.IsStatic then 0 else 1) + (m.shorty_.object.GetLength - 1) := by
  have hpow : 2 ^ 32 ≤ 2 ^ bits := Nat.pow_le_pow_right (by omega) hbits
  unfold Method.NumArgs
  have hle : (if m.IsStatic = true then 0 else 1) ≤ 1 := by split <;> omega
  have : (if m.IsStatic = true then 0 else 1) + m.shorty_.object.GetLength + 2 ^ bits - 1 =
      (if m.IsStatic = true then 0 else 1) + (m.shorty_.object.GetLength - 1) + 2 ^ bits := by
    omega
  rw [this, Nat.add_mod_right, Nat.mod_eq_of_lt (by omega)]

/-- C33. For every method (its shorty having at least the return character) and every
`param < NumArgs()`: `ParamSize(param)` is `kPointerSize` for the implicit receiver (param 0 of
an instance method) and otherwise `ShortyCharToSize(shorty[j])` (the code unit as a `char`)
with `j = param + 1` for a static and `j = param` for an instance method, where `1 <= j <
shorty.length`; `ShortyCharToSize` is 0 for `V`, `kPointerSize` for `L` and `[`, 8 for `D` and
`J` and 4 for every other character; `ReturnSize()` is `ShortyCharToSize(shorty[0])`. -/
theorem ParamSize_spec (bits ptr : Nat) (m : Method) (param : Nat) (hbits : 32 ≤ bits)
    (h1 : 1 ≤ m.shorty_.object.GetLength) (hlen : m.shorty_.object.GetLength < 2 ^ 31)
    (hparam : param < m.NumArgs bits) :
    (m.IsStatic = false → param = 0 → m.ParamSize bits ptr param = .returned ptr) ∧
    (m.IsStatic = true →
      m.ParamSize bits ptr param =
        .returned (ShortyCharToSize ptr (m.shorty_.object.CharAt (param + 1) % 256)) ∧
      1 ≤ param + 1 ∧ param + 1 < m.shorty_.object.GetLength) ∧
    (m.IsStatic = false → param ≠ 0 →
      m.ParamSize bits ptr param =
        .returned (ShortyCharToSize ptr (m.shorty_.object.CharAt param % 256)) ∧
      1 ≤ param ∧ param < m.shorty_.object.GetLength) ∧
    (ShortyCharToSize ptr shorty_V = 0 ∧ ShortyCharToSize ptr shorty_L = ptr ∧
      ShortyCharToSize ptr shorty_bracket = ptr ∧ ShortyCharToSize ptr shorty_D = 8 ∧
      ShortyCharToSize ptr shorty_J = 8 ∧
      ∀ x, x ≠ shorty_V → x ≠ shorty_L → x ≠ shorty_bracket → x ≠ shorty_D → x ≠ shorty_J →
        ShortyCharToSize ptr x = 4) ∧
    m.ReturnSize ptr = ShortyCharToSize ptr (m.shorty_.object.CharAt 0 % 256) := by
  have hargs := NumArgs_eq bits m hbits h1 hlen
  refine ⟨?_, ?_, ?_, ?_, rfl⟩
  · intro hs h0
    unfold Method.ParamSize
    rw [if_neg (not_not.mpr hparam)]
    simp [hs, h0]
  · intro hs
    rw [hargs, hs] at hparam
    simp only [if_true, Nat.zero_add] at hparam
    refine ⟨?_, by omega, by omega⟩
    unfold Method.ParamSize
    rw [hargs, hs]
    simp only [if_true, Nat.zero_add]
    rw [if_neg (not_not.mpr hparam), Nat.mod_eq_of_lt (by omega : param + 1 < 2 ^ 32)]
  · intro hs h0
    rw [hargs, hs] at hparam
    simp only [Bool.false_eq_true, if_false] at hparam
    refine ⟨?_, by omega, by omega⟩
    unfold Method.ParamSize
    rw [hargs, hs]
    simp only [Bool.false_eq_true, if_false]
    rw [if_neg (not_not.mpr hparam), if_neg h0]
  · refine ⟨?_, ?_, ?_, ?_, ?_, ?_⟩
    · unfold ShortyCharToSize
      simp
    · unfold ShortyCharToSize
      simp [shorty_L, shorty_V, shorty_bracket]
    · unfold ShortyCharToSize
      simp [shorty_V, shorty_bracket]
    · unfold ShortyCharToSize
      simp [shorty_D, shorty_L, shorty_V, shorty_bracket]
    · unfold ShortyCharToSize
      simp [shorty_J, shorty_D, shorty_L, shorty_V, shorty_bracket]
    · intro x hV hL hB hD hJ
      unfold ShortyCharToSize
      simp [hV, hL, hB, hD, hJ]

/-- C33 witness: for the static `mix(int, double, long, Object)` with shorty `JIDJL`, parameter
1 is the `double` at `shorty[2]`, 8 bytes; for the instance `sum(Object, double)` with shorty
`JLD`, parameter 0 is the receiver and parameter 2 the `double` at `shorty[2]`. -/
theorem ParamSize_spec_witness :
    Sample.Task_mix.ParamSize 32 4 1 = .returned 8 ∧
    Sample.Task_sum.ParamSize 32 4 0 = .returned 4 ∧
    Sample.Task_sum.ParamSize 32 4 2 = .returned 8 ∧
    Sample.Task_sum.ReturnSize 4 = 8 :=
  ⟨((ParamSize_spec 32 4 Sample.Task_mix 1 (by decide) (by decide) (by decide)
      (by decide)).2.1 (by decide)).1,
    (ParamSize_spec 32 4 Sample.Task_sum 0 (by decide) (by decide) (by decide)
      (by decide)).1 (by decide) rfl,
    ((ParamSize_spec 32 4 Sample.Task_sum 2 (by decide) (by decide) (by decide)
      (by decide)).2.2.1 (by decide) (by decide)).1,
    by decide⟩

/-- Counting over `0 .. n` splits into index 0 and the count over the successors. -/
theorem range_countP_succ (p : Nat → Bool) (n : Nat) :
    (List.range (n + 1)).countP p =
      (if p 0 then 1 else 0) + (List.range n).countP (fun k => p (k + 1)) := by
  rw [List.range_succ_eq_map, List.countP_cons, List.countP_map, Nat.add_comm]
  rfl

/-- The loop of `NumReferenceArgs` counts the `L` and `[` among the characters it visits. -/
theorem NumReferenceArgs_loop_eq (s : String) : ∀ (remaining i result : Nat),
    Method.NumReferenceArgs.loop s remaining i result =
      result + (List.range remaining).countP
        (fun k => s.CharAt (i + k) % 256 = shorty_L ∨ s.CharAt (i + k) % 256 = shorty_bracket)
  | 0, i, result => by simp [Method.NumReferenceArgs.loop]
  | remaining + 1, i, result => by
    rw [Method.NumReferenceArgs.loop, NumReferenceArgs_loop_eq s remaining (i + 1),
      range_countP_succ]
    simp only [Nat.add_zero, decide_eq_true_eq]
    have hidx : ∀ k, i + 1 + k = i + (k + 1) := fun k => by omega
    simp only [hidx]
    split <;> omega

/-- The loop of `NumLongOrDoubleArgs` counts the `D` and `J` among the characters it visits. -/
theorem NumLongOrDoubleArgs_loop_range (s : String) : ∀ (remaining i result : Nat),
    Method.NumLongOrDoubleArgs.loop s remaining i result =
      result + (List.range remaining).countP
        (fun k => s.CharAt (i + k) % 256 = shorty_D ∨ s.CharAt (i + k) % 256 = shorty_J)
  | 0, i, result => by simp [Method.NumLongOrDoubleArgs.loop]
  | remaining + 1, i, result => by
    rw [Method.NumLongOrDoubleArgs.loop, NumLongOrDoubleArgs_loop_range s remaining (i + 1),
      range_countP_succ]
    simp only [Nat.add_zero, decide_eq_true_eq]
    have hidx : ∀ k, i + 1 + k = i + (k + 1) := fun k => by omega
    simp only [hidx]
    split <;> omega

/-- Counterexample to C36 as stated.  The static method with the shorty `V[` has one argument;
`NumReferenceArgs()` counts the `[` and is 1, while `IsParamAReference(0)` compares with `L`
only and is false, so no index passes the per-parameter test.  The same happens with the
16-bit code unit `0x014c` in place of `[`: `NumReferenceArgs()` reads it into a `char`, which
is `L`, and `IsParamAReference(0)` compares the code unit itself. -/
theorem NumReferenceArgs_per_parameter_counterexample :
    Sample.Task_fill.NumArgs 32 = 1 ∧
    Sample.Task_fill.NumReferenceArgs = 1 ∧
    Sample.Task_fill.IsParamAReference 32 0 = .returned false ∧
    (List.range (Sample.Task_fill.NumArgs 32)).countP
      (fun i => decide (Sample.Task_fill.IsParamAReference 32 i = .returned true)) = 0 ∧
    Sample.Task_wide.NumArgs 32 = 1 ∧
    Sample.Task_wide.NumReferenceArgs = 1 ∧
    (List.range (Sample.Task_wide.NumArgs 32)).countP
      (fun i => decide (Sample.Task_wide.IsParamAReference 32 i = .returned true)) = 0 := by
  decide

/-- The per-parameter tests on an index that passes `CHECK_LT(param, NumArgs())`, for a static
method: the character at `param + 1` decides. -/
theorem IsParam_static (bits : Nat) (m : Method) (param : Nat) (hs : m.IsStatic = true)
    (hparam : param < m.NumArgs bits) (h32 : param + 1 < 2 ^ 32) :
    m.IsParamAReference bits param =
        .returned (m.shorty_.object.CharAt (param + 1) == shorty_L) ∧
    m.IsParamALongOrDouble bits param =
        .returned (m.shorty_.object.CharAt (param + 1) % 256 == shorty_J ||
          m.shorty_.object.CharAt (param + 1) % 256 == shorty_D) := by
  unfold Method.IsParamAReference Method.IsParamALongOrDouble
  rw [if_neg (not_not.mpr hparam), if_neg (not_not.mpr hparam), if_pos hs, if_pos hs,
    Nat.mod_eq_of_lt h32]
  exact ⟨rfl, rfl⟩

/-- The per-parameter tests on an index that passes `CHECK_LT(param, NumArgs())`, for an
instance method: index 0 is the receiver, the character at `param` decides for the others. -/
theorem IsParam_instance (bits : Nat) (m : Method) (param : Nat) (hs : m.IsStatic = false)
    (hparam : param < m.NumArgs bits) :
    m.IsParamAReference bits param =
        .returned (if param = 0 then true else m.shorty_.object.CharAt param == shorty_L) ∧
    m.IsParamALongOrDouble bits param =
        .returned (if param = 0 then false
          else (m.shorty_.object.CharAt param % 256 == shorty_J ||
            m.shorty_.object.CharAt param % 256 == shorty_D)) := by
  unfold Method.IsParamAReference Method.IsParamALongOrDouble
  rw [if_neg (not_not.mpr hparam), if_neg (not_not.mpr hparam), hs]
  simp only [Bool.false_eq_true, if_false]
  by_cases h0 : param = 0
  · simp [h0]
  · simp [h0]

/-- C36 (as amended). For every method (its shorty having at least the return character),
`NumLongOrDoubleArgs()` equals the number of indices `i < NumArgs()` for which
`IsParamALongOrDouble(i)` is true; and if the characters of the shorty after the first are
8-bit characters other than `[` (a shorty writes every reference, arrays included, as `L`),
`NumReferenceArgs()` equals the number of indices `i < NumArgs()` for which
`IsParamAReference(i)` is true. -/
theorem NumReferenceArgs_spec (bits : Nat) (m : Method) (hbits : 32 ≤ bits)
    (h1 : 1 ≤ m.shorty_.object.GetLength) (hlen : m.shorty_.object.GetLength < 2 ^ 31) :
    ((∀ i, 1 ≤ i → i < m.shorty_.object.GetLength →
        m.shorty_.object.CharAt i < 256 ∧ m.shorty_.object.CharAt i ≠ shorty_bracket) →
      m.NumReferenceArgs = (List.range (m.NumArgs bits)).countP
        (fun i => decide (m.IsParamAReference bits i = .returned true))) ∧
    m.NumLongOrDoubleArgs = (List.range (m.NumArgs bits)).countP
      (fun i => decide (m.IsParamALongOrDouble bits i = .returned true)) := by
  have hargs := NumArgs_eq bits m hbits h1 hlen
  cases hs : m.IsStatic
  · -- an instance method
    rw [hs] at hargs
    simp only [Bool.false_eq_true, if_false] at hargs
    have hn : m.NumArgs bits = (m.shorty_.object.GetLength - 1) + 1 := by omega
    constructor
    · intro hchars
      unfold Method.NumReferenceArgs
      simp only [hs, Bool.false_eq_true, if_false]
      rw [NumReferenceArgs_loop_eq, hn, range_countP_succ]
      have h0 := (IsParam_instance bits m 0 hs (by omega)).1
      simp only [if_true] at h0
      rw [h0]
      simp only [decide_True, if_true]
      congr 1
      apply List.countP_congr
      intro k hk
      have hk' : k < m.shorty_.object.GetLength - 1 := List.mem_range.mp hk
      have hp := (IsParam_instance bits m (k + 1) hs (by omega)).1
      rw [if_neg (by omega)] at hp
      rw [hp]
      obtain ⟨hlt, hne⟩ := hchars (k + 1) (by omega) (by omega)
      rw [Nat.add_comm 1 k, Nat.mod_eq_of_lt hlt]
      simp [hne]
    · unfold Method.NumLongOrDoubleArgs
      simp only []
      rw [NumLongOrDoubleArgs_loop_range, hn, range_countP_succ]
      have h0 := (IsParam_instance bits m 0 hs (by omega)).2
      simp only [if_true] at h0
      rw [h0]
      simp only [Nat.zero_add]
      have hfalse : decide ((CallResult.returned false : CallResult Bool) =
          CallResult.returned true) = false := by decide
      rw [hfalse]
      simp only [Bool.false_eq_true, if_false, Nat.zero_add]
      apply List.countP_congr
      intro k hk
      have hk' : k < m.shorty_.object.GetLength - 1 := List.mem_range.mp hk
      have hp := (IsParam_instance bits m (k + 1) hs (by omega)).2
      rw [if_neg (by omega)] at hp
      rw [hp, Nat.add_comm 1 k]
      simp
      tauto
  · -- a static method
    rw [hs] at hargs
    simp only [if_true, Nat.zero_add] at hargs
    constructor
    · intro hchars
      unfold Method.NumReferenceArgs
      simp only [hs, if_true]
      rw [NumReferenceArgs_loop_eq, hargs, Nat.zero_add]
      apply List.countP_congr
      intro k hk
      have hk' : k < m.shorty_.object.GetLength - 1 := List.mem_range.mp hk
      have hp := (IsParam_static bits m k hs (by omega) (by omega)).1
      rw [hp]
      obtain ⟨hlt, hne⟩ := hchars (k + 1) (by omega) (by omega)
      rw [Nat.add_comm 1 k, Nat.mod_eq_of_lt hlt]
      simp [hne]
    · unfold Method.NumLongOrDoubleArgs
      simp only []
      rw [NumLongOrDoubleArgs_loop_range, hargs, Nat.zero_add]
      apply List.countP_congr
      intro k hk
      have hk' : k < m.shorty_.object.GetLength - 1 := List.mem_range.mp hk
      have hp := (IsParam_static bits m k hs (by omega) (by omega)).2
      rw [hp, Nat.add_comm 1 k]
      simp
      tauto

/-- C36 witness: the static `mix(int, double, long, Object)` with shorty `JIDJL` has one
reference argument and two long or double ones, and the instance `sum(Object, double)` with
shorty `JLD` has two reference arguments, the receiver included; the counts are those of the
per-parameter tests. -/
theorem NumReferenceArgs_spec_witness :
    Sample.Task_mix.NumReferenceArgs = 1 ∧ Sample.Task_sum.NumReferenceArgs = 2 ∧
    Sample.Task_mix.NumLongOrDoubleArgs = 2 ∧
    Sample.Task_mix.NumReferenceArgs = (List.range (Sample.Task_mix.NumArgs 32)).countP
      (fun i => decide (Sample.Task_mix.IsParamAReference 32 i = .returned true)) ∧
    Sample.Task_sum.NumLongOrDoubleArgs = (List.range (Sample.Task_sum.NumArgs 32)).countP
      (fun i => decide (Sample.Task_sum.IsParamALongOrDouble 32 i = .returned true)) :=
  ⟨by decide, by decide, by decide,
    (NumReferenceArgs_spec 32 Sample.Task_mix (by decide) (by decide) (by decide)).1
      (by decide),
    (NumReferenceArgs_spec 32 Sample.Task_sum (by decide) (by decide) (by decide)).2⟩

/-! ## The primitive type of a field -/

/-- For a field whose type is resolved in the dex cache the two queries agree. -/
theorem Field_primitive_queries_resolved (prim : Class → PrimitiveType) (dex_cache : DexCache)
    (f : Field) (type : Class) (h : f.GetTypeDuringLinking dex_cache = some type) :
    (f.IsPrimitiveType prim dex_cache = true ↔
      f.GetPrimitiveType prim dex_cache ≠ PrimitiveType.kPrimNot) := by
  unfold Field.IsPrimitiveType Field.GetPrimitiveType
  rw [h]
  simp [Class.IsPrimitive]

/-- For a field whose type is not resolved in the dex cache, `IsPrimitiveType()` is true and
`GetPrimitiveType()` is `kPrimNot`. -/
theorem Field_primitive_queries_unresolved (prim : Class → PrimitiveType)
    (dex_cache : DexCache) (f : Field) (h : f.GetTypeDuringLinking dex_cache = none) :
    f.IsPrimitiveType prim dex_cache = true ∧
    f.GetPrimitiveType prim dex_cache = PrimitiveType.kPrimNot := by
  unfold Field.IsPrimitiveType Field.GetPrimitiveType
  rw [h]
  exact ⟨rfl, rfl⟩

/-- C37. The field `next` of a reference type that is not yet resolved in the dex cache:
`GetPrimitiveType()` is `kPrimNot` and `PrimitiveSize()` is the reference width, but
`IsPrimitiveType()` is true.  For the field `cause`, whose type is resolved, the queries
agree. -/
theorem Field_IsPrimitiveType_of_unresolved_type :
    (Sample.Task_next.GetTypeDuringLinking Sample.dexCache).isNone = true ∧
    Sample.Task_next.GetPrimitiveType Sample.primitiveType Sample.dexCache =
      PrimitiveType.kPrimNot ∧
    Sample.Task_next.PrimitiveSize Sample.fieldSize Sample.primitiveType Sample.dexCache = 4 ∧
    Sample.Task_next.IsPrimitiveType Sample.primitiveType Sample.dexCache = true ∧
    Sample.Task_cause.GetPrimitiveType Sample.primitiveType Sample.dexCache =
      PrimitiveType.kPrimNot ∧
    Sample.Task_cause.IsPrimitiveType Sample.primitiveType Sample.dexCache = false := by
  decide

/-! ## Typed field accessors -/

/-- An `int8_t` widened to the `uint32_t` slot and narrowed back is the same value. -/
theorem to_signed_8_of_slot (v : Int) (hlo : -128 ≤ v) (hhi : v < 128) :
    to_signed 8 (to_unsigned 32 v % 2 ^ 32) = v := by
  unfold to_signed to_unsigned
  norm_num
  split_ifs <;> omega

/-- An `int16_t` widened to the `uint32_t` slot and narrowed back is the same value. -/
theorem to_signed_16_of_slot (v : Int) (hlo : -32768 ≤ v) (hhi : v < 32768) :
    to_signed 16 (to_unsigned 32 v % 2 ^ 32) = v := by
  unfold to_signed to_unsigned
  norm_num
  split_ifs <;> omega

/-- An `int32_t` converted to the `uint32_t` slot and back is the same value. -/
theorem to_signed_32_of_slot (v : Int) (hlo : -2147483648 ≤ v) (hhi : v < 2147483648) :
    to_signed 32 (to_unsigned 32 v % 2 ^ 32) = v := by
  unfold to_signed to_unsigned
  norm_num
  split_ifs <;> omega

/-- An `int64_t` converted to the `uint64_t` slot and back is the same value. -/
theorem to_signed_64_of_slot (v : Int) (hlo : -9223372036854775808 ≤ v)
    (hhi : v < 9223372036854775808) :
    to_signed 64 (to_unsigned 64 v % 2 ^ 64) = v := by
  unfold to_signed to_unsigned
  norm_num
  split_ifs <;> omega

/-- A 32-bit store on the object an accessor goes on with, followed by the 32-bit load through
the same field: the load returns the word stored. -/
theorem Field_Get32_after_Set32 (pf : Field → List Char) (memory : ObjectMemory) (f : Field)
    (o : Option Nat) (obj x : Nat) (h : f.checkedObject o = some obj) :
    (f.Get32 pf ((f.Set32 pf o x).accesses.foldl ObjectMemory.after memory) o).result =
      .returned (x % 2 ^ 32) := by
  unfold Field.Get32 Field.Set32
  simp [h, ObjectMemory.after]

/-- A 64-bit store followed by the 64-bit load through the same field. -/
theorem Field_Get64_after_Set64 (pf : Field → List Char) (memory : ObjectMemory) (f : Field)
    (o : Option Nat) (obj x : Nat) (h : f.checkedObject o = some obj) :
    (f.Get64 pf ((f.Set64 pf o x).accesses.foldl ObjectMemory.after memory) o).result =
      .returned (x % 2 ^ 64) := by
  unfold Field.Get64 Field.Set64
  simp [h, ObjectMemory.after]

/-- C34. Typed field accessors round-trip through the 32- and 64-bit slot: for every field and
valid target `o` (one that passes the `CHECK` of the accessors), and every value `v` of the
type, `SetByte(o, v)` followed by `GetByte(o)` returns `v`, and likewise for `Boolean`, `Char`,
`Short`, `Int` and `Long`, negative bytes and shorts and chars from `0x8000` included. -/
theorem Field_typed_round_trip (pf : Field → List Char) (memory : ObjectMemory) (f : Field)
    (o : Option Nat) (obj : Nat) (h : f.checkedObject o = some obj) :
    (∀ z : Bool,
      f.GetBoolean pf ((f.SetBoolean pf o z).accesses.foldl ObjectMemory.after memory) o =
        .returned z) ∧
    (∀ b : Int, -128 ≤ b → b < 128 →
      f.GetByte pf ((f.SetByte pf o b).accesses.foldl ObjectMemory.after memory) o =
        .returned b) ∧
    (∀ c : Nat, c < 2 ^ 16 →
      f.GetChar pf ((f.SetChar pf o c).accesses.foldl ObjectMemory.after memory) o =
        .returned c) ∧
    (∀ s : Int, -32768 ≤ s → s < 32768 →
      f.GetShort pf ((f.SetShort pf o s).accesses.foldl ObjectMemory.after memory) o =
        .returned s) ∧
    (∀ i : Int, -2147483648 ≤ i → i < 2147483648 →
      f.GetInt pf ((f.SetInt pf o i).accesses.foldl ObjectMemory.after memory) o =
        .returned i) ∧
    (∀ j : Int, -9223372036854775808 ≤ j → j < 9223372036854775808 →
      f.GetLong pf ((f.SetLong pf o j).accesses.foldl ObjectMemory.after memory) o =
        .returned j) := by
  refine ⟨?_, ?_, ?_, ?_, ?_, ?_⟩
  · intro z
    unfold Field.GetBoolean Field.SetBoolean
    rw [Field_Get32_after_Set32 pf memory f o obj _ h]
    cases z <;> rfl
  · intro b hlo hhi
    unfold Field.GetByte Field.SetByte
    rw [Field_Get32_after_Set32 pf memory f o obj _ h, CallResult.map,
      to_signed_8_of_slot b hlo hhi]
  · intro c hc
    unfold Field.GetChar Field.SetChar
    rw [Field_Get32_after_Set32 pf memory f o obj _ h, CallResult.map]
    congr 1
    have h16 : (2 : Nat) ^ 16 = 65536 := by norm_num
    have h32 : (2 : Nat) ^ 32 = 4294967296 := by norm_num
    rw [h16] at hc
    simp only [h16, h32]
    omega
  · intro s hlo hhi
    unfold Field.GetShort Field.SetShort
    rw [Field_Get32_after_Set32 pf memory f o obj _ h, CallResult.map,
      to_signed_16_of_slot s hlo hhi]
  · intro i hlo hhi
    unfold Field.GetInt Field.SetInt
    rw [Field_Get32_after_Set32 pf memory f o obj _ h, CallResult.map,
      to_signed_32_of_slot i hlo hhi]
  · intro j hlo hhi
    unfold Field.GetLong Field.SetLong
    rw [Field_Get64_after_Set64 pf memory f o obj _ h, CallResult.map,
      to_signed_64_of_slot j hlo hhi]

/-- C34 witness: through the instance field `next` of the object at `0x4000`, the byte `-1` is
stored as the word `0xffffffff` and read back as `-1`, and the char `0x8000` is read back as
`0x8000`. -/
theorem Field_typed_round_trip_witness :
    Sample.Task_next.checkedObject (some 0x4000) = some 0x4000 ∧
    (Sample.Task_next.SetByte Sample.prettyField (some 0x4000) (-1)).accesses =
      [.SetField32 0x4000 0x8 0xffffffff false] ∧
    Sample.Task_next.GetByte Sample.prettyField
      ((Sample.Task_next.SetByte Sample.prettyField (some 0x4000) (-1)).accesses.foldl
        ObjectMemory.after Sample.objectMemory) (some 0x4000) = .returned (-1) ∧
    Sample.Task_next.GetChar Sample.prettyField
      ((Sample.Task_next.SetChar Sample.prettyField (some 0x4000) 0x8000).accesses.foldl
        ObjectMemory.after Sample.objectMemory) (some 0x4000) = .returned 0x8000 :=
  have h := Field_typed_round_trip Sample.prettyField Sample.objectMemory Sample.Task_next
    (some 0x4000) 0x4000 (by decide)
  ⟨by decide, by decide, h.2.1 (-1) (by decide) (by decide), h.2.2.1 0x8000 (by decide)⟩

/-! ## Assignability and array depth -/

/-- The element class and the depth of an array class are determined by the class. -/
theorem IsArrayOver_unique (O Z : Class) (hOc : O.GetComponentType = none)
    (hZc : Z.GetComponentType = none) : ∀ (k m : Nat) (X : Class),
    Class.IsArrayOver O k X → Class.IsArrayOver Z m X → k = m ∧ O = Z
  | 0, 0, X, h1, h2 => by
    have e1 : X = O := h1
    have e2 : X = Z := h2
    exact ⟨rfl, e1.symm.trans e2⟩
  | 0, m + 1, X, h1, h2 => by
    have e1 : X = O := h1
    obtain ⟨K, hK, _⟩ := h2
    rw [e1, hOc] at hK
    cases hK
  | k + 1, 0, X, h1, h2 => by
    have e2 : X = Z := h2
    obtain ⟨K, hK, _⟩ := h1
    rw [e2, hZc] at hK
    cases hK
  | k + 1, m + 1, X, h1, h2 => by
    obtain ⟨K1, hK1, h1⟩ := h1
    obtain ⟨K2, hK2, h2⟩ := h2
    rw [hK1] at hK2
    cases hK2
    obtain ⟨hkm, hOZ⟩ := IsArrayOver_unique O Z hOc hZc k m K1 h1 h2
    exact ⟨congrArg Nat.succ hkm, hOZ⟩

/-- The identity case of the array-depth rule: a class that is `O[]^k` and `Z[]^m`. -/
theorem IsAssignableFrom_array_depth_same {loaded : Class → Prop} {root : Nat}
    (wf : ClassTable.WellFormed loaded root) (O Z : Class)
    (hOc : O.GetComponentType = none) (hZc : Z.GetComponentType = none) (k m : Nat)
    (A B : Class) (hAl : loaded A) (hBl : loaded B) (hA : Class.IsArrayOver O k A)
    (hB : Class.IsArrayOver Z m B) (e : A.addr = B.addr) :
    (A.IsAssignableFrom B = true ↔ (k < m ∨ (k = m ∧ Z.IsSubClass O = true))) := by
  have hAB : A = B := wf.addr_inj A B hAl hBl e
  rw [← hAB] at hB
  obtain ⟨hkm, hOZ⟩ := IsArrayOver_unique O Z hOc hZc k m A hA hB
  constructor
  · intro _
    exact Or.inr ⟨hkm, by rw [← hOZ]; exact IsSubClass_self O⟩
  · intro _
    exact IsAssignableFrom_same A B e

/-- Arrays over the root class against arrays over an element class `Z` that is neither an
array nor an interface: `O[]^k` is assignable from `Z[]^m` iff `k < m`, or `k = m` and the walk
of the superclasses of `Z` meets `O`. -/
theorem IsAssignableFrom_array_depth_aux {loaded : Class → Prop} {root : Nat}
    (wf : ClassTable.WellFormed loaded root) (O Z : Class) (hOr : O.addr = root)
    (hOi : O.IsInterface = false) (hOc : O.GetComponentType = none) (hZ : loaded Z)
    (hZc : Z.GetComponentType = none) :
    ∀ (k m : Nat) (A B : Class), loaded A → loaded B →
    Class.IsArrayOver O k A → Class.IsArrayOver Z m B →
    (A.IsAssignableFrom B = true ↔ (k < m ∨ (k = m ∧ Z.IsSubClass O = true)))
  | 0, 0, A, B, hAl, hBl, hA, hB => by
    by_cases e : A.addr = B.addr
    · exact IsAssignableFrom_array_depth_same wf O Z hOc hZc 0 0 A B hAl hBl hA hB e
    have hAO : A = O := hA
    have hBZ : B = Z := hB
    rw [hAO, hBZ] at e
    rw [hAO, hBZ, IsAssignableFrom_plain O Z e hOi hZc]
    simp
  | 0, m + 1, A, B, hAl, hBl, hA, hB => by
    by_cases e : A.addr = B.addr
    · exact IsAssignableFrom_array_depth_same wf O Z hOc hZc 0 (m + 1) A B hAl hBl hA hB e
    have hAO : A = O := hA
    obtain ⟨K, hK, _⟩ := hB
    rw [hAO] at e
    rw [hAO, IsAssignableFrom_root O B K e hOi hOc hK, ptrEq_some]
    obtain ⟨O', hO', hroot⟩ := wf.array_super B hBl (isArrayClass_of_component hK)
    constructor
    · intro _
      exact Or.inl (Nat.succ_pos m)
    · intro _
      exact ⟨O', hO', by rw [hOr, hroot]⟩
  | k + 1, 0, A, B, hAl, hBl, hA, hB => by
    by_cases e : A.addr = B.addr
    · exact IsAssignableFrom_array_depth_same wf O Z hOc hZc (k + 1) 0 A B hAl hBl hA hB e
    have hBZ : B = Z := hB
    obtain ⟨K, hK, _⟩ := hA
    have hAi := wf.array_not_interface A hAl (isArrayClass_of_component hK)
    rw [hBZ] at e
    rw [hBZ, IsAssignableFrom_plain A Z e hAi hZc, IsSubClass_iff]
    constructor
    · rintro ⟨S, hS, haddr⟩
      exfalso
      have hSl := superChain_loaded wf Z hZ S hS
      have hSA : S = A := wf.addr_inj S A hSl hAl haddr
      rcases superChain_plain wf Z hZ S hS with hSB | ⟨hSa, _⟩
      · rw [hSA] at hSB
        rw [hSB, hZc] at hK
        cases hK
      · rw [hSA, isArrayClass_of_component hK] at hSa
        cases hSa
    · rintro (h | ⟨h, _⟩)
      · exact absurd h (Nat.not_lt_zero _)
      · exact absurd h (Nat.succ_ne_zero k)
  | k + 1, m + 1, A, B, hAl, hBl, hA, hB => by
    by_cases e : A.addr = B.addr
    · exact IsAssignableFrom_array_depth_same wf O Z hOc hZc (k + 1) (m + 1) A B hAl hBl hA
        hB e
    obtain ⟨KA, hKA, hA'⟩ := hA
    obtain ⟨KB, hKB, hB'⟩ := hB
    have hAi := wf.array_not_interface A hAl (isArrayClass_of_component hKA)
    rw [IsAssignableFrom_arrays A B KA KB e hAi hKA hKB,
      IsAssignableFrom_array_depth_aux wf O Z hOr hOi hOc hZ hZc k m KA KB
        (wf.component_loaded A KA hAl hKA) (wf.component_loaded B KB hBl hKB) hA' hB']
    constructor
    · rintro (h | ⟨h, hs⟩)
      · exact Or.inl (Nat.succ_lt_succ h)
      · exact Or.inr ⟨congrArg Nat.succ h, hs⟩
    · rintro (h | ⟨h, hs⟩)
      · exact Or.inl (Nat.lt_of_succ_lt_succ h)
      · exact Or.inr ⟨Nat.succ.inj h, hs⟩

/-- C31. Array-depth rule of the assignability table, in a class table with the invariants of
the class linker: with `O` the root object class, `Y` a reference class that is neither an
array nor an interface (its superclass walk ends at `O`), and `P` a primitive class (no
superclass, not the root class), for all `k` and `m`: `O[]^k` is assignable from `Y[]^m` iff
`k <= m`, and `O[]^k` is assignable from `P[]^m` iff `k < m`. -/
theorem IsAssignableFrom_array_depth {loaded : Class → Prop} {root : Nat}
    (wf : ClassTable.WellFormed loaded root) (O : Class) (hOr : O.addr = root)
    (hOi : O.IsInterface = false) (hOc : O.GetComponentType = none) (k m : Nat) (A B : Class)
    (hA : loaded A) (hB : loaded B) (hAk : Class.IsArrayOver O k A) :
    (∀ Y, loaded Y → Y.GetComponentType = none → Y.IsSubClass O = true →
      Class.IsArrayOver Y m B → (A.IsAssignableFrom B = true ↔ k ≤ m)) ∧
    (∀ P, loaded P → P.GetComponentType = none → P.GetSuperClass = none → P.addr ≠ root →
      Class.IsArrayOver P m B → (A.IsAssignableFrom B = true ↔ k < m)) := by
  constructor
  · intro Y hY hYc hsub hBm
    rw [IsAssignableFrom_array_depth_aux wf O Y hOr hOi hOc hY hYc k m A B hA hB hAk hBm]
    constructor
    · rintro (h | ⟨h, _⟩) <;> omega
    · intro h
      rcases Nat.lt_or_eq_of_le h with h | h
      · exact Or.inl h
      · exact Or.inr ⟨h, hsub⟩
  · intro P hP hPc hPs hPr hBm
    rw [IsAssignableFrom_array_depth_aux wf O P hOr hOi hOc hP hPc k m A B hA hB hAk hBm]
    have hnot : P.IsSubClass O = false := by
      rw [Bool.eq_false_iff, Ne, IsSubClass_iff, superChain_eq, hPs]
      rintro ⟨S, hS, haddr⟩
      simp only [List.mem_singleton] at hS
      rw [hS, hOr] at haddr
      exact hPr haddr
    rw [hnot]
    simp

/-- C31 witness: in the sample class table `Object` is assignable from `Task[]` (depths 0 and
1); and the entries of the table of the source evaluate as it says: `Object`, `Object[]` and
`Object[][]` are assignable from `Task[][]`, `Object[][][]` is not, and `Object[]` is not
assignable from `int[]`. -/
theorem IsAssignableFrom_array_depth_witness :
    Sample.java_lang_Object.IsAssignableFrom Sample.Task_array = true ∧
    Sample.java_lang_Object.IsAssignableFrom Sample.Task_array2 = true ∧
    Sample.Object_array.IsAssignableFrom Sample.Task_array2 = true ∧
    Sample.Object_array2.IsAssignableFrom Sample.Task_array2 = true ∧
    Sample.Object_array3.IsAssignableFrom Sample.Task_array2 = false ∧
    Sample.Object_array.IsAssignableFrom Sample.int_array = false :=
  ⟨((IsAssignableFrom_array_depth Sample.wellFormed Sample.java_lang_Object rfl (by decide)
      rfl 0 1 Sample.java_lang_Object Sample.Task_array (by simp [Sample.loaded])
      (by simp [Sample.loaded]) rfl).1 Sample.Task (by simp [Sample.loaded]) rfl (by decide)
      ⟨Sample.Task, rfl, rfl⟩).mpr (by decide),
    by decide, by decide, by decide, by decide, by decide⟩

/-! ## Signatures -/

/-- Skipping the `[` in front of a text that does not start with `[`. -/
theorem dropWhile_brackets (l : List Nat) (h : l.headD 0 ≠ 0x5b) : ∀ (j : Nat),
    (List.replicate j 0x5b ++ l).dropWhile (fun ch => ch == 0x5b) = l
  | 0 => by
    cases l with
    | nil => rfl
    | cons a t =>
      have : a ≠ 0x5b := h
      simp [List.dropWhile_cons, this]
  | j + 1 => by
    rw [List.replicate_succ, List.cons_append, List.dropWhile_cons]
    simp only [beq_self_eq_true, if_true]
    exact dropWhile_brackets l h j

/-- Skipping to the first `;` of a text. -/
theorem dropWhile_to_semicolon (rest : List Nat) : ∀ (name : List Nat), 0x3b ∉ name →
    (name ++ 0x3b :: rest).dropWhile (fun ch => ch != 0x3b) = 0x3b :: rest
  | [], _ => by simp [List.dropWhile_cons]
  | a :: t, h => by
    have ha : a ≠ 0x3b := fun e => h (e ▸ List.mem_cons_self _ _)
    rw [List.cons_append, List.dropWhile_cons]
    simp only [bne_iff_ne, ne_eq, ha, not_false_eq_true, if_true]
    exact dropWhile_to_semicolon rest t (fun hm => h (List.mem_cons_of_mem _ hm))

/-- The text between the start of a descriptor and the pointer after it. -/
theorem take_descriptor (d rest : List Nat) :
    (d ++ rest).take ((d ++ rest).length - rest.length) = d := by
  rw [List.length_append, Nat.add_sub_cancel, List.take_left]

/-- A descriptor is a run of `[` followed by a primitive character or by `L...;`. -/
theorem IsDescriptor_shape {d : List Nat} (h : IsDescriptor d) :
    ∃ j e, d = List.replicate j 0x5b ++ e ∧
      ((∃ c, c ∈ primitiveDescriptorChars ∧ e = [c]) ∨
        (∃ name, 0x3b ∉ name ∧ e = 0x4c :: name ++ [0x3b])) := by
  induction h with
  | primitive c hc => exact ⟨0, [c], rfl, Or.inl ⟨c, hc, rfl⟩⟩
  | object name hn => exact ⟨0, _, rfl, Or.inr ⟨name, hn, rfl⟩⟩
  | array d _ ih =>
    obtain ⟨j, e, hd, he⟩ := ih
    exact ⟨j + 1, e, by rw [hd, List.replicate_succ, List.cons_append], he⟩

/-- A primitive descriptor character is neither `[` nor `L`. -/
theorem primitiveDescriptorChar_ne {c : Nat} (h : c ∈ primitiveDescriptorChars) :
    c ≠ 0x5b ∧ c ≠ 0x4c := by
  simp only [primitiveDescriptorChars, List.mem_cons, List.mem_singleton, List.not_mem_nil,
    or_false] at h
  rcases h with rfl | rfl | rfl | rfl | rfl | rfl | rfl | rfl | rfl <;> decide

/-- One call of `ExtractNextClassFromSignature` at a well-formed descriptor hands the loader
that descriptor and moves the pointer to the text after it. -/
theorem ExtractNextClassFromSignature_descriptor (rt : ReflectionRuntime) (cl : Nat)
    (d rest : List Nat) (h : IsDescriptor d) :
    ExtractNextClassFromSignature rt cl (d ++ rest) = (rt.handed cl d, rest) := by
  obtain ⟨j, e, hd, he⟩ := IsDescriptor_shape h
  rcases he with ⟨c, hc, rfl⟩ | ⟨name, hn, rfl⟩
  · -- the element is a primitive character
    obtain ⟨hc1, hc2⟩ := primitiveDescriptorChar_ne hc
    cases j with
    | zero =>
      rw [hd]
      simp [ExtractNextClassFromSignature, ReflectionRuntime.handed, hc1, hc2]
    | succ j =>
      have hhead : (d ++ rest).headD 0 = 0x5b := by rw [hd]; rfl
      have hdhead : d.headD 0 = 0x5b := by rw [hd]; rfl
      have hskip : (d ++ rest).dropWhile (fun ch => ch == 0x5b) = c :: rest := by
        rw [hd, List.append_assoc]
        exact dropWhile_brackets (c :: rest) hc1 (j + 1)
      unfold ExtractNextClassFromSignature ReflectionRuntime.handed
      simp only [hhead, hdhead, hskip, if_true, true_or, List.headD_cons, hc2, if_false,
        List.drop_succ_cons, List.drop_zero, take_descriptor]
  · -- the element is `L...;`
    have hto : (0x4c :: name ++ [0x3b] ++ rest).dropWhile (fun ch => ch != 0x3b) =
        0x3b :: rest := by
      have := dropWhile_to_semicolon rest (0x4c :: name)
        (by
          intro hm
          rcases List.mem_cons.mp hm with h | h
          · cases h
          · exact hn h)
      simpa using this
    cases j with
    | zero =>
      have hdeq : d = 0x4c :: name ++ [0x3b] := by rw [hd]; rfl
      have hhead : (d ++ rest).headD 0 = 0x4c := by rw [hdeq]; rfl
      have hdhead : d.headD 0 = 0x4c := by rw [hdeq]; rfl
      have hto' : (d ++ rest).dropWhile (fun ch => ch != 0x3b) = 0x3b :: rest := by
        rw [hdeq]
        exact hto
      unfold ExtractNextClassFromSignature ReflectionRuntime.handed
      simp only [hhead, hdhead, hto', if_true, or_true, List.drop_succ_cons, List.drop_zero,
        take_descriptor]
      simp
    | succ j =>
      have hhead : (d ++ rest).headD 0 = 0x5b := by rw [hd]; rfl
      have hdhead : d.headD 0 = 0x5b := by rw [hd]; rfl
      have hskip : (d ++ rest).dropWhile (fun ch => ch == 0x5b) =
          0x4c :: name ++ [0x3b] ++ rest := by
        rw [hd, List.append_assoc]
        exact dropWhile_brackets (0x4c :: name ++ [0x3b] ++ rest)
          (by simp) (j + 1)
      unfold ExtractNextClassFromSignature ReflectionRuntime.handed
      simp only [hhead, hdhead, hskip, hto, if_true, true_or, List.drop_succ_cons,
        List.drop_zero, take_descriptor]
      simp [hto]

/-- The text of a concatenation of descriptor lists. -/
theorem signatureText_append (pre post : List (List Nat)) (rest : List Nat) :
    signatureText (pre ++ post) rest = signatureText pre (signatureText post rest) := by
  unfold signatureText
  rw [List.foldr_append]

/-- After as many calls as there are descriptors the cursor is on the text after them. -/
theorem ExtractNextClassFromSignature_cursor (rt : ReflectionRuntime) (cl : Nat)
    (rest : List Nat) : ∀ (ds : List (List Nat)), (∀ d ∈ ds, IsDescriptor d) →
    ExtractNextClassFromSignature.cursor rt cl ds.length (signatureText ds rest) = rest
  | [], _ => rfl
  | d :: ds, h => by
    have hd := ExtractNextClassFromSignature_descriptor rt cl d (signatureText ds rest)
      (h d (List.mem_cons_self _ _))
    have htext : signatureText (d :: ds) rest = d ++ signatureText ds rest := rfl
    rw [List.length_cons, ExtractNextClassFromSignature.cursor, htext, hd]
    exact ExtractNextClassFromSignature_cursor rt cl rest ds
      (fun x hx => h x (List.mem_cons_of_mem _ hx))

/-- The parameter loop of `InitJavaFieldsLocked` on well-formed descriptors that all resolve:
it stores the classes the loader returns for them, in order, and ends on the text after
them. -/
theorem InitJavaFieldsLocked_loop_descriptors (rt : ReflectionRuntime) (cl : Nat)
    (rest : List Nat) : ∀ (ds : List (List Nat)), (∀ d ∈ ds, IsDescriptor d) →
    (∀ d ∈ ds, (rt.handed cl d).isSome = true) →
    ∃ classes, Method.InitJavaFieldsLocked.loop rt cl ds.length (signatureText ds rest) =
        some (classes, rest) ∧
      classes.map some = ds.map (rt.handed cl)
  | [], _, _ => ⟨[], rfl, rfl⟩
  | d :: ds, h, hres => by
    have hd := ExtractNextClassFromSignature_descriptor rt cl d (signatureText ds rest)
      (h d (List.mem_cons_self _ _))
    have htext : signatureText (d :: ds) rest = d ++ signatureText ds rest := rfl
    obtain ⟨classes, hloop, hclasses⟩ := InitJavaFieldsLocked_loop_descriptors rt cl rest ds
      (fun x hx => h x (List.mem_cons_of_mem _ hx))
      (fun x hx => hres x (List.mem_cons_of_mem _ hx))
    obtain ⟨c, hc⟩ := Option.isSome_iff_exists.mp (hres d (List.mem_cons_self _ _))
    refine ⟨c :: classes, ?_, ?_⟩
    · rw [List.length_cons, Method.InitJavaFieldsLocked.loop, htext, hd]
      simp only [hc, hloop]
    · rw [List.map_cons, List.map_cons, hclasses, hc]

/-- C32. For every well-formed signature `(P1...Pn)R` (each `Pi` and `R` a primitive character,
an `L...;` descriptor, or a run of `[` followed by one of those; `tail` is what follows `R`):
the call of `ExtractNextClassFromSignature` number `i` of `n` successive calls starting after
`(` is made with the cursor at `Pi`, hands the loader exactly `Pi` and leaves the cursor right
after `Pi`; after the `n` calls the cursor is on `)`; and the call after `)` hands the loader
exactly `R` and leaves the cursor after it.  When every parameter class is found, the loop of
`InitJavaFieldsLocked` stores these classes and ends on `)`. -/
theorem ExtractNextClassFromSignature_signature (rt : ReflectionRuntime) (cl : Nat)
    (ds : List (List Nat)) (R tail : List Nat) (hds : ∀ d ∈ ds, IsDescriptor d)
    (hR : IsDescriptor R) :
    (∀ pre d post, ds = pre ++ d :: post →
      ExtractNextClassFromSignature.cursor rt cl pre.length
          (signatureText ds (0x29 :: R ++ tail)) =
        d ++ signatureText post (0x29 :: R ++ tail) ∧
      ExtractNextClassFromSignature rt cl (d ++ signatureText post (0x29 :: R ++ tail)) =
        (rt.handed cl d, signatureText post (0x29 :: R ++ tail))) ∧
    ExtractNextClassFromSignature.cursor rt cl ds.length
        (signatureText ds (0x29 :: R ++ tail)) = 0x29 :: R ++ tail ∧
    ExtractNextClassFromSignature rt cl (R ++ tail) = (rt.handed cl R, tail) ∧
    ((∀ d ∈ ds, (rt.handed cl d).isSome = true) →
      ∃ classes, Method.InitJavaFieldsLocked.loop rt cl ds.length
          (signatureText ds (0x29 :: R ++ tail)) = some (classes, 0x29 :: R ++ tail) ∧
        classes.map some = ds.map (rt.handed cl)) := by
  refine ⟨?_, ExtractNextClassFromSignature_cursor rt cl _ ds hds,
    ExtractNextClassFromSignature_descriptor rt cl R tail hR,
    InitJavaFieldsLocked_loop_descriptors rt cl _ ds hds⟩
  intro pre d post hsplit
  have hpre : ∀ x ∈ pre, IsDescriptor x := fun x hx =>
    hds x (by rw [hsplit]; exact List.mem_append_left _ hx)
  have hd : IsDescriptor d :=
    hds d (by rw [hsplit]; exact List.mem_append_right _ (List.mem_cons_self _ _))
  constructor
  · rw [hsplit, signatureText_append]
    exact ExtractNextClassFromSignature_cursor rt cl _ pre hpre
  · exact ExtractNextClassFromSignature_descriptor rt cl d _ hd

/-- The parameter descriptors and the return descriptor of the sample signature are well
formed. -/
theorem Sample.parameterDescriptors_wellFormed :
    (∀ d ∈ Sample.parameterDescriptors, IsDescriptor d) ∧ IsDescriptor [0x56] := by
  constructor
  · intro d hd
    simp only [Sample.parameterDescriptors, List.mem_cons, List.mem_singleton,
      List.not_mem_nil, or_false] at hd
    rcases hd with rfl | rfl | rfl
    · exact .primitive _ (by decide)
    · exact .array _ (.object [0x70, 0x2f, 0x71, 0x2f, 0x54, 0x61, 0x73, 0x6b] (by decide))
    · exact .array _ (.array _ (.primitive _ (by decide)))
  · exact .primitive _ (by decide)

/-- C32 witness: on the signature `(I[Lp/q/Task;[[J)V` the three calls after `(` leave the
cursor on `)V`, the second call is handed the eleven characters of `[Lp/q/Task;`, and the call
after `)` is handed `V`. -/
theorem ExtractNextClassFromSignature_signature_witness :
    signatureText Sample.parameterDescriptors [0x29, 0x56] =
      "I[Lp/q/Task;[[J)V".data.map Char.toNat ∧
    ExtractNextClassFromSignature.cursor Sample.echoRuntime 0 3
      (signatureText Sample.parameterDescriptors [0x29, 0x56]) = [0x29, 0x56] ∧
    (ExtractNextClassFromSignature Sample.echoRuntime 0
      ("[Lp/q/Task;[[J)V".data.map Char.toNat)).1 = some 11 ∧
    ExtractNextClassFromSignature Sample.echoRuntime 0 [0x56] = (some 0x56, []) :=
  ⟨by decide,
    (ExtractNextClassFromSignature_signature Sample.echoRuntime 0 Sample.parameterDescriptors
      [0x56] [] Sample.parameterDescriptors_wellFormed.1
      Sample.parameterDescriptors_wellFormed.2).2.1,
    by decide, by decide⟩

/-! ## Virtual-method lookup: the two overloads -/

/-- The decoder reads a byte below `0x80` as the code unit it is and steps over it. -/
theorem GetUtf16FromUtf8_ascii (b : Nat) (rest : List Nat) (h : b < 128) :
    GetUtf16FromUtf8 (b :: rest) = (b, rest) := by
  have hb : b / 128 % 2 = 0 := by omega
  rcases rest with _ | ⟨c, _ | ⟨d, rest⟩⟩ <;> simp [GetUtf16FromUtf8, hb]

/-- Units in `0x01..0x7f` are their own modified UTF-8 text. -/
theorem ConvertUtf16ToModifiedUtf8_ascii : ∀ (l : List Nat),
    (∀ u ∈ l, 1 ≤ u ∧ u ≤ 0x7f) → ConvertUtf16ToModifiedUtf8 l = l
  | [], _ => rfl
  | u :: rest, h => by
    rw [ConvertUtf16ToModifiedUtf8, ConvertUtf16UnitToModifiedUtf8,
      if_pos (h u (List.mem_cons_self _ _)),
      ConvertUtf16ToModifiedUtf8_ascii rest (fun x hx => h x (List.mem_cons_of_mem _ hx))]
    rfl

/-- A window of a list whose reads are all non-zero lies inside the list. -/
theorem take_drop_eq_map_getD (l : List Nat) (off n : Nat)
    (h : ∀ i, i < n → l.getD (i + off) 0 ≠ 0) :
    (l.drop off).take n = (List.range n).map (fun i => l.getD (i + off) 0) := by
  apply List.ext_getElem?
  intro i
  by_cases hi : i < n
  · have hne := h i hi
    have hlt : i + off < l.length := by
      by_contra hge
      apply hne
      rw [List.getD_eq_getElem?_getD, List.getElem?_eq_none (by omega)]
      rfl
    rw [List.getElem?_take_of_lt hi, List.getElem?_drop, List.getElem?_map,
      List.getElem?_range hi, Nat.add_comm off i, Option.map_some',
      List.getD_eq_getElem?_getD, List.getElem?_eq_getElem hlt]
    rfl
  · rw [List.getElem?_eq_none (by simp; omega), List.getElem?_eq_none (by simp; omega)]

/-- The modified UTF-8 text of an ASCII string is the list of its code units. -/
theorem ToModifiedUtf8_of_ascii (s : String) (h : s.IsAscii) : s.ToModifiedUtf8 = s.units := by
  have hread : ∀ i, i < s.count_ → s.array_.getD (i + s.offset_) 0 = s.CharAt i := by
    intro i hi
    rw [String.CharAt_of_lt s i hi, Nat.add_comm]
  have hwindow : (s.array_.drop s.offset_).take s.count_ = s.units := by
    rw [take_drop_eq_map_getD s.array_ s.offset_ s.count_
      (fun i hi => by rw [hread i hi]; have := (h i hi).1; omega)]
    unfold String.units
    apply List.map_congr_left
    intro i hi
    exact hread i (List.mem_range.mp hi)
  unfold String.ToModifiedUtf8
  rw [hwindow]
  apply ConvertUtf16ToModifiedUtf8_ascii
  intro u hu
  unfold String.units at hu
  obtain ⟨i, hi, rfl⟩ := List.mem_map.mp hu
  exact h i (List.mem_range.mp hi)

/-- The units of an ASCII string are below `0x80`. -/
theorem units_lt_of_ascii (s : String) (h : s.IsAscii) : ∀ b ∈ s.units, b < 128 := by
  intro b hb
  unfold String.units at hb
  obtain ⟨i, hi, rfl⟩ := List.mem_map.mp hb
  have := (h i (List.mem_range.mp hi)).2
  omega

/-- On bytes below `0x80` the comparison loop of `Equals(const StringPiece&)` is true iff the
code units from index `i` on are the bytes. -/
theorem Equals_StringPiece_loop_ascii (this : String) : ∀ (p : List Nat) (i : Nat),
    (∀ b ∈ p, b < 128) →
    (String.Equals_StringPiece.loop this p.length i p = true ↔
      (List.range' i p.length).map this.CharAt = p)
  | [], i, _ => by simp [String.Equals_StringPiece.loop]
  | b :: rest, i, h => by
    have ih := Equals_StringPiece_loop_ascii this rest (i + 1)
      (fun x hx => h x (List.mem_cons_of_mem _ hx))
    rw [List.length_cons, String.Equals_StringPiece.loop,
      GetUtf16FromUtf8_ascii b rest (h b (List.mem_cons_self _ _)), List.range'_succ,
      List.map_cons, List.cons.injEq]
    by_cases hb : b = this.CharAt i
    · simp only [hb, ne_eq, not_true_eq_false, if_false, true_and]
      exact ih
    · have hb2 : ¬ this.CharAt i = b := fun e => hb e.symm
      simp [hb, hb2]

/-- On bytes below `0x80`, `Equals(const StringPiece&)` is true iff the code units of the
string are the bytes. -/
theorem Equals_StringPiece_ascii (this : String) (p : List Nat) (hp : ∀ b ∈ p, b < 128) :
    this.Equals_StringPiece p = true ↔ this.units = p := by
  unfold String.Equals_StringPiece String.GetLength
  by_cases hlen : p.length = this.count_
  · rw [if_neg (not_not.mpr hlen), ← hlen, Equals_StringPiece_loop_ascii this p 0 hp]
    unfold String.units
    rw [List.range_eq_range', ← hlen]
  · rw [if_pos hlen]
    constructor
    · intro hf
      cases hf
    · intro hu
      exfalso
      apply hlen
      rw [← hu]
      unfold String.units
      simp

/-- The content test of the `StringPiece` overload, given the text of an ASCII string, is the
equality of code units. -/
theorem Equals_StringPiece_ToModifiedUtf8 (s t : String) (ht : t.IsAscii) :
    s.Equals_StringPiece t.ToModifiedUtf8 = true ↔ s.units = t.units := by
  rw [ToModifiedUtf8_of_ascii t ht]
  exact Equals_StringPiece_ascii s t.units (units_lt_of_ascii t ht)

/-- The loop of the `String*` overload returns the first method whose name and signature are
the given objects. -/
theorem FindDeclaredVirtualMethod_loop_eq (name signature : StringPtr) :
    ∀ (methods : List Method),
    Class.FindDeclaredVirtualMethod.loop name signature methods =
      methods.find? (fun m =>
        decide (m.name_.addr = name.addr ∧ m.signature_.addr = signature.addr))
  | [] => rfl
  | m :: rest => by
    rw [Class.FindDeclaredVirtualMethod.loop, List.find?_cons,
      FindDeclaredVirtualMethod_loop_eq name signature rest]
    by_cases h : m.name_.addr = name.addr ∧ m.signature_.addr = signature.addr
    · rw [if_pos h, decide_eq_true h]
    · rw [if_neg h, decide_eq_false h]

/-- The loop of the `StringPiece` overload returns the first method whose name and signature
have the given texts, as `Equals(const StringPiece&)` compares them. -/
theorem FindDeclaredVirtualMethod_StringPiece_loop_eq (name signature : List Nat) :
    ∀ (methods : List Method),
    Class.FindDeclaredVirtualMethod_StringPiece.loop name signature methods =
      methods.find? (fun m => m.name_.object.Equals_StringPiece name &&
        m.signature_.object.Equals_StringPiece signature)
  | [] => rfl
  | m :: rest => by
    rw [Class.FindDeclaredVirtualMethod_StringPiece.loop, List.find?_cons,
      FindDeclaredVirtualMethod_StringPiece_loop_eq name signature rest]
    cases h : (m.name_.object.Equals_StringPiece name &&
      m.signature_.object.Equals_StringPiece signature) <;> simp

/-- The `String*` overload of `FindVirtualMethod` returns the first match of the search
order. -/
theorem FindVirtualMethod_eq_aux (heap : ClassHeap) (name signature : StringPtr) :
    ∀ (C : Class),
    C.FindVirtualMethod heap name signature =
      (Class.FindVirtualMethod.searchOrder heap C).find? (fun m =>
        decide (m.name_.addr = name.addr ∧ m.signature_.addr = signature.addr))
  | .mk a fl d l none c i => by
    rw [Class.FindVirtualMethod, Class.FindVirtualMethod.searchOrder, find?_append_or]
    simp only [Class.FindDeclaredVirtualMethod, FindDeclaredVirtualMethod_loop_eq, Class.addr,
      List.find?_nil]
    cases List.find? (fun m =>
      decide (m.name_.addr = name.addr ∧ m.signature_.addr = signature.addr))
      (heap.virtual_methods_ a) <;> rfl
  | .mk a fl d l (some super) c i => by
    rw [Class.FindVirtualMethod, Class.FindVirtualMethod.searchOrder, find?_append_or,
      FindVirtualMethod_eq_aux heap name signature super]
    simp only [Class.FindDeclaredVirtualMethod, FindDeclaredVirtualMethod_loop_eq, Class.addr]
    cases List.find? (fun m =>
      decide (m.name_.addr = name.addr ∧ m.signature_.addr = signature.addr))
      (heap.virtual_methods_ a) <;> rfl

/-- The `StringPiece` overload of `FindVirtualMethod` returns the first match of the search
order. -/
theorem FindVirtualMethod_StringPiece_eq_aux (heap : ClassHeap) (name signature : List Nat) :
    ∀ (C : Class),
    C.FindVirtualMethod_StringPiece heap name signature =
      (Class.FindVirtualMethod.searchOrder heap C).find? (fun m =>
        m.name_.object.Equals_StringPiece name &&
          m.signature_.object.Equals_StringPiece signature)
  | .mk a fl d l none c i => by
    rw [Class.FindVirtualMethod_StringPiece, Class.FindVirtualMethod.searchOrder,
      find?_append_or]
    simp only [Class.FindDeclaredVirtualMethod_StringPiece,
      FindDeclaredVirtualMethod_StringPiece_loop_eq, Class.addr, List.find?_nil]
    cases List.find? (fun m => m.name_.object.Equals_StringPiece name &&
      m.signature_.object.Equals_StringPiece signature) (heap.virtual_methods_ a) <;> rfl
  | .mk a fl d l (some super) c i => by
    rw [Class.FindVirtualMethod_StringPiece, Class.FindVirtualMethod.searchOrder,
      find?_append_or, FindVirtualMethod_StringPiece_eq_aux heap name signature super]
    simp only [Class.FindDeclaredVirtualMethod_StringPiece,
      FindDeclaredVirtualMethod_StringPiece_loop_eq, Class.addr]
    cases List.find? (fun m => m.name_.object.Equals_StringPiece name &&
      m.signature_.object.Equals_StringPiece signature) (heap.virtual_methods_ a) <;> rfl

/-- Two tests that agree on every element of a list have the same first match. -/
theorem find?_congr_on {α : Type} (p q : α → Bool) : ∀ (xs : List α),
    (∀ x ∈ xs, p x = q x) → xs.find? p = xs.find? q
  | [], _ => rfl
  | x :: xs, h => by
    rw [List.find?_cons, List.find?_cons, h x (List.mem_cons_self _ _),
      find?_congr_on p q xs (fun y hy => h y (List.mem_cons_of_mem _ hy))]

/-- Counterexample to C38 as stated.  `run_copy` is a `String` object with the text `run` at
another address than the name of `Task.run()`: the overload by identity finds no method, the
overload by content, given the text of the same object, finds `Task.run()`.  In the other
direction, the overload by identity finds `A.été()` by its own name object, and the overload
by content, given the modified UTF-8 text of that object, finds nothing. -/
theorem FindVirtualMethod_overloads_counterexample :
    Sample.Task.FindVirtualMethod Sample.methodHeap Sample.run_copy
      Sample.Task_run.signature_ = none ∧
    Sample.Task.FindVirtualMethod_StringPiece Sample.methodHeap
      Sample.run_copy.object.ToModifiedUtf8 Sample.Task_run.signature_.object.ToModifiedUtf8 =
        some Sample.Task_run ∧
    Sample.p_q_A.FindVirtualMethod Sample.accentHeap Sample.ete_name
      Sample.A_ete.signature_ = some Sample.A_ete ∧
    Sample.p_q_A.FindVirtualMethod_StringPiece Sample.accentHeap
      Sample.ete_name.object.ToModifiedUtf8 Sample.A_ete.signature_.object.ToModifiedUtf8 =
        none :=
  ⟨rfl, rfl, rfl, rfl⟩

/-- C38 (as amended). For every class `C` and every pair of `String` objects
`(name, signature)` whose code units all lie in `0x01..0x7f`, when strings are interned over
the methods searched (a virtual method declared on the superclass chain of `C` has the object
`name` as its name exactly when its name has the same code units, and likewise for the
signature), `FindVirtualMethod(String*, String*)` returns the same method as
`FindVirtualMethod(StringPiece, StringPiece)` given the modified UTF-8 text of the same name
and signature.  Each overload returns the first match of its test among the declared virtual
methods of the classes of the superclass chain, nearest class first, so that a declaration of
a subclass shadows one of a superclass. -/
theorem FindVirtualMethod_overloads_agree (heap : ClassHeap) (C : Class)
    (name signature : StringPtr) (hn : name.object.IsAscii) (hs : signature.object.IsAscii)
    (hi : heap.Interned C name signature) :
    C.FindVirtualMethod_StringPiece heap name.object.ToModifiedUtf8
        signature.object.ToModifiedUtf8 = C.FindVirtualMethod heap name signature ∧
    C.FindVirtualMethod heap name signature =
      (Class.FindVirtualMethod.searchOrder heap C).find? (fun m =>
        decide (m.name_.addr = name.addr ∧ m.signature_.addr = signature.addr)) ∧
    C.FindVirtualMethod_StringPiece heap name.object.ToModifiedUtf8
        signature.object.ToModifiedUtf8 =
      (Class.FindVirtualMethod.searchOrder heap C).find? (fun m =>
        m.name_.object.Equals_StringPiece name.object.ToModifiedUtf8 &&
          m.signature_.object.Equals_StringPiece signature.object.ToModifiedUtf8) := by
  refine ⟨?_, FindVirtualMethod_eq_aux heap name signature C,
    FindVirtualMethod_StringPiece_eq_aux heap _ _ C⟩
  rw [FindVirtualMethod_eq_aux, FindVirtualMethod_StringPiece_eq_aux]
  apply find?_congr_on
  intro m hm
  obtain ⟨h1, h2⟩ := hi m hm
  have e1 := Equals_StringPiece_ToModifiedUtf8 m.name_.object name.object hn
  have e2 := Equals_StringPiece_ToModifiedUtf8 m.signature_.object signature.object hs
  rw [Bool.eq_iff_iff, Bool.and_eq_true, decide_eq_true_iff, e1, e2, h1, h2]

/-- C38 witness: on `Task`, whose superclass `Object` also declares `toString`, both overloads
return `Task.toString()` for the name and signature objects of that method. -/
theorem FindVirtualMethod_overloads_agree_witness :
    Sample.Task_toString.name_.object.IsAscii ∧
    Sample.Task_toString.signature_.object.IsAscii ∧
    Sample.methodHeap.Interned Sample.Task Sample.Task_toString.name_
      Sample.Task_toString.signature_ ∧
    Sample.Task.FindVirtualMethod_StringPiece Sample.methodHeap
        Sample.Task_toString.name_.object.ToModifiedUtf8
        Sample.Task_toString.signature_.object.ToModifiedUtf8 =
      Sample.Task.FindVirtualMethod Sample.methodHeap Sample.Task_toString.name_
        Sample.Task_toString.signature_ ∧
    Sample.Task.FindVirtualMethod Sample.methodHeap Sample.Task_toString.name_
        Sample.Task_toString.signature_ = some Sample.Task_toString :=
  ⟨by unfold String.IsAscii; decide, by unfold String.IsAscii; decide,
    by unfold ClassHeap.Interned; decide,
    (FindVirtualMethod_overloads_agree Sample.methodHeap Sample.Task
      Sample.Task_toString.name_ Sample.Task_toString.signature_
      (by unfold String.IsAscii; decide) (by unfold String.IsAscii; decide)
      (by unfold ClassHeap.Interned; decide)).1,
    rfl⟩

/-- A non-static call of `FindOverriddenMethod` fails exactly when the declaring class has no
superclass, or when the method index is not inside the superclass vtable and the declaring
class has no array of direct interfaces. -/
theorem FindOverriddenMethod_eq_none_iff (heap : ClassHeap) (m : Method)
    (hs : m.IsStatic = false) :
    m.FindOverriddenMethod heap = none ↔
      (m.declaring_class_.GetSuperClass = none ∨
        (heap.interfaces_ m.declaring_class_.addr = none ∧
          ∀ super vtable, m.declaring_class_.GetSuperClass = some super →
            heap.vtable_ super.addr = some vtable →
            vtable.length ≤ m.method_index_ % 2 ^ 16)) := by
  cases hsuper : m.declaring_class_.GetSuperClass with
  | none =>
    have hval : m.FindOverriddenMethod heap = none := by
      unfold Method.FindOverriddenMethod
      simp only [hs, hsuper, Bool.false_eq_true, if_false]
    rw [hval]
    exact ⟨fun _ => Or.inl rfl, fun _ => rfl⟩
  | some super =>
    have hleft : ¬ (some super = (none : Option Class)) := fun e => by cases e
    cases hv : heap.vtable_ super.addr with
    | none =>
      cases hi : heap.interfaces_ m.declaring_class_.addr with
      | none =>
        have hval : m.FindOverriddenMethod heap = none := by
          unfold Method.FindOverriddenMethod Method.FindOverriddenMethod.interfaces
          simp only [hs, hsuper, hv, hi, Bool.false_eq_true, if_false]
        rw [hval]
        refine ⟨fun _ => Or.inr ⟨rfl, ?_⟩, fun _ => rfl⟩
        intro super2 vtable hsuper2 hv2
        cases hsuper2
        rw [hv] at hv2
        cases hv2
      | some interfaces =>
        have hval : m.FindOverriddenMethod heap =
            some (Method.FindOverriddenMethod.scan heap m.name_ m.signature_ interfaces) := by
          unfold Method.FindOverriddenMethod Method.FindOverriddenMethod.interfaces
          simp only [hs, hsuper, hv, hi, Bool.false_eq_true, if_false]
        rw [hval]
        refine ⟨fun h => (by cases h), ?_⟩
        rintro (h | ⟨h, _⟩)
        · exact absurd h hleft
        · cases h
    | some vtable =>
      by_cases hk : m.method_index_ % 2 ^ 16 < vtable.length
      · have hval : m.FindOverriddenMethod heap =
            some (vtable.getD (m.method_index_ % 2 ^ 16) none) := by
          unfold Method.FindOverriddenMethod
          simp only [hs, hsuper, hv, if_pos hk, Bool.false_eq_true, if_false]
        rw [hval]
        refine ⟨fun h => (by cases h), ?_⟩
        rintro (h | ⟨_, h⟩)
        · exact absurd h hleft
        · exact absurd (h super vtable rfl hv) (Nat.not_le.mpr hk)
      · cases hi : heap.interfaces_ m.declaring_class_.addr with
        | none =>
          have hval : m.FindOverriddenMethod heap = none := by
            unfold Method.FindOverriddenMethod Method.FindOverriddenMethod.interfaces
            simp only [hs, hsuper, hv, hi, if_neg hk, Bool.false_eq_true, if_false]
          rw [hval]
          refine ⟨fun _ => Or.inr ⟨rfl, ?_⟩, fun _ => rfl⟩
          intro super2 vtable2 hsuper2 hv2
          cases hsuper2
          rw [hv] at hv2
          cases hv2
          exact Nat.not_lt.mp hk
        | some interfaces =>
          have hval : m.FindOverriddenMethod heap =
              some (Method.FindOverriddenMethod.scan heap m.name_ m.signature_ interfaces) := by
            unfold Method.FindOverriddenMethod Method.FindOverriddenMethod.interfaces
            simp only [hs, hsuper, hv, hi, if_neg hk, Bool.false_eq_true, if_false]
          rw [hval]
          refine ⟨fun h => (by cases h), ?_⟩
          rintro (h | ⟨h, _⟩)
          · exact absurd h hleft
          · cases h

/-- C39: evaluation at the failing inputs.  `Object.toString()` is a non-static method of the
root class: the call reads the vtable through the null superclass.  `A.step()` is a non-static
method whose index is beyond the vtable of the superclass and whose declaring class has no
array of direct interfaces: the call reads the length of the null interface array.  Neither
call returns null or a method. -/
theorem FindOverriddenMethod_null_dereference :
    Sample.Object_toString.IsStatic = false ∧
    Sample.Object_toString.declaring_class_.GetSuperClass = none ∧
    (Sample.Object_toString.FindOverriddenMethod Sample.methodHeap).isNone = true ∧
    Sample.A_step.IsStatic = false ∧
    Sample.methodHeap.interfaces_ Sample.A_step.declaring_class_.addr = none ∧
    (Sample.A_step.FindOverriddenMethod Sample.methodHeap).isNone = true :=
  ⟨by decide, rfl, rfl, by decide, rfl, rfl⟩

end art
